import Mathlib

/-!
Verification development for the SessionActionsFramework data model and the
structural-edit operations of its session-flow editor.

The definitions below are a shallow embedding of the Python source:

* `framework_tool/data_models/common_types.py` (`FieldType`),
* `framework_tool/data_models/custom_field_definition.py` (`CustomFieldDefinition`),
* `framework_tool/data_models/sub_action_definition.py` (`SubActionFieldDefinition`),
* `framework_tool/data_models/session_graph.py` (`ActionNode`, `StepDefinition`,
  `SessionActionsGraph`, validation, serialization),
* `framework_tool/gui/widgets/session_flow_editor_widget.py` (the structural
  operations `_handle_add_action_to_step`, `_handle_add_child_action`, ...,
  `_handle_paste_branch_as_parent`).

Conventions of the embedding:

* Python strings are Lean `String`s; Python `None` for an optional string is
  `Option.none`.  Python truthiness tests on strings (`if s:`) are embedded as
  `s ≠ ""` tests, and on optional strings as a `match` that treats both `None`
  and `""` as falsy, exactly where the source uses truthiness.
* Functions that can raise return `Except String α`; the error string is the
  message the Python code builds (single quotes are produced by `sq` below, the
  one-character string holding the quote character).
* `uuid.uuid4()` calls are embedded by passing the freshly generated identifier
  (or a list / generator of identifiers) as an explicit argument; theorems
  hypothesise freshness where the property needs it.
* Python objects are identified by their `node_id` / `step_id`: handler methods
  of the editor widget that receive an `ActionNode` object of the currently
  loaded graph are embedded as functions of the node's id, and attribute
  mutation becomes an update of the node with that id in the graph's `nodes`
  list (the graph's own uniqueness invariant makes the two views agree).
* The Python `while queue:` collection loops are embedded with an explicit
  iteration budget (`fuel`); a separate theorem shows the budget used by the
  operations is always sufficient, which is the termination statement.
-/

namespace SAF

/-- The single-character string holding the ASCII apostrophe, used to build the
error messages of the Python source, which quote offending identifiers. -/
def sq : String := String.singleton (Char.ofNat 39)

/-- Embedding of the JSON-like Python values stored in `default_value` slots and
`custom_field_values` dictionaries: booleans, integers, floats (modelled as
rationals, only literal constants are ever produced), strings and string-keyed
dictionaries. -/
inductive PyValue where
  | bool (b : Bool)
  | int (n : Int)
  | float (q : ℚ)
  | str (s : String)
  | dict (l : List (String × PyValue))

mutual

/-- Structural equality test for `PyValue` (used to build its decidable
equality instance below). -/
def PyValue.beqFn : PyValue → PyValue → Bool
  | .bool a, .bool b => a == b
  | .int a, .int b => a == b
  | .float a, .float b => a == b
  | .str a, .str b => a == b
  | .dict a, .dict b => PyValue.beqList a b
  | _, _ => false

/-- Structural equality test for dictionaries of `PyValue`s. -/
def PyValue.beqList : List (String × PyValue) → List (String × PyValue) → Bool
  | [], [] => true
  | (k, v) :: rest, (k2, v2) :: rest2 =>
    k == k2 && PyValue.beqFn v v2 && PyValue.beqList rest rest2
  | _, _ => false

end

/-- Embedding of `FieldType` from `common_types.py`: the closed enumeration of
supported field kinds. -/
inductive FieldType where
  | BOOLEAN
  | STRING
  | FLOAT
  | INTEGER
  | VECTOR2
  | VECTOR3
  | QUATERNION
  | COLOR_RGBA
  | ENUM_STRING
  | ASSET_PATH_STRING
  | ITEM_LABEL_REFERENCE
deriving DecidableEq, Repr

/-- Embedding of the `value` attribute of each `FieldType` member: the string
token used in JSON. -/
def FieldType.value : FieldType → String
  | .BOOLEAN => ("boolean")
  | .STRING => ("string")
  | .FLOAT => ("float")
  | .INTEGER => ("integer")
  | .VECTOR2 => ("Vector2")
  | .VECTOR3 => ("Vector3")
  | .QUATERNION => ("Quaternion")
  | .COLOR_RGBA => ("ColorRGBA")
  | .ENUM_STRING => ("EnumString")
  | .ASSET_PATH_STRING => ("AssetPathString")
  | .ITEM_LABEL_REFERENCE => ("ItemLabelReference")

/-- Embedding of `CustomFieldDefinition` (its stored attributes): the
constructor stores `enum_values if enum_values is not None else []`, so the
field is a plain list here. -/
structure CustomFieldDefinition where
  field_name : String
  field_type : FieldType
  default_value : Option PyValue
  enum_values : List String

/-- Embedding of `CustomFieldDefinition.__init__`: raises when `field_name` is
falsy; stores the given attributes; performs no check on `enum_values`. -/
def mkCustomFieldDefinition (field_name : String) (field_type : FieldType)
    (default_value : Option PyValue) (enum_values : Option (List String)) :
    Except String CustomFieldDefinition :=
  if field_name = "" then
    .error ("field_name cannot be empty.")
  else
    .ok { field_name := field_name
          field_type := field_type
          default_value := default_value
          enum_values := enum_values.getD [] }

/-- The message of the `AttributeError` raised when
`CustomFieldDefinition.get_default_value_for_type` evaluates the comparison
`self.field_type == FieldType.RGBA`: the enumeration defines `COLOR_RGBA` but
no member named `RGBA`, so the attribute access itself fails. -/
def rgbaAttributeError : String :=
  "AttributeError: type object " ++ sq ++ "FieldType" ++ sq ++
    " has no attribute " ++ sq ++ "RGBA" ++ sq

/-- Embedding of `CustomFieldDefinition.get_default_value_for_type`.  The
Python `elif` chain evaluates `FieldType.RGBA` once every branch up to
`VECTOR3` has failed; that attribute access raises `AttributeError`, so the
branches written for `ENUM_STRING` and `ITEM_LABEL_REFERENCE` (and the final
`return None`) are unreachable, and every field type past `VECTOR3` in the
chain produces the error. -/
def CustomFieldDefinition.get_default_value_for_type
    (f : CustomFieldDefinition) : Except String PyValue :=
  match f.default_value with
  | some v => .ok v
  | none =>
    if f.field_type = .BOOLEAN then .ok (.bool false)
    else if f.field_type = .STRING then .ok (.str "")
    else if f.field_type = .FLOAT then .ok (.float 0)
    else if f.field_type = .INTEGER then .ok (.int 0)
    else if f.field_type = .VECTOR2 then
      .ok (.dict [(("x"), .float 0), (("y"), .float 0)])
    else if f.field_type = .VECTOR3 then
      .ok (.dict [(("x"), .float 0), (("y"), .float 0), (("z"), .float 0)])
    else
      .error rgbaAttributeError

/-- Embedding of `SubActionFieldDefinition` (its stored attributes):
`enum_values` stays `None` for non-enum field types, hence an `Option` here. -/
structure SubActionFieldDefinition where
  field_name : String
  field_type : FieldType
  default_value : Option PyValue
  enum_values : Option (List String)

/-- Lexicographic strict comparison of character lists by code point, the
order Python uses to compare strings. -/
def charsLt : List Char → List Char → Bool
  | [], [] => false
  | [], _ :: _ => true
  | _ :: _, [] => false
  | a :: as, b :: bs =>
    if a.toNat < b.toNat then true
    else if a.toNat = b.toNat then charsLt as bs
    else false

/-- Non-strict string comparison by code point (Python's string order). -/
def strLeB (a b : String) : Bool := a == b || charsLt a.data b.data

/-- Embedding of `sorted(list(set(enum_values)))`: the distinct values in
ascending order. -/
def dedupSort (l : List String) : List String :=
  List.insertionSort (fun a b => strLeB a b = true) l.dedup

/-- Embedding of `SubActionFieldDefinition.__init__`: raises on an empty field
name; for `ENUM_STRING` raises when `enum_values` is falsy (absent or the empty
list) and otherwise stores the deduplicated, sorted values; for any other field
type stores `None`. -/
def mkSubActionFieldDefinition (field_name : String) (field_type : FieldType)
    (default_value : Option PyValue) (enum_values : Option (List String)) :
    Except String SubActionFieldDefinition :=
  if field_name = "" then
    .error ("Field name cannot be empty.")
  else
    if field_type = .ENUM_STRING then
      match enum_values with
      | none =>
        .error ("enum_values must be a non-empty list of strings for EnumString FieldType.")
      | some l =>
        if l = [] then
          .error ("enum_values must be a non-empty list of strings for EnumString FieldType.")
        else
          .ok { field_name := field_name
                field_type := field_type
                default_value := default_value
                enum_values := some (dedupSort l) }
    else
      .ok { field_name := field_name
            field_type := field_type
            default_value := default_value
            enum_values := none }

/-- Embedding of `ActionNode` (its stored attributes): one instantiated action
inside a session flow graph. -/
structure ActionNode where
  node_id : String
  action_label_to_execute : String
  parent_node_id : Option String
  children_node_ids : List String
  instance_label : String
  custom_field_values : List (String × PyValue)

/-- Embedding of `ActionNode.__init__`.  `fresh` is the identifier
`str(uuid.uuid4())` would produce; it is used when the given `node_id` is
falsy (absent or empty), exactly as in the source. -/
def mkActionNode (fresh : String) (action_label_to_execute : String)
    (node_id : Option String) (parent_node_id : Option String)
    (children_node_ids : Option (List String)) (instance_label : String)
    (custom_field_values : Option (List (String × PyValue))) :
    Except String ActionNode :=
  if action_label_to_execute = "" then
    .error ("action_label_to_execute cannot be empty for an ActionNode.")
  else
    .ok { node_id := match node_id with
            | some s => if s = "" then fresh else s
            | none => fresh
          action_label_to_execute := action_label_to_execute
          parent_node_id := parent_node_id
          children_node_ids := children_node_ids.getD []
          instance_label := instance_label
          custom_field_values := custom_field_values.getD [] }

/-- Embedding of `StepDefinition` (its stored attributes).  The Python class
defines `step_id`, `step_name` and `root_node_ids` only; the editor widget
later assigns a dynamic `enabled` attribute on some instances
(`_handle_step_enabled_changed` does `step_def.enabled = enabled`).  The
`enabled` field below models that dynamic attribute: `none` means the
attribute is absent from the object (as after `__init__`), `some b` means it
was assigned. -/
structure StepDefinition where
  step_id : String
  step_name : String
  root_node_ids : List String
  enabled : Option Bool

/-- Embedding of `StepDefinition.__init__`: `fresh` replaces a falsy
`step_id`; no `enabled` attribute is created. -/
def mkStepDefinition (fresh : String) (step_id : Option String)
    (step_name : String) (root_node_ids : Option (List String)) :
    StepDefinition :=
  { step_id := match step_id with
      | some s => if s = "" then fresh else s
      | none => fresh
    step_name := step_name
    root_node_ids := root_node_ids.getD []
    enabled := none }

/-- Embedding of an attribute read `step_def.enabled` (as performed by
`_create_step_widget`): raises `AttributeError` when the attribute was never
assigned. -/
def readStepEnabled (s : StepDefinition) : Except String Bool :=
  match s.enabled with
  | some b => .ok b
  | none =>
    .error ("AttributeError: " ++ sq ++ "StepDefinition" ++ sq ++
      " object has no attribute " ++ sq ++ "enabled" ++ sq)

/-- Embedding of `SessionActionsGraph` (its stored attributes).  The internal
`_nodes_by_id` dictionary is always derived from `nodes` (it is rebuilt by
`rebuild_node_lookup` after each batch of edits), so it is not stored: the
lookup `get_node_by_id` is embedded directly over `nodes` with the
dictionary's last-wins semantics. -/
structure SessionActionsGraph where
  session_name : String
  steps : List StepDefinition
  nodes : List ActionNode

/-- Embedding of the dictionary comprehension
`{node.node_id: node for node in nodes}` followed by `.get(node_id)`: a
left fold in which a later node with the same id overwrites an earlier one. -/
def getNode (nodes : List ActionNode) (i : String) : Option ActionNode :=
  nodes.foldl (fun acc n => if n.node_id = i then some n else acc) none

/-- Embedding of `SessionActionsGraph.get_node_by_id`. -/
def SessionActionsGraph.get_node_by_id (g : SessionActionsGraph) (i : String) :
    Option ActionNode :=
  getNode g.nodes i

/-- Error message for a duplicate node id (first loop of
`_validate_graph_integrity`). -/
def msgDuplicate (name i : String) : String :=
  "Session " ++ sq ++ name ++ sq ++ ": Duplicate nodeId " ++ sq ++ i ++ sq ++
    " found in nodes list."

/-- Error message for a step without id. -/
def msgStepIdMissing (name : String) (idx : Nat) : String :=
  "Session " ++ sq ++ name ++ sq ++ ", Step " ++ toString idx ++
    ": step_id is missing."

/-- Error message for a step root id that names no node. -/
def msgRootNotFound (name stepName stepId rid : String) : String :=
  "Session " ++ sq ++ name ++ sq ++ ", Step " ++ sq ++ stepName ++ sq ++
    " (" ++ stepId ++ "): rootNodeId " ++ sq ++ rid ++ sq ++
    " not found in defined nodes list."

/-- Error message for a parent id that names no node. -/
def msgParentNotFound (name nid pid : String) : String :=
  "Session " ++ sq ++ name ++ sq ++ ", Node " ++ sq ++ nid ++ sq ++
    ": parentNodeId " ++ sq ++ pid ++ sq ++ " not found."

/-- Error message for a child id that names no node. -/
def msgChildNotFound (name nid cid : String) : String :=
  "Session " ++ sq ++ name ++ sq ++ ", Node " ++ sq ++ nid ++ sq ++
    ": childNodeId " ++ sq ++ cid ++ sq ++ " not found."

/-- First loop of `_validate_graph_integrity`: walk the nodes, raising on the
first `node_id` already seen. -/
def checkDupIds (name : String) : List ActionNode → List String → Except String Unit
  | [], _ => .ok ()
  | n :: rest, seen =>
    if n.node_id ∈ seen then .error (msgDuplicate name n.node_id)
    else checkDupIds name rest (n.node_id :: seen)

/-- Inner loop over one step's `root_node_ids`. -/
def checkRoots (name stepName stepId : String) (ids : List String) :
    List String → Except String Unit
  | [] => .ok ()
  | r :: rest =>
    if r ∈ ids then checkRoots name stepName stepId ids rest
    else .error (msgRootNotFound name stepName stepId r)

/-- Second loop of `_validate_graph_integrity`: each step must have an id and
valid roots.  `idx` is the running `enumerate` index. -/
def checkSteps (name : String) (ids : List String) :
    Nat → List StepDefinition → Except String Unit
  | _, [] => .ok ()
  | idx, s :: rest =>
    if s.step_id = "" then .error (msgStepIdMissing name idx)
    else
      match checkRoots name s.step_name s.step_id ids s.root_node_ids with
      | .error e => .error e
      | .ok _ => checkSteps name ids (idx + 1) rest

/-- Inner loop over one node's `children_node_ids`. -/
def checkChildren (name nid : String) (ids : List String) :
    List String → Except String Unit
  | [] => .ok ()
  | c :: rest =>
    if c ∈ ids then checkChildren name nid ids rest
    else .error (msgChildNotFound name nid c)

/-- Third loop of `_validate_graph_integrity`: parent and child references.
The source guards the parent check with truthiness
(`if node.parent_node_id and ...`), so a parent that is `None` or the empty
string is not checked. -/
def checkParent (name : String) (ids : List String) (n : ActionNode) :
    Except String Unit :=
  match n.parent_node_id with
  | some p =>
    if p ≠ "" && !(ids.contains p) then .error (msgParentNotFound name n.node_id p)
    else .ok ()
  | none => .ok ()

/-- Third loop of `_validate_graph_integrity`, continued: for each node the
parent check (`checkParent`) runs first, then the children check. -/
def checkNodes (name : String) (ids : List String) :
    List ActionNode → Except String Unit
  | [] => .ok ()
  | n :: rest =>
    match checkParent name ids n with
    | .error e => .error e
    | .ok _ =>
      match checkChildren name n.node_id ids n.children_node_ids with
      | .error e => .error e
      | .ok _ => checkNodes name ids rest

/-- Embedding of `SessionActionsGraph._validate_graph_integrity`.  The Python
code accumulates `node_ids_defined` while scanning for duplicates; when no
duplicate is found that set equals the set of all node ids, which is what the
later loops receive here. -/
def validateGraph (g : SessionActionsGraph) : Except String Unit :=
  match checkDupIds g.session_name g.nodes [] with
  | .error e => .error e
  | .ok _ =>
    let ids := g.nodes.map (fun n => n.node_id)
    match checkSteps g.session_name ids 0 g.steps with
    | .error e => .error e
    | .ok _ => checkNodes g.session_name ids g.nodes

/-- Embedding of `SessionActionsGraph.__init__`: rejects an empty session
name, then validates; the object is produced only when validation passes. -/
def mkSessionActionsGraph (session_name : String) (steps : List StepDefinition)
    (nodes : List ActionNode) : Except String SessionActionsGraph :=
  if session_name = "" then .error ("session_name cannot be empty.")
  else
    let g : SessionActionsGraph :=
      { session_name := session_name, steps := steps, nodes := nodes }
    match validateGraph g with
    | .error e => .error e
    | .ok _ => .ok g

/-- The dictionary form of an `ActionNode` (`ActionNode.to_dict`).  The keys
`nodeId`, `actionLabelToExecute`, `childrenNodeIds`, `instanceLabel` and
`customFieldValues` are always written, so they are plain fields;
`parentNodeId` is written only when the parent is set, which the `Option`
captures (`none` = key absent). -/
structure ActionNodeDict where
  nodeId : String
  actionLabelToExecute : String
  childrenNodeIds : List String
  instanceLabel : String
  customFieldValues : List (String × PyValue)
  parentNodeId : Option String

/-- Embedding of `ActionNode.to_dict`. -/
def ActionNode.to_dict (n : ActionNode) : ActionNodeDict :=
  { nodeId := n.node_id
    actionLabelToExecute := n.action_label_to_execute
    childrenNodeIds := n.children_node_ids
    instanceLabel := n.instance_label
    customFieldValues := n.custom_field_values
    parentNodeId := n.parent_node_id }

/-- Embedding of `ActionNode.from_dict`: rejects a falsy `nodeId` or
`actionLabelToExecute`, then calls the constructor (whose uuid branch is not
taken, the id being non-empty here). -/
def ActionNode.from_dict (d : ActionNodeDict) : Except String ActionNode :=
  if d.nodeId = "" then .error ("nodeId is required in ActionNode data.")
  else if d.actionLabelToExecute = "" then
    .error ("actionLabelToExecute is required in ActionNode data.")
  else
    .ok { node_id := d.nodeId
          action_label_to_execute := d.actionLabelToExecute
          parent_node_id := d.parentNodeId
          children_node_ids := d.childrenNodeIds
          instance_label := d.instanceLabel
          custom_field_values := d.customFieldValues }

/-- The dictionary form of a `StepDefinition` (`StepDefinition.to_dict`): it
carries exactly `stepId`, `stepName` and `rootNodeIds` — no `enabled` key. -/
structure StepDict where
  stepId : String
  stepName : String
  rootNodeIds : List String

/-- Embedding of `StepDefinition.to_dict`. -/
def StepDefinition.to_dict (s : StepDefinition) : StepDict :=
  { stepId := s.step_id, stepName := s.step_name, rootNodeIds := s.root_node_ids }

/-- Embedding of `StepDefinition.from_dict`: `fresh` is the uuid generated
when `stepId` is falsy; the resulting object has no `enabled` attribute. -/
def StepDefinition.from_dict (fresh : String) (d : StepDict) : StepDefinition :=
  { step_id := if d.stepId = "" then fresh else d.stepId
    step_name := d.stepName
    root_node_ids := d.rootNodeIds
    enabled := none }

/-- The dictionary form of a `SessionActionsGraph`. -/
structure GraphDict where
  sessionName : String
  steps : List StepDict
  nodes : List ActionNodeDict

/-- Embedding of `SessionActionsGraph.to_dict`: steps in order, node
dictionaries sorted by `nodeId` (Python's `sorted` with a string key, a stable
sort in code-point order). -/
def SessionActionsGraph.to_dict (g : SessionActionsGraph) : GraphDict :=
  { sessionName := g.session_name,
    steps := g.steps.map StepDefinition.to_dict
    nodes := List.insertionSort (fun a b => strLeB a.nodeId b.nodeId = true)
      (g.nodes.map ActionNode.to_dict) }

/-- Embedding of `SessionActionsGraph.from_dict`: `uuidGen i` is the uuid the
deserialization of the `i`-th step would generate if its `stepId` were falsy;
the nodes are deserialized in order and the constructor (with its validation)
is run. -/
def SessionActionsGraph.from_dict (uuidGen : Nat → String) (d : GraphDict) :
    Except String SessionActionsGraph :=
  if d.sessionName = "" then
    .error ("sessionName is required for SessionActionsGraph.")
  else
    let steps_list := d.steps.mapIdx (fun i sd => StepDefinition.from_dict (uuidGen i) sd)
    match d.nodes.mapM ActionNode.from_dict with
    | .error e => .error e
    | .ok nodes_list => mkSessionActionsGraph d.sessionName steps_list nodes_list

/-! ### Structural operations of the session flow editor

Each Python handler mutates node objects held by the graph's `nodes` list.
In the embedding a mutation of the node whose id is `i` becomes `upd nodes i f`,
and the handlers become functions `SessionActionsGraph → ... → SessionActionsGraph`,
with every read and write performed in the source's order. -/

/-- Update (in place) every node of the store whose id is `i`.  With the
graph's id-uniqueness invariant this is exactly the Python attribute mutation
of the object `get_node_by_id(i)`. -/
def upd (nodes : List ActionNode) (i : String) (f : ActionNode → ActionNode) :
    List ActionNode :=
  nodes.map (fun n => if n.node_id = i then f n else n)

/-- Sequential updates, one per id, in order (a Python `for` loop performing a
lookup and a mutation per iteration). -/
def updEach (nodes : List ActionNode) (ids : List String)
    (f : ActionNode → ActionNode) : List ActionNode :=
  ids.foldl (fun acc i => upd acc i f) nodes

/-- Update the step with the given id (the step object the handler holds). -/
def updStep (steps : List StepDefinition) (i : String)
    (f : StepDefinition → StepDefinition) : List StepDefinition :=
  steps.map (fun s => if s.step_id = i then f s else s)

/-- Embedding of the `for step_def in steps: if cond: ...; break` pattern: only
the first step satisfying the condition is updated. -/
def updateFirstStep (p : StepDefinition → Bool)
    (f : StepDefinition → StepDefinition) :
    List StepDefinition → List StepDefinition
  | [] => []
  | s :: rest => if p s then f s :: rest else s :: updateFirstStep p f rest

/-- A node as built by `ActionNode(action_label_to_execute=label, parent_node_id=p)`
inside the handlers: fresh uuid, no children, default instance label and field
values. -/
def newActionNode (fresh label : String) (parent : Option String) : ActionNode :=
  { node_id := fresh, action_label_to_execute := label, parent_node_id := parent,
    children_node_ids := [], instance_label := "", custom_field_values := [] }

/-- A node as built by the single-action paste handlers: fresh uuid, label,
instance label and (deep-copied) field values taken from the clipboard node,
the given parent, no children. -/
def cloneActionNode (fresh : String) (clip : ActionNode) (parent : Option String) :
    ActionNode :=
  { node_id := fresh, action_label_to_execute := clip.action_label_to_execute,
    parent_node_id := parent, children_node_ids := [],
    instance_label := clip.instance_label,
    custom_field_values := clip.custom_field_values }

/-- Embedding of the list comprehension `[b if x == a else x for x in l]`. -/
def replaceInList (a b : String) (l : List String) : List String :=
  l.map (fun x => if x = a then b else x)

/-- Embedding of the loop that rebuilds a list, replacing the single entry `a`
by the whole list `repl` in place. -/
def spliceInList (a : String) (repl : List String) (l : List String) : List String :=
  l.flatMap (fun x => if x = a then repl else [x])

/-- Embedding of `_handle_add_action_to_step`: a new root node (parent `None`)
is appended to `nodes` and its id to the step's `root_node_ids`.  `fresh` is
the uuid of the new node, `label` the action label the user selected. -/
def addActionToStep (g : SessionActionsGraph) (stepId label fresh : String) :
    SessionActionsGraph :=
  { g with
    nodes := g.nodes ++ [newActionNode fresh label none],
    steps := updStep g.steps stepId
      (fun s => { s with root_node_ids := s.root_node_ids ++ [fresh] }) }

/-- Embedding of `_handle_add_child_action`: a new node with
`parent = parentId` is appended and its id appended to the parent's
children. -/
def addChildAction (g : SessionActionsGraph) (parentId label fresh : String) :
    SessionActionsGraph :=
  { g with
    nodes := upd
      (g.nodes ++ [newActionNode fresh label (some parentId)])
      parentId
      (fun n => { n with children_node_ids := n.children_node_ids ++ [fresh] }) }

/-- Embedding of `_handle_add_sibling_action`: the new node shares the
target's parent; it is recorded in the parent's children when the target's
`parent_node_id` is truthy, otherwise in the first step whose roots contain
the target. -/
def addSiblingAction (g : SessionActionsGraph) (targetId label fresh : String) :
    SessionActionsGraph :=
  match getNode g.nodes targetId with
  | none => g
  | some target =>
    let newNode : ActionNode :=
      newActionNode fresh label target.parent_node_id
    let nodes1 := g.nodes ++ [newNode]
    match target.parent_node_id with
    | some pid =>
      if pid ≠ "" then
        let nodesU := upd nodes1 pid
                (fun n => { n with children_node_ids := n.children_node_ids ++ [fresh] })
        { g with nodes := nodesU }
      else
        { g with nodes := nodes1,
                 steps := updateFirstStep (fun s => s.root_node_ids.contains targetId)
                   (fun s => { s with root_node_ids := s.root_node_ids ++ [fresh] }) g.steps }
    | none =>
      { g with nodes := nodes1,
               steps := updateFirstStep (fun s => s.root_node_ids.contains targetId)
                 (fun s => { s with root_node_ids := s.root_node_ids ++ [fresh] }) g.steps }

/-- Embedding of `_handle_add_parent_action`: a new node takes over the
target's old parent slot (grandparent child reference or step root reference),
becomes the target's parent and gets the target as sole child. -/
def addParentAction (g : SessionActionsGraph) (targetId label fresh : String) :
    SessionActionsGraph :=
  match getNode g.nodes targetId with
  | none => g
  | some action =>
    let nodes1 := g.nodes ++ [newActionNode fresh label action.parent_node_id]
    let relinked :=
      match action.parent_node_id with
      | some pid =>
        if pid ≠ "" then
          (upd nodes1 pid (fun n => { n with children_node_ids := replaceInList targetId fresh n.children_node_ids }),
           g.steps)
        else
          (nodes1,
           updateFirstStep (fun s => s.root_node_ids.contains targetId)
             (fun s => { s with root_node_ids := replaceInList targetId fresh s.root_node_ids }) g.steps)
      | none =>
        (nodes1,
         updateFirstStep (fun s => s.root_node_ids.contains targetId)
           (fun s => { s with root_node_ids := replaceInList targetId fresh s.root_node_ids }) g.steps)
    let nodes2 := upd relinked.1 targetId
      (fun n => { n with parent_node_id := some fresh })
    let nodes3 := upd nodes2 fresh
      (fun n => { n with children_node_ids := [targetId] })
    { g with nodes := nodes3, steps := relinked.2 }

/-- Embedding of `_handle_insert_intermediate_action`: only acts when the
target has at least two children; the new node becomes the target's sole
child and inherits all previous children, whose parents are repointed. -/
def insertIntermediateAction (g : SessionActionsGraph)
    (targetId label fresh : String) : SessionActionsGraph :=
  match getNode g.nodes targetId with
  | none => g
  | some action =>
    if action.children_node_ids.length ≤ 1 then g
    else
      let original_children := action.children_node_ids
      let nodes1 := g.nodes ++ [newActionNode fresh label (some targetId)]
      let nodes2 := upd nodes1 targetId
        (fun n => { n with children_node_ids := [fresh] })
      let nodes3 := upd nodes2 fresh
        (fun n => { n with children_node_ids := original_children })
      let nodes4 := updEach nodes3 original_children
        (fun n => { n with parent_node_id := some fresh })
      { g with nodes := nodes4 }

/-- Embedding of `_can_move_action_up`: the node must have a truthy parent
reference, the parent must exist, and the parent must have exactly one
child. -/
def canMoveActionUp (g : SessionActionsGraph) (n : ActionNode) : Bool :=
  match n.parent_node_id with
  | none => false
  | some pid =>
    if pid = "" then false
    else
      match getNode g.nodes pid with
      | none => false
      | some parent => parent.children_node_ids.length == 1

/-- Embedding of `_can_move_action_down`: the node must have exactly one
child. -/
def canMoveActionDown (n : ActionNode) : Bool :=
  n.children_node_ids.length == 1

/-- Embedding of `_handle_move_action_up` (`A > B > C` becomes `B > A > C`):
the action takes its parent's place, the parent becomes the action's sole
child and inherits the action's former children, and the grandparent's child
reference (or the step's root reference) is repointed. -/
def moveActionUp (g : SessionActionsGraph) (targetId : String) :
    SessionActionsGraph :=
  match getNode g.nodes targetId with
  | none => g
  | some action =>
    if !canMoveActionUp g action then g
    else
      match action.parent_node_id with
      | none => g
      | some pid =>
        match getNode g.nodes pid with
        | none => g
        | some parent =>
          let action_children := action.children_node_ids
          let gp := parent.parent_node_id
          let nodes1 := upd g.nodes targetId
            (fun n => { n with parent_node_id := gp, children_node_ids := [pid] })
          let nodes2 := upd nodes1 pid
            (fun n => { n with parent_node_id := some targetId,
                               children_node_ids := action_children })
          let nodes3 := updEach nodes2 action_children
            (fun n => { n with parent_node_id := some pid })
          match gp with
          | some gpid =>
            if gpid ≠ "" then
              let nodesU := upd nodes3 gpid
                      (fun n => { n with children_node_ids := replaceInList pid targetId n.children_node_ids })
              { g with nodes := nodesU }
            else
              { g with nodes := nodes3,
                       steps := updateFirstStep (fun s => s.root_node_ids.contains pid)
                         (fun s => { s with root_node_ids := replaceInList pid targetId s.root_node_ids })
                         g.steps }
          | none =>
            { g with nodes := nodes3,
                     steps := updateFirstStep (fun s => s.root_node_ids.contains pid)
                       (fun s => { s with root_node_ids := replaceInList pid targetId s.root_node_ids })
                       g.steps }

/-- Embedding of `_handle_move_action_down` (`A > B > C` becomes
`A > C > B`): the single child takes the action's place, the action becomes
the child's sole child and inherits the child's former children, and the
parent's child reference (or step root reference) is repointed. -/
def moveActionDown (g : SessionActionsGraph) (targetId : String) :
    SessionActionsGraph :=
  match getNode g.nodes targetId with
  | none => g
  | some action =>
    if !canMoveActionDown action then g
    else
      match action.children_node_ids.head? with
      | none => g
      | some cid =>
        match getNode g.nodes cid with
        | none => g
        | some child =>
          let child_children := child.children_node_ids
          let ap := action.parent_node_id
          let nodes1 := upd g.nodes cid
            (fun n => { n with parent_node_id := ap, children_node_ids := [targetId] })
          let nodes2 := upd nodes1 targetId
            (fun n => { n with parent_node_id := some cid,
                               children_node_ids := child_children })
          let nodes3 := updEach nodes2 child_children
            (fun n => { n with parent_node_id := some targetId })
          match ap with
          | some apid =>
            if apid ≠ "" then
              let nodesU := upd nodes3 apid
                      (fun n => { n with children_node_ids := replaceInList targetId cid n.children_node_ids })
              { g with nodes := nodesU }
            else
              { g with nodes := nodes3,
                       steps := updateFirstStep (fun s => s.root_node_ids.contains targetId)
                         (fun s => { s with root_node_ids := replaceInList targetId cid s.root_node_ids })
                         g.steps }
          | none =>
            { g with nodes := nodes3,
                     steps := updateFirstStep (fun s => s.root_node_ids.contains targetId)
                       (fun s => { s with root_node_ids := replaceInList targetId cid s.root_node_ids })
                       g.steps }

/-- Embedding of `_handle_remove_action_only` (user confirmed): the children
are re-parented to the removed node's former parent, spliced in place of the
removed node in the parent's children (or the containing step's roots), and
the node is removed from `nodes`. -/
def removeActionOnly (g : SessionActionsGraph) (targetId : String) :
    SessionActionsGraph :=
  match getNode g.nodes targetId with
  | none => g
  | some action =>
    let children_to_promote := action.children_node_ids
    let nodes1 := updEach g.nodes children_to_promote
      (fun n => { n with parent_node_id := action.parent_node_id })
    let relinked :=
      match action.parent_node_id with
      | some pid =>
        if pid ≠ "" then
          (upd nodes1 pid (fun n => { n with children_node_ids := spliceInList targetId children_to_promote n.children_node_ids }),
           g.steps)
        else
          (nodes1,
           updateFirstStep (fun s => s.root_node_ids.contains targetId)
             (fun s => { s with root_node_ids := spliceInList targetId children_to_promote s.root_node_ids })
             g.steps)
      | none =>
        (nodes1,
         updateFirstStep (fun s => s.root_node_ids.contains targetId)
           (fun s => { s with root_node_ids := spliceInList targetId children_to_promote s.root_node_ids })
           g.steps)
    { g with nodes := relinked.1.filter (fun n => n.node_id ≠ targetId),
             steps := relinked.2 }

/-- Embedding of the `while queue:` collection loop shared by
`_handle_remove_step` and `_handle_remove_action_node`, with an explicit
iteration budget: pop the head, skip it when already processed, otherwise
record it and enqueue its children (when the node exists).  `none` means the
budget ran out with the queue non-empty. -/
def bfsCollect (nodes : List ActionNode) :
    Nat → List String → List String → Option (List String)
  | _, [], processed => some processed
  | 0, _ :: _, _ => none
  | fuel + 1, nid :: rest, processed =>
    if nid ∈ processed then bfsCollect nodes fuel rest processed
    else
      match getNode nodes nid with
      | some n => bfsCollect nodes fuel (rest ++ n.children_node_ids) (nid :: processed)
      | none => bfsCollect nodes fuel rest (nid :: processed)

/-- Iteration budget that always suffices (proved below): one iteration per
initial queue entry plus one per child reference in the whole store. -/
def bfsFuel (nodes : List ActionNode) (queue : List String) : Nat :=
  queue.length + (nodes.flatMap (fun n => n.children_node_ids)).length

/-- The set of ids the Python loop collects (`processed_...` =
`nodes_to_delete_ids`: the loop adds every popped unprocessed id to both). -/
def collectIds (nodes : List ActionNode) (queue : List String) : List String :=
  (bfsCollect nodes (bfsFuel nodes queue) queue []).getD []

/-- Embedding of `_handle_remove_action_node` (remove branch, user
confirmed): delete the node and all ids reachable through children lists,
then detach the removed root from its parent's children (first occurrence) or
from the first step whose roots contain it. -/
def removeBranch (g : SessionActionsGraph) (targetId : String) :
    SessionActionsGraph :=
  match getNode g.nodes targetId with
  | none => g
  | some action =>
    let dels := collectIds g.nodes [targetId]
    let nodes1 := g.nodes.filter (fun n => !(dels.contains n.node_id))
    match action.parent_node_id with
    | some pid =>
      if pid ≠ "" then
        let nodesU := upd nodes1 pid
                (fun n => { n with children_node_ids := n.children_node_ids.erase targetId })
        { g with nodes := nodesU }
      else
        { g with nodes := nodes1,
                 steps := updateFirstStep (fun s => s.root_node_ids.contains targetId)
                   (fun s => { s with root_node_ids := s.root_node_ids.erase targetId })
                   g.steps }
    | none =>
      { g with nodes := nodes1,
               steps := updateFirstStep (fun s => s.root_node_ids.contains targetId)
                 (fun s => { s with root_node_ids := s.root_node_ids.erase targetId })
                 g.steps }

/-- Remove the first step with the given id (`steps.remove(step_to_remove)`). -/
def eraseFirstStep : List StepDefinition → String → List StepDefinition
  | [], _ => []
  | s :: rest, i => if s.step_id = i then rest else s :: eraseFirstStep rest i

/-- Embedding of `_handle_remove_step` (user confirmed): delete every node
reachable from the step's roots, then remove the step itself. -/
def removeStep (g : SessionActionsGraph) (stepId : String) :
    SessionActionsGraph :=
  match g.steps.find? (fun s => s.step_id == stepId) with
  | none => g
  | some step =>
    let dels := collectIds g.nodes step.root_node_ids
    { g with nodes := g.nodes.filter (fun n => !(dels.contains n.node_id)),
             steps := eraseFirstStep g.steps stepId }

/-- Embedding of `_handle_step_enabled_changed`: assigns the dynamic
`enabled` attribute of the step object. -/
def stepEnabledChanged (g : SessionActionsGraph) (stepId : String) (b : Bool) :
    SessionActionsGraph :=
  { g with steps := updStep g.steps stepId (fun s => { s with enabled := some b }) }

/-- Embedding of `_handle_paste_action_as_child`: a brand-new node carrying
the clipboard's label, instance label and field values becomes a child of the
target. -/
def pasteActionAsChild (g : SessionActionsGraph) (targetId : String)
    (clip : ActionNode) (fresh : String) : SessionActionsGraph :=
  { g with
    nodes := upd
      (g.nodes ++ [cloneActionNode fresh clip (some targetId)])
      targetId
      (fun n => { n with children_node_ids := n.children_node_ids ++ [fresh] }) }

/-- Embedding of `_handle_paste_action_as_brother`: the clone shares the
target's parent and is appended to the parent's children or to the roots of
the first step containing the target. -/
def pasteActionAsBrother (g : SessionActionsGraph) (targetId : String)
    (clip : ActionNode) (fresh : String) : SessionActionsGraph :=
  match getNode g.nodes targetId with
  | none => g
  | some target =>
    let nodes1 := g.nodes ++ [cloneActionNode fresh clip target.parent_node_id]
    match target.parent_node_id with
    | some pid =>
      if pid ≠ "" then
        let nodesU := upd nodes1 pid
                (fun n => { n with children_node_ids := n.children_node_ids ++ [fresh] })
        { g with nodes := nodesU }
      else
        { g with nodes := nodes1,
                 steps := updateFirstStep (fun s => s.root_node_ids.contains targetId)
                   (fun s => { s with root_node_ids := s.root_node_ids ++ [fresh] }) g.steps }
    | none =>
      { g with nodes := nodes1,
               steps := updateFirstStep (fun s => s.root_node_ids.contains targetId)
                 (fun s => { s with root_node_ids := s.root_node_ids ++ [fresh] }) g.steps }

/-- Embedding of `_handle_paste_action_as_parent`: the clone takes over the
target's parent slot and becomes its parent (same relinking as
`addParentAction`). -/
def pasteActionAsParent (g : SessionActionsGraph) (targetId : String)
    (clip : ActionNode) (fresh : String) : SessionActionsGraph :=
  match getNode g.nodes targetId with
  | none => g
  | some child =>
    let nodes1 := g.nodes ++ [cloneActionNode fresh clip child.parent_node_id]
    let relinked :=
      match child.parent_node_id with
      | some pid =>
        if pid ≠ "" then
          (upd nodes1 pid (fun n => { n with children_node_ids := replaceInList targetId fresh n.children_node_ids }),
           g.steps)
        else
          (nodes1,
           updateFirstStep (fun s => s.root_node_ids.contains targetId)
             (fun s => { s with root_node_ids := replaceInList targetId fresh s.root_node_ids }) g.steps)
      | none =>
        (nodes1,
         updateFirstStep (fun s => s.root_node_ids.contains targetId)
           (fun s => { s with root_node_ids := replaceInList targetId fresh s.root_node_ids }) g.steps)
    let nodes2 := upd relinked.1 targetId
      (fun n => { n with parent_node_id := some fresh })
    let nodes3 := upd nodes2 fresh
      (fun n => { n with children_node_ids := [targetId] })
    { g with nodes := nodes3, steps := relinked.2 }

/-- Embedding of the `node_id_mapping` dictionary of the branch/step paste
handlers: old clipboard id to freshly generated id (`pairs` zips the
clipboard with the fresh ids, in creation order; a later pair with the same
old id overwrites an earlier one, as in the dictionary). -/
def clipMap (pairs : List (ActionNode × String)) (oldId : String) :
    Option String :=
  pairs.foldl (fun acc p => if p.1.node_id = oldId then some p.2 else acc) none

/-- Node-building pass of `_handle_paste_branch_as_child` /
`_handle_paste_branch_as_brother`: the first clone's parent is `rootParent`
(the paste target, or the target's parent); later clones keep their parent
when it maps into the clipboard, and lose it otherwise; children references
are remapped, dropping those that leave the clipboard. -/
def pasteBranchBuild (pairs : List (ActionNode × String))
    (rootParent : Option String) : List ActionNode :=
  pairs.mapIdx (fun i p =>
    { node_id := p.2
      action_label_to_execute := p.1.action_label_to_execute
      parent_node_id := if i = 0 then rootParent
        else p.1.parent_node_id.bind (clipMap pairs)
      children_node_ids := p.1.children_node_ids.filterMap (clipMap pairs)
      instance_label := p.1.instance_label
      custom_field_values := p.1.custom_field_values })

/-- Embedding of `_handle_paste_branch_as_child`. -/
def pasteBranchAsChild (g : SessionActionsGraph) (targetId : String)
    (clip : List ActionNode) (freshs : List String) : SessionActionsGraph :=
  if clip.isEmpty then g
  else
    let pairs := clip.zip freshs
    let newNodes := pasteBranchBuild pairs (some targetId)
    let nodes1 := g.nodes ++ newNodes
    match newNodes.head? with
    | some h =>
      let nodesU := upd nodes1 targetId
              (fun n => { n with children_node_ids := n.children_node_ids ++ [h.node_id] })
      { g with nodes := nodesU }
    | none => { g with nodes := nodes1 }

/-- Embedding of `_handle_paste_branch_as_brother`. -/
def pasteBranchAsBrother (g : SessionActionsGraph) (targetId : String)
    (clip : List ActionNode) (freshs : List String) : SessionActionsGraph :=
  if clip.isEmpty then g
  else
    match getNode g.nodes targetId with
    | none => g
    | some target =>
      let pairs := clip.zip freshs
      let newNodes := pasteBranchBuild pairs target.parent_node_id
      let nodes1 := g.nodes ++ newNodes
      match newNodes.head? with
      | none => { g with nodes := nodes1 }
      | some h =>
        match target.parent_node_id with
        | some pid =>
          if pid ≠ "" then
            let nodesU := upd nodes1 pid
                    (fun n => { n with children_node_ids := n.children_node_ids ++ [h.node_id] })
            { g with nodes := nodesU }
          else
            { g with nodes := nodes1,
                     steps := updateFirstStep (fun s => s.root_node_ids.contains targetId)
                       (fun s => { s with root_node_ids := s.root_node_ids ++ [h.node_id] })
                       g.steps }
        | none =>
          { g with nodes := nodes1,
                   steps := updateFirstStep (fun s => s.root_node_ids.contains targetId)
                     (fun s => { s with root_node_ids := s.root_node_ids ++ [h.node_id] })
                     g.steps }

/-- Node-building pass of `_handle_paste_branch_as_parent`: every clone's
parent (the branch root included) is remapped through the clipboard mapping
(`None` and outside references become `None`). -/
def pasteParentBuild (pairs : List (ActionNode × String)) : List ActionNode :=
  pairs.map (fun p =>
    { node_id := p.2
      action_label_to_execute := p.1.action_label_to_execute
      parent_node_id := p.1.parent_node_id.bind (clipMap pairs)
      children_node_ids := p.1.children_node_ids.filterMap (clipMap pairs)
      instance_label := p.1.instance_label
      custom_field_values := p.1.custom_field_values })

/-- Embedding of `_handle_paste_branch_as_parent`: the clone of the branch
root takes over the target's parent slot; the target's id is appended to the
children of EVERY leaf clone (clone with no children), while the target's
`parent_node_id` is set to the FIRST leaf clone only. -/
def pasteBranchAsParent (g : SessionActionsGraph) (targetId : String)
    (clip : List ActionNode) (freshs : List String) : SessionActionsGraph :=
  if clip.isEmpty then g
  else
    match getNode g.nodes targetId with
    | none => g
    | some child =>
      let pairs := clip.zip freshs
      match pasteParentBuild pairs with
      | [] => g
      | h :: t =>
        let branchRootId := h.node_id
        let newNodes2 := { h with parent_node_id := child.parent_node_id } :: t
        let leafIds := (newNodes2.filter (fun n => n.children_node_ids.isEmpty)).map
          (fun n => n.node_id)
        let relinked :=
          match child.parent_node_id with
          | some pid =>
            if pid ≠ "" then
              (upd g.nodes pid (fun n => { n with children_node_ids := replaceInList targetId branchRootId n.children_node_ids }),
               g.steps)
            else
              (g.nodes,
               updateFirstStep (fun s => s.root_node_ids.contains targetId)
                 (fun s => { s with root_node_ids := replaceInList targetId branchRootId s.root_node_ids })
                 g.steps)
          | none =>
            (g.nodes,
             updateFirstStep (fun s => s.root_node_ids.contains targetId)
               (fun s => { s with root_node_ids := replaceInList targetId branchRootId s.root_node_ids })
               g.steps)
        let newNodes3 := newNodes2.map (fun n =>
          if n.children_node_ids.isEmpty then
            { n with children_node_ids := n.children_node_ids ++ [targetId] }
          else n)
        let nodesB := upd relinked.1 targetId
          (fun n => { n with parent_node_id := leafIds.head? })
        { g with nodes := nodesB ++ newNodes3, steps := relinked.2 }

/-- Node-building pass of `_handle_paste_step_content`: like the
as-parent pass but the remap of a clone's parent is additionally guarded by
truthiness (`if copied_node.parent_node_id and ... in node_id_mapping`). -/
def pasteStepBuild (pairs : List (ActionNode × String)) : List ActionNode :=
  pairs.map (fun p =>
    { node_id := p.2
      action_label_to_execute := p.1.action_label_to_execute
      parent_node_id :=
        match p.1.parent_node_id with
        | some pp => if pp ≠ "" then clipMap pairs pp else none
        | none => none
      children_node_ids := p.1.children_node_ids.filterMap (clipMap pairs)
      instance_label := p.1.instance_label
      custom_field_values := p.1.custom_field_values })

/-- Embedding of `_handle_paste_step_content` (user confirmed the
replacement): when the step already has content, every node reachable from
its roots is deleted and the root list cleared; then the clones are appended
and every clone without a parent becomes a root of the step. -/
def pasteStepContent (g : SessionActionsGraph) (stepId : String)
    (clip : List ActionNode) (freshs : List String) : SessionActionsGraph :=
  if clip.isEmpty then g
  else
    match g.steps.find? (fun s => s.step_id == stepId) with
    | none => g
    | some step =>
      let nodes1 :=
        if step.root_node_ids.isEmpty then g.nodes
        else
          let dels := collectIds g.nodes step.root_node_ids
          g.nodes.filter (fun n => !(dels.contains n.node_id))
      let steps1 :=
        if step.root_node_ids.isEmpty then g.steps
        else updStep g.steps stepId (fun s => { s with root_node_ids := [] })
      let pairs := clip.zip freshs
      let newNodes := pasteStepBuild pairs
      let newRootIds := (newNodes.filter (fun n => n.parent_node_id.isNone)).map
        (fun n => n.node_id)
      { g with nodes := nodes1 ++ newNodes,
               steps := updStep steps1 stepId
                 (fun s => { s with root_node_ids := s.root_node_ids ++ newRootIds }) }

/-! ### Graph invariants

The spec's invariants for a session graph: unique non-empty node ids, the
bidirectional parent/child consistency of §8 ("Referential closure"),
duplicate-free children and root lists, roots without parent, unique step
ids, and tree-shapedness (every parent chain terminates). -/

/-- No two nodes share a `node_id` (spec invariant 1). -/
def NodupIds (g : SessionActionsGraph) : Prop :=
  (g.nodes.map (fun n => n.node_id)).Nodup

/-- Every node id is non-empty (guaranteed by `ActionNode.__init__`, which
replaces a falsy id by a fresh uuid). -/
def NoEmptyId (g : SessionActionsGraph) : Prop :=
  ∀ n ∈ g.nodes, n.node_id ≠ ""

/-- First half of referential closure, in the spec's words: if
`N.parent_node_id = P` then `P` exists in the graph and `N.node_id` appears in
`P.children_node_ids`. -/
def ParentsConsistent (g : SessionActionsGraph) : Prop :=
  ∀ n ∈ g.nodes, ∀ p, n.parent_node_id = some p →
    ∃ m ∈ g.nodes, m.node_id = p ∧ n.node_id ∈ m.children_node_ids

/-- Second half of referential closure: every id appearing in some node's
`children_node_ids` names an existing node whose `parent_node_id` equals that
node's id. -/
def ChildrenConsistent (g : SessionActionsGraph) : Prop :=
  ∀ m ∈ g.nodes, ∀ c ∈ m.children_node_ids,
    ∃ n ∈ g.nodes, n.node_id = c ∧ n.parent_node_id = some m.node_id

/-- Bidirectional parent/child consistency. -/
def Consistent (g : SessionActionsGraph) : Prop :=
  ParentsConsistent g ∧ ChildrenConsistent g

/-- Children lists carry no duplicate entry (each child has one parent and
appears once in its list). -/
def NodupChildren (g : SessionActionsGraph) : Prop :=
  ∀ n ∈ g.nodes, n.children_node_ids.Nodup

/-- Every root id of every step names an existing node without parent (spec:
"root_node_ids: ordered list of node identifiers with no parent"). -/
def RootsOk (g : SessionActionsGraph) : Prop :=
  ∀ s ∈ g.steps, ∀ r ∈ s.root_node_ids,
    ∃ m ∈ g.nodes, m.node_id = r ∧ m.parent_node_id = none

/-- A node id appears at most once among all steps' root lists. -/
def RootsNodup (g : SessionActionsGraph) : Prop :=
  (g.steps.flatMap (fun s => s.root_node_ids)).Nodup

/-- No two steps share a `step_id` (spec §8, "Uniqueness"). -/
def StepIdsNodup (g : SessionActionsGraph) : Prop :=
  (g.steps.map (fun s => s.step_id)).Nodup

/-- The parent reference of the node with id `i` (lookup then attribute). -/
def parentOf (nodes : List ActionNode) (i : String) : Option String :=
  (getNode nodes i).bind (fun n => n.parent_node_id)

/-- Does the parent chain starting at the given reference reach `None` within
the given number of hops? -/
def chainOk (nodes : List ActionNode) : Nat → Option String → Bool
  | _, none => true
  | 0, some _ => false
  | fuel + 1, some i => chainOk nodes fuel (parentOf nodes i)

/-- Tree-shapedness: every node's parent chain terminates (within `|nodes|`
hops, which suffices for a terminating chain over distinct nodes). -/
def Acyclic (g : SessionActionsGraph) : Prop :=
  ∀ n ∈ g.nodes, chainOk g.nodes g.nodes.length n.parent_node_id = true

/-- The conjunction of the graph invariants of the data model. -/
def WF (g : SessionActionsGraph) : Prop :=
  NodupIds g ∧ NoEmptyId g ∧ Consistent g ∧ NodupChildren g ∧ RootsOk g ∧
    RootsNodup g ∧ StepIdsNodup g ∧ Acyclic g

/-- Measure for the collection loop: total number of child references of the
nodes not yet processed.  Each productive iteration of `bfsCollect` consumes
one queue entry and can enqueue at most the children of one newly processed
id, so `queue.length + childBudget` decreases every iteration. -/
def childBudget (nodes : List ActionNode) (processed : List String) : Nat :=
  ((nodes.filter (fun n => !(processed.contains n.node_id))).flatMap
    (fun n => n.children_node_ids)).length

/-- `a` occurs as a contiguous substring of `b`. -/
def strInfix (a b : String) : Prop := List.IsInfix a.data b.data

/-- The id `i` is offending for graph `g` in the sense of the validation
claim: either it is carried by two or more nodes, or it is referenced (by a
step root, a non-empty parent reference, or a child reference) while naming
no node. -/
def OffendingId (g : SessionActionsGraph) (i : String) : Prop :=
  2 ≤ (g.nodes.map (fun n => n.node_id)).count i ∨
  (i ∉ g.nodes.map (fun n => n.node_id) ∧
    ((∃ s ∈ g.steps, i ∈ s.root_node_ids) ∨
     (∃ n ∈ g.nodes, n.parent_node_id = some i ∧ i ≠ "") ∨
     (∃ n ∈ g.nodes, i ∈ n.children_node_ids)))

/-- The conditions under which `_validate_graph_integrity` passes: unique node
ids, every step with a non-empty id and resolvable roots, every non-empty
parent reference and every child reference resolvable. -/
def ValidOk (g : SessionActionsGraph) : Prop :=
  (g.nodes.map (fun n => n.node_id)).Nodup ∧
  (∀ s ∈ g.steps, s.step_id ≠ "" ∧
    ∀ r ∈ s.root_node_ids, r ∈ g.nodes.map (fun n => n.node_id)) ∧
  (∀ n ∈ g.nodes,
    (∀ p, n.parent_node_id = some p → p ≠ "" → p ∈ g.nodes.map (fun n => n.node_id)) ∧
    ∀ c ∈ n.children_node_ids, c ∈ g.nodes.map (fun n => n.node_id))

/-- The node `ActionNode.from_dict` builds once its two checks have passed
(the constructor's uuid branch being unreachable there). -/
def mkNodeOfDict (d : ActionNodeDict) : ActionNode :=
  { node_id := d.nodeId
    action_label_to_execute := d.actionLabelToExecute
    parent_node_id := d.parentNodeId
    children_node_ids := d.childrenNodeIds
    instance_label := d.instanceLabel
    custom_field_values := d.customFieldValues }

/-! ### Concrete fixtures used by witnesses and counterexamples -/

/-- A node whose parent reference is the empty string (constructible, since
`ActionNode.__init__` does not inspect `parent_node_id`). -/
def emptyParentNode : ActionNode := ActionNode.mk ("a") ("L") (some ("")) [] ("") []

/-- A graph holding `emptyParentNode` only. -/
def emptyParentGraph : SessionActionsGraph :=
  SessionActionsGraph.mk ("S") [] [emptyParentNode]

/-- Round-trip fixture: a two-node chain in one step, stored out of id
order so that serialization actually reorders. -/
def rtA : ActionNode := ActionNode.mk ("a") ("L") none [("b")] ("") []

/-- Round-trip fixture: child of `rtA`. -/
def rtB : ActionNode := ActionNode.mk ("b") ("M") (some ("a")) [] ("x") []

/-- Round-trip fixture: the step holding `rtA` as root. -/
def rtStep : StepDefinition := StepDefinition.mk ("s1") ("S") [("a")] none

/-- Round-trip fixture graph. -/
def rtGraph : SessionActionsGraph := SessionActionsGraph.mk ("RT") [rtStep] [rtB, rtA]

/-- Two distinct nodes carrying the same id. -/
def dupNodeA : ActionNode := ActionNode.mk ("a") ("L") none [] ("") []

/-- A graph with a duplicated node id. -/
def dupGraph : SessionActionsGraph :=
  SessionActionsGraph.mk ("S") [] [dupNodeA, dupNodeA]

/-- Remove-only fixture: root node, parent of `c2N`. -/
def c2A : ActionNode := ActionNode.mk ("a") ("L") none [("n")] ("") []

/-- Remove-only fixture: the node to remove, with two children. -/
def c2N : ActionNode := ActionNode.mk ("n") ("L") (some ("a")) [("b"), ("c")] ("") []

/-- Remove-only fixture: first child of `c2N`. -/
def c2B : ActionNode := ActionNode.mk ("b") ("L") (some ("n")) [] ("") []

/-- Remove-only fixture: second child of `c2N`. -/
def c2C : ActionNode := ActionNode.mk ("c") ("L") (some ("n")) [] ("") []

/-- Remove-only fixture: the step holding the chain. -/
def c2Step : StepDefinition := StepDefinition.mk ("s1") ("S") [("a")] none

/-- Remove-only fixture graph. -/
def c2g : SessionActionsGraph :=
  SessionActionsGraph.mk ("G") [c2Step] [c2A, c2N, c2B, c2C]

/-- Pointwise form of the add/paste-parent relink pipeline: the target `tid`
is re-parented to the new node `fresh`, the new node gets `[tid]` as children,
and the old parent `pid` has `tid` replaced by `fresh` in its children
(passing `pid := tid` disables the third branch, for the root case). -/
def reparentF (tid fresh pid : String) (n : ActionNode) : ActionNode :=
  if n.node_id = tid then { n with parent_node_id := some fresh }
  else if n.node_id = fresh then { n with children_node_ids := [tid] }
  else if n.node_id = pid then { n with children_node_ids := replaceInList tid fresh n.children_node_ids }
  else n

/-- Pointwise form of the insert-intermediate pipeline. -/
def insertF (tid fresh : String) (cs : List String) (n : ActionNode) : ActionNode :=
  if n.node_id = tid then { n with children_node_ids := [fresh] }
  else if n.node_id = fresh then { n with children_node_ids := cs }
  else if n.node_id ∈ cs then { n with parent_node_id := some fresh }
  else n

/-- Pointwise form of the move-up pipeline (and, with the roles swapped, of
the move-down pipeline): `aid` takes the slot of its former parent `bid`
under grandparent reference `gp`, `bid` becomes the sole child of `aid` and
inherits the children `cs`, and the grandparent `gpid` has `bid` replaced by
`aid` in its children (passing `gpid := bid` disables the fourth branch, for
the root case). -/
def moveF (aid bid gpid : String) (gp : Option String) (cs : List String)
    (n : ActionNode) : ActionNode :=
  if n.node_id = aid then { n with parent_node_id := gp, children_node_ids := [bid] }
  else if n.node_id = bid then { n with parent_node_id := some aid, children_node_ids := cs }
  else if n.node_id ∈ cs then { n with parent_node_id := some bid }
  else if n.node_id = gpid then { n with children_node_ids := replaceInList bid aid n.children_node_ids }
  else n

/-- Pointwise form of the `_handle_remove_action_only` store rewrite before
the final filter: promoted children are re-parented, the former parent's
child list gets the splice. -/
def removeOnlyF (tid : String) (cs : List String) (pp : Option String)
    (pid : String) (n : ActionNode) : ActionNode :=
  if n.node_id ∈ cs then { n with parent_node_id := pp }
  else if n.node_id = pid then { n with children_node_ids := spliceInList tid cs n.children_node_ids }
  else n

/-- Pointwise form of the `_handle_paste_branch_as_parent` rewrite of the
existing store: the target is re-parented to the first leaf clone and the
former parent's child slot is repointed at the branch-root clone. -/
def pasteParentF (tid pid f0 : String) (lp : Option String) (n : ActionNode) :
    ActionNode :=
  if n.node_id = tid then { n with parent_node_id := lp }
  else if n.node_id = pid then { n with children_node_ids := replaceInList tid f0 n.children_node_ids }
  else n

/-- The leaf pass of `_handle_paste_branch_as_parent`: every clone with no
children gets the target appended as its child. -/
def leafAttachF (tid : String) (n : ActionNode) : ActionNode :=
  if n.children_node_ids.isEmpty then { n with children_node_ids := n.children_node_ids ++ [tid] } else n

/-- Parent half of referential closure, over a plain node list. -/
def ParentsN (s : List ActionNode) : Prop :=
  ∀ n ∈ s, ∀ p, n.parent_node_id = some p →
    ∃ m ∈ s, m.node_id = p ∧ n.node_id ∈ m.children_node_ids

/-- Child half of referential closure, over a plain node list. -/
def ChildrenN (s : List ActionNode) : Prop :=
  ∀ m ∈ s, ∀ c ∈ m.children_node_ids,
    ∃ n ∈ s, n.node_id = c ∧ n.parent_node_id = some m.node_id

/-- Referential closure of a plain node list. -/
def ConsistentN (s : List ActionNode) : Prop := ParentsN s ∧ ChildrenN s

/-- Clipboard sanity for the paste handlers: a clone's parent reference that
stays inside the clipboard is backed by the corresponding child reference
(copies of a consistent graph satisfy this). -/
def ClipParents (clip : List ActionNode) : Prop :=
  ∀ n ∈ clip, ∀ p, n.parent_node_id = some p →
    p ∈ clip.map (fun m => m.node_id) →
    ∃ m ∈ clip, m.node_id = p ∧ n.node_id ∈ m.children_node_ids

/-- Clipboard sanity: a child reference that stays inside the clipboard is
backed by the corresponding parent reference. -/
def ClipChildren (clip : List ActionNode) : Prop :=
  ∀ m ∈ clip, ∀ c ∈ m.children_node_ids,
    c ∈ clip.map (fun n => n.node_id) →
    ∃ n ∈ clip, n.node_id = c ∧ n.parent_node_id = some m.node_id

/-- Clipboard closure: every child reference stays inside the clipboard (a
branch copy copies whole subtrees). -/
def ClipClosed (clip : List ActionNode) : Prop :=
  ∀ m ∈ clip, ∀ c ∈ m.children_node_ids, c ∈ clip.map (fun n => n.node_id)

/-- C1 counterexample fixture: a well-formed graph `a > {b, c}`. -/
def cxA : ActionNode := ActionNode.mk ("a") ("L") none [("b"), ("c")] ("") []

def cxB : ActionNode := ActionNode.mk ("b") ("L") (some ("a")) [] ("") []

def cxC : ActionNode := ActionNode.mk ("c") ("L") (some ("a")) [] ("") []

def cxStep : StepDefinition := StepDefinition.mk ("s1") ("S") [("a")] none

def cxGraph : SessionActionsGraph :=
  SessionActionsGraph.mk ("CX") [cxStep] [cxA, cxB, cxC]

/-- C1 counterexample clipboard: a branch copy `x > {y, z}` with two leaves. -/
def cxX : ActionNode := ActionNode.mk ("x") ("L") none [("y"), ("z")] ("") []

def cxY : ActionNode := ActionNode.mk ("y") ("L") (some ("x")) [] ("") []

def cxZ : ActionNode := ActionNode.mk ("z") ("L") (some ("x")) [] ("") []

/-- C1 witness clipboard: a single-leaf branch copy `x > y`. -/
def cwX : ActionNode := ActionNode.mk ("x") ("L") none [("y")] ("") []

def cwY : ActionNode := ActionNode.mk ("y") ("L") (some ("x")) [] ("") []

/-- The single leaf clone produced by pasting `cwX > cwY` with fresh ids
`nx, ny`. -/
def cwLeaf : ActionNode := ActionNode.mk ("ny") ("L") (some ("nx")) [] ("") []

/-! ### Decidability instances -/

mutual

theorem PyValue.beqFn_iff : ∀ a b : PyValue, PyValue.beqFn a b = true ↔ a = b
  | .bool _, .bool _ => by simp [PyValue.beqFn]
  | .int _, .int _ => by simp [PyValue.beqFn]
  | .float _, .float _ => by simp [PyValue.beqFn]
  | .str _, .str _ => by simp [PyValue.beqFn]
  | .dict a, .dict b => by
    simp only [PyValue.beqFn]
    rw [PyValue.beqList_iff a b]
    simp
  | .bool _, .int _ => by simp [PyValue.beqFn]
  | .bool _, .float _ => by simp [PyValue.beqFn]
  | .bool _, .str _ => by simp [PyValue.beqFn]
  | .bool _, .dict _ => by simp [PyValue.beqFn]
  | .int _, .bool _ => by simp [PyValue.beqFn]
  | .int _, .float _ => by simp [PyValue.beqFn]
  | .int _, .str _ => by simp [PyValue.beqFn]
  | .int _, .dict _ => by simp [PyValue.beqFn]
  | .float _, .bool _ => by simp [PyValue.beqFn]
  | .float _, .int _ => by simp [PyValue.beqFn]
  | .float _, .str _ => by simp [PyValue.beqFn]
  | .float _, .dict _ => by simp [PyValue.beqFn]
  | .str _, .bool _ => by simp [PyValue.beqFn]
  | .str _, .int _ => by simp [PyValue.beqFn]
  | .str _, .float _ => by simp [PyValue.beqFn]
  | .str _, .dict _ => by simp [PyValue.beqFn]
  | .dict _, .bool _ => by simp [PyValue.beqFn]
  | .dict _, .int _ => by simp [PyValue.beqFn]
  | .dict _, .float _ => by simp [PyValue.beqFn]
  | .dict _, .str _ => by simp [PyValue.beqFn]

theorem PyValue.beqList_iff :
    ∀ a b : List (String × PyValue), PyValue.beqList a b = true ↔ a = b
  | [], [] => by simp [PyValue.beqList]
  | [], _ :: _ => by simp [PyValue.beqList]
  | _ :: _, [] => by simp [PyValue.beqList]
  | (k, v) :: rest, (k2, v2) :: rest2 => by
    simp only [PyValue.beqList, Bool.and_eq_true, beq_iff_eq]
    rw [PyValue.beqFn_iff v v2, PyValue.beqList_iff rest rest2]
    constructor
    · rintro ⟨⟨h1, h2⟩, h3⟩; simp [h1, h2, h3]
    · intro h; injection h with h1 h2; cases h1; simp_all

end

instance : DecidableEq PyValue := fun a b =>
  decidable_of_iff (PyValue.beqFn a b = true) (PyValue.beqFn_iff a b)

instance : DecidableEq ActionNode := fun a b =>
  decidable_of_iff
    (a.node_id = b.node_id ∧ a.action_label_to_execute = b.action_label_to_execute ∧
      a.parent_node_id = b.parent_node_id ∧ a.children_node_ids = b.children_node_ids ∧
      a.instance_label = b.instance_label ∧ a.custom_field_values = b.custom_field_values)
    (by cases a; cases b; simp)

instance : DecidableEq StepDefinition := fun a b =>
  decidable_of_iff
    (a.step_id = b.step_id ∧ a.step_name = b.step_name ∧
      a.root_node_ids = b.root_node_ids ∧ a.enabled = b.enabled)
    (by cases a; cases b; simp)

instance : DecidableEq SessionActionsGraph := fun a b =>
  decidable_of_iff
    (a.session_name = b.session_name ∧ a.steps = b.steps ∧ a.nodes = b.nodes)
    (by cases a; cases b; simp)

instance : DecidableEq ActionNodeDict := fun a b =>
  decidable_of_iff
    (a.nodeId = b.nodeId ∧ a.actionLabelToExecute = b.actionLabelToExecute ∧
      a.childrenNodeIds = b.childrenNodeIds ∧ a.instanceLabel = b.instanceLabel ∧
      a.customFieldValues = b.customFieldValues ∧ a.parentNodeId = b.parentNodeId)
    (by cases a; cases b; simp)

instance : DecidableEq StepDict := fun a b =>
  decidable_of_iff
    (a.stepId = b.stepId ∧ a.stepName = b.stepName ∧ a.rootNodeIds = b.rootNodeIds)
    (by cases a; cases b; simp)

instance : DecidableEq GraphDict := fun a b =>
  decidable_of_iff
    (a.sessionName = b.sessionName ∧ a.steps = b.steps ∧ a.nodes = b.nodes)
    (by cases a; cases b; simp)

instance : DecidableEq CustomFieldDefinition := fun a b =>
  decidable_of_iff
    (a.field_name = b.field_name ∧ a.field_type = b.field_type ∧
      a.default_value = b.default_value ∧ a.enum_values = b.enum_values)
    (by cases a; cases b; simp)

instance : DecidableEq SubActionFieldDefinition := fun a b =>
  decidable_of_iff
    (a.field_name = b.field_name ∧ a.field_type = b.field_type ∧
      a.default_value = b.default_value ∧ a.enum_values = b.enum_values)
    (by cases a; cases b; simp)

instance {ε α : Type} [DecidableEq ε] [DecidableEq α] : DecidableEq (Except ε α) :=
  fun a b =>
  match a, b with
  | .ok x, .ok y => decidable_of_iff (x = y) (by simp)
  | .error x, .error y => decidable_of_iff (x = y) (by simp)
  | .ok _, .error _ => isFalse (by simp)
  | .error _, .ok _ => isFalse (by simp)

instance (g : SessionActionsGraph) : Decidable (NodupIds g) := by
  unfold NodupIds; infer_instance

instance (g : SessionActionsGraph) : Decidable (NoEmptyId g) := by
  unfold NoEmptyId; infer_instance

instance (g : SessionActionsGraph) : Decidable (ParentsConsistent g) := by
  unfold ParentsConsistent; infer_instance

instance (g : SessionActionsGraph) : Decidable (ChildrenConsistent g) := by
  unfold ChildrenConsistent; infer_instance

instance (g : SessionActionsGraph) : Decidable (Consistent g) := by
  unfold Consistent; infer_instance

instance (g : SessionActionsGraph) : Decidable (NodupChildren g) := by
  unfold NodupChildren; infer_instance

instance (g : SessionActionsGraph) : Decidable (RootsOk g) := by
  unfold RootsOk; infer_instance

instance (g : SessionActionsGraph) : Decidable (RootsNodup g) := by
  unfold RootsNodup; infer_instance

instance (g : SessionActionsGraph) : Decidable (StepIdsNodup g) := by
  unfold StepIdsNodup; infer_instance

instance (g : SessionActionsGraph) : Decidable (Acyclic g) := by
  unfold Acyclic; infer_instance

instance (g : SessionActionsGraph) : Decidable (WF g) := by
  unfold WF; infer_instance

instance (s : List ActionNode) : Decidable (ParentsN s) := by
  unfold ParentsN; infer_instance

instance (s : List ActionNode) : Decidable (ChildrenN s) := by
  unfold ChildrenN; infer_instance

instance (s : List ActionNode) : Decidable (ConsistentN s) := by
  unfold ConsistentN; infer_instance

instance (s : List ActionNode) : Decidable (ClipParents s) := by
  unfold ClipParents; infer_instance

instance (s : List ActionNode) : Decidable (ClipChildren s) := by
  unfold ClipChildren; infer_instance

instance (s : List ActionNode) : Decidable (ClipClosed s) := by
  unfold ClipClosed; infer_instance

/-! ### Small facts about `dedupSort` -/

theorem dedupSort_ne_nil {l : List String} (h : l ≠ []) : dedupSort l ≠ [] := by
  intro hnil
  apply h
  have hperm := List.perm_insertionSort (fun a b => strLeB a b = true) l.dedup
  rw [dedupSort] at hnil
  rw [hnil] at hperm
  exact (List.dedup_eq_nil l).mp (List.Perm.nil_eq hperm).symm

/-! ### Lookup and BFS facts -/

theorem getNode_isSome_mem {nodes : List ActionNode} {i : String} {n : ActionNode}
    (h : getNode nodes i = some n) : n ∈ nodes ∧ n.node_id = i := by
  unfold getNode at h
  suffices H : ∀ (l : List ActionNode) (acc : Option ActionNode),
      l.foldl (fun acc n => if n.node_id = i then some n else acc) acc = some n →
      acc = some n ∨ (n ∈ l ∧ n.node_id = i) by
    rcases H nodes none h with h1 | h2
    · cases h1
    · exact h2
  intro l
  induction l with
  | nil => intro acc h; exact Or.inl h
  | cons x t ih =>
    intro acc h
    rw [List.foldl_cons] at h
    rcases ih _ h with h1 | h2
    · by_cases hx : x.node_id = i
      · rw [if_pos hx] at h1
        cases h1
        exact Or.inr ⟨List.mem_cons_self _ _, hx⟩
      · rw [if_neg hx] at h1
        exact Or.inl h1
    · exact Or.inr ⟨List.mem_cons_of_mem _ h2.1, h2.2⟩

theorem sublist_flatMap {α β : Type} {l1 l2 : List α} (f : α → List β)
    (h : List.Sublist l1 l2) : List.Sublist (l1.flatMap f) (l2.flatMap f) := by
  induction h with
  | slnil => exact List.Sublist.refl _
  | cons a h ih =>
    rw [List.flatMap_cons]
    exact ih.trans (List.sublist_append_right (f a) _)
  | cons₂ a h ih =>
    rw [List.flatMap_cons, List.flatMap_cons]
    exact List.Sublist.append_left ih (f a)

theorem length_flatMap_filter {α β : Type} (f : α → List β) (q : α → Bool) :
    ∀ (l : List α) (n : α), n ∈ l → q n = false →
      ((l.filter q).flatMap f).length + (f n).length ≤ (l.flatMap f).length := by
  intro l
  induction l with
  | nil => intro n hn; intro _; cases hn
  | cons a t ih =>
    intro n hn hq
    rw [List.flatMap_cons]
    rcases List.mem_cons.mp hn with rfl | hmem
    · rw [List.filter_cons, hq]
      simp only [Bool.false_eq_true, if_false]
      have hsub := (sublist_flatMap f (List.filter_sublist t (p := q))).length_le
      simp only [List.length_append]
      omega
    · cases hqa : q a with
      | false =>
        rw [List.filter_cons, hqa]
        simp only [Bool.false_eq_true, if_false]
        have := ih n hmem hq
        simp only [List.length_append]
        omega
      | true =>
        rw [List.filter_cons, hqa]
        simp only [if_true, List.flatMap_cons]
        have := ih n hmem hq
        simp only [List.length_append]
        omega

theorem childBudget_split (nodes : List ActionNode) (p : List String) (i : String) :
    nodes.filter (fun n => !((i :: p).contains n.node_id))
      = (nodes.filter (fun n => !(p.contains n.node_id))).filter
          (fun n => !(n.node_id == i)) := by
  rw [List.filter_filter]
  congr 1
  funext n
  simp [List.contains_cons, Bool.not_or]
  rfl

theorem childBudget_cons_le (nodes : List ActionNode) (p : List String) (i : String) :
    childBudget nodes (i :: p) ≤ childBudget nodes p := by
  unfold childBudget
  rw [childBudget_split]
  exact (sublist_flatMap _ (List.filter_sublist _)).length_le

theorem childBudget_remove {nodes : List ActionNode} {p : List String} {i : String}
    {n : ActionNode} (hmem : n ∈ nodes) (hid : n.node_id = i) (hp : i ∉ p) :
    childBudget nodes (i :: p) + n.children_node_ids.length ≤ childBudget nodes p := by
  unfold childBudget
  rw [childBudget_split]
  apply length_flatMap_filter
  · rw [List.mem_filter]
    refine ⟨hmem, ?_⟩
    rw [hid]
    simp [hp]
  · rw [hid]
    simp

theorem bfsCollect_isSome (nodes : List ActionNode) :
    ∀ (fuel : Nat) (queue processed : List String),
      queue.length + childBudget nodes processed ≤ fuel →
      (bfsCollect nodes fuel queue processed).isSome = true := by
  intro fuel
  induction fuel with
  | zero =>
    intro queue processed h
    cases queue with
    | nil => rfl
    | cons a t =>
      rw [List.length_cons] at h
      omega
  | succ fuel ih =>
    intro queue processed h
    cases queue with
    | nil => rfl
    | cons nid rest =>
      rw [List.length_cons] at h
      by_cases hmem : nid ∈ processed
      · rw [bfsCollect]
        rw [if_pos hmem]
        apply ih
        have := childBudget_cons_le nodes processed nid
        omega
      · rw [bfsCollect]
        rw [if_neg hmem]
        cases hget : getNode nodes nid with
        | some n =>
          apply ih
          obtain ⟨hn_mem, hn_id⟩ := getNode_isSome_mem hget
          have hbud := childBudget_remove hn_mem hn_id hmem
          rw [List.length_append]
          omega
        | none =>
          apply ih
          have := childBudget_cons_le nodes processed nid
          omega

/-! ### Claim C10 — the removal collection loop always terminates -/

/-- C10 (confirmed): the breadth-first collection loop of the removal
handlers, embedded with an explicit iteration budget, finishes within
`bfsFuel` iterations for EVERY store and queue — including stores whose
children lists repeat ids or form cycles — because a popped id already in the
processed set is skipped and every other id is processed at most once.
Consequently `collectIds` (and with it `removeBranch` and `removeStep`) never
hits the out-of-budget fallback: the loop's result is `some (collectIds ...)`. -/
theorem c10_bfs_collection_terminates :
    ∀ (nodes : List ActionNode) (queue : List String),
      (bfsCollect nodes (bfsFuel nodes queue) queue []).isSome = true ∧
      bfsCollect nodes (bfsFuel nodes queue) queue [] = some (collectIds nodes queue) := by
  intro nodes queue
  have h1 : (bfsCollect nodes (bfsFuel nodes queue) queue []).isSome = true := by
    apply bfsCollect_isSome
    have : childBudget nodes [] ≤ (nodes.flatMap (fun n => n.children_node_ids)).length := by
      unfold childBudget
      exact (sublist_flatMap _ (List.filter_sublist _)).length_le
    unfold bfsFuel
    omega
  refine ⟨h1, ?_⟩
  unfold collectIds
  cases hres : bfsCollect nodes (bfsFuel nodes queue) queue [] with
  | none => rw [hres] at h1; cases h1
  | some s => rfl

/-! ### Validation characterization -/

theorem data_append (a b : String) : (a ++ b).data = a.data ++ b.data := rfl

theorem strInfix_piece (x a y : String) : strInfix a (x ++ a ++ y) := by
  exact ⟨x.data, y.data, by simp [data_append]⟩

theorem strInfix_appendR {a b : String} (c : String) (h : strInfix a b) :
    strInfix a (b ++ c) := by
  rcases h with ⟨s, t, hst⟩
  exact ⟨s, t ++ c.data, by rw [data_append, ← hst]; simp⟩

theorem checkDupIds_ok_iff (name : String) :
    ∀ (l : List ActionNode) (seen : List String),
      checkDupIds name l seen = .ok () ↔
        ((l.map (fun n => n.node_id)).Nodup ∧
          ∀ x ∈ l.map (fun n => n.node_id), x ∉ seen) := by
  intro l
  induction l with
  | nil => intro seen; simp [checkDupIds]
  | cons n t ih =>
    intro seen
    by_cases hmem : n.node_id ∈ seen
    · rw [checkDupIds, if_pos hmem]
      simp only [List.map_cons, List.nodup_cons, List.mem_cons]
      constructor
      · intro h; cases h
      · rintro ⟨-, hall⟩
        exact absurd hmem (hall n.node_id (Or.inl rfl))
    · rw [checkDupIds, if_neg hmem, ih]
      simp only [List.map_cons, List.nodup_cons, List.mem_cons]
      constructor
      · rintro ⟨hnd, hall⟩
        refine ⟨⟨?_, hnd⟩, ?_⟩
        · intro hin
          exact (hall _ hin) (Or.inl rfl)
        · rintro x (rfl | hx)
          · exact hmem
          · intro hxs
            exact (hall x hx) (Or.inr hxs)
      · rintro ⟨⟨hnotin, hnd⟩, hall⟩
        refine ⟨hnd, ?_⟩
        intro x hx
        rintro (rfl | hxs)
        · exact hnotin hx
        · exact (hall x (Or.inr hx)) hxs

theorem checkDupIds_error (name : String) :
    ∀ (l : List ActionNode) (seen : List String) (e : String),
      checkDupIds name l seen = .error e →
      ∃ i, e = msgDuplicate name i ∧ i ∈ l.map (fun n => n.node_id) ∧
        (i ∈ seen ∨ 2 ≤ (l.map (fun n => n.node_id)).count i) := by
  intro l
  induction l with
  | nil => intro seen e h; cases h
  | cons n t ih =>
    intro seen e h
    by_cases hmem : n.node_id ∈ seen
    · rw [checkDupIds, if_pos hmem] at h
      cases h
      exact ⟨n.node_id, rfl, by simp, Or.inl hmem⟩
    · rw [checkDupIds, if_neg hmem] at h
      obtain ⟨i, he, hit, hcase⟩ := ih _ _ h
      refine ⟨i, he, by simp [hit], ?_⟩
      rcases hcase with hin | hcnt
      · rcases List.mem_cons.mp hin with heq | hinseen
        · right
          have hpos : 1 ≤ (t.map (fun n => n.node_id)).count i :=
            List.count_pos_iff.mpr hit
          have hif : (if n.node_id = i then 1 else 0) = 1 := if_pos heq.symm
          simp only [List.map_cons, List.count_cons, beq_iff_eq, hif]
          omega
        · exact Or.inl hinseen
      · right
        simp only [List.map_cons, List.count_cons]
        omega

theorem checkRoots_ok_iff (name sn si : String) (ids : List String) :
    ∀ roots : List String,
      checkRoots name sn si ids roots = .ok () ↔ ∀ r ∈ roots, r ∈ ids := by
  intro roots
  induction roots with
  | nil => simp [checkRoots]
  | cons r rest ih =>
    by_cases hmem : r ∈ ids
    · rw [checkRoots, if_pos hmem, ih]
      simp [hmem]
    · rw [checkRoots, if_neg hmem]
      constructor
      · intro h; cases h
      · intro hall
        exact absurd (hall r (by simp)) hmem

theorem checkRoots_error (name sn si : String) (ids : List String) :
    ∀ (roots : List String) (e : String),
      checkRoots name sn si ids roots = .error e →
      ∃ r ∈ roots, r ∉ ids ∧ e = msgRootNotFound name sn si r := by
  intro roots
  induction roots with
  | nil => intro e h; cases h
  | cons r rest ih =>
    intro e h
    by_cases hmem : r ∈ ids
    · rw [checkRoots, if_pos hmem] at h
      obtain ⟨r2, hr2, hni, he⟩ := ih _ h
      exact ⟨r2, by simp [hr2], hni, he⟩
    · rw [checkRoots, if_neg hmem] at h
      cases h
      exact ⟨r, by simp, hmem, rfl⟩

theorem checkSteps_ok_iff (name : String) (ids : List String) :
    ∀ (steps : List StepDefinition) (idx : Nat),
      checkSteps name ids idx steps = .ok () ↔
        ∀ s ∈ steps, s.step_id ≠ "" ∧ ∀ r ∈ s.root_node_ids, r ∈ ids := by
  intro steps
  induction steps with
  | nil => intro idx; simp [checkSteps]
  | cons s rest ih =>
    intro idx
    by_cases hsid : s.step_id = ""
    · rw [checkSteps, if_pos hsid]
      constructor
      · intro h; cases h
      · intro hall
        exact absurd hsid (hall s (by simp)).1
    · rw [checkSteps, if_neg hsid]
      cases hr : checkRoots name s.step_name s.step_id ids s.root_node_ids with
      | error e =>
        constructor
        · intro h; cases h
        · intro hall
          obtain ⟨r, hrmem, hrni, -⟩ := checkRoots_error name _ _ ids _ _ hr
          exact absurd ((hall s (by simp)).2 r hrmem) hrni
      | ok u =>
        cases u
        rw [ih]
        have hroots := (checkRoots_ok_iff name s.step_name s.step_id ids s.root_node_ids).mp hr
        constructor
        · intro hall
          rintro s2 hs2
          rcases List.mem_cons.mp hs2 with rfl | hmem
          · exact ⟨hsid, hroots⟩
          · exact hall s2 hmem
        · intro hall s2 hs2
          exact hall s2 (by simp [hs2])

theorem checkSteps_error (name : String) (ids : List String) :
    ∀ (steps : List StepDefinition) (idx : Nat) (e : String),
      (∀ s ∈ steps, s.step_id ≠ "") →
      checkSteps name ids idx steps = .error e →
      ∃ s ∈ steps, ∃ r ∈ s.root_node_ids, r ∉ ids ∧
        e = msgRootNotFound name s.step_name s.step_id r := by
  intro steps
  induction steps with
  | nil => intro idx e _ h; cases h
  | cons s rest ih =>
    intro idx e hsid h
    rw [checkSteps, if_neg (hsid s (by simp))] at h
    cases hr : checkRoots name s.step_name s.step_id ids s.root_node_ids with
    | error e2 =>
      rw [hr] at h
      cases h
      obtain ⟨r, hrmem, hrni, he⟩ := checkRoots_error name _ _ ids _ _ hr
      exact ⟨s, by simp, r, hrmem, hrni, he⟩
    | ok u =>
      cases u
      rw [hr] at h
      obtain ⟨s2, hs2, rest_result⟩ := ih _ _ (fun x hx => hsid x (by simp [hx])) h
      exact ⟨s2, by simp [hs2], rest_result⟩

theorem checkChildren_ok_iff (name nid : String) (ids : List String) :
    ∀ cs : List String,
      checkChildren name nid ids cs = .ok () ↔ ∀ c ∈ cs, c ∈ ids := by
  intro cs
  induction cs with
  | nil => simp [checkChildren]
  | cons c rest ih =>
    by_cases hmem : c ∈ ids
    · rw [checkChildren, if_pos hmem, ih]
      simp [hmem]
    · rw [checkChildren, if_neg hmem]
      constructor
      · intro h; cases h
      · intro hall
        exact absurd (hall c (by simp)) hmem

theorem checkChildren_error (name nid : String) (ids : List String) :
    ∀ (cs : List String) (e : String),
      checkChildren name nid ids cs = .error e →
      ∃ c ∈ cs, c ∉ ids ∧ e = msgChildNotFound name nid c := by
  intro cs
  induction cs with
  | nil => intro e h; cases h
  | cons c rest ih =>
    intro e h
    by_cases hmem : c ∈ ids
    · rw [checkChildren, if_pos hmem] at h
      obtain ⟨c2, hc2, hni, he⟩ := ih _ h
      exact ⟨c2, by simp [hc2], hni, he⟩
    · rw [checkChildren, if_neg hmem] at h
      cases h
      exact ⟨c, by simp, hmem, rfl⟩

theorem checkParent_ok_iff (name : String) (ids : List String) (n : ActionNode) :
    checkParent name ids n = .ok () ↔
      ∀ p, n.parent_node_id = some p → p ≠ "" → p ∈ ids := by
  cases hp : n.parent_node_id with
  | none => simp [checkParent, hp]
  | some p =>
    by_cases hemp : p = ""
    · subst hemp
      simp [checkParent, hp]
    · by_cases hin : p ∈ ids
      · simp [checkParent, hp, hemp, hin]
      · simp only [checkParent, hp]
        have hcond : (decide (p ≠ "") && !(ids.contains p)) = true := by
          simp [hemp, hin]
        rw [hcond]
        simp only [if_true]
        constructor
        · intro h; cases h
        · intro hall
          exact absurd (hall p rfl hemp) hin

theorem checkParent_error (name : String) (ids : List String) (n : ActionNode)
    (e : String) (h : checkParent name ids n = .error e) :
    ∃ p, n.parent_node_id = some p ∧ p ≠ "" ∧ p ∉ ids ∧
      e = msgParentNotFound name n.node_id p := by
  cases hp : n.parent_node_id with
  | none => simp [checkParent, hp] at h
  | some p =>
    by_cases hemp : p = ""
    · subst hemp
      simp [checkParent, hp] at h
    · by_cases hin : p ∈ ids
      · simp [checkParent, hp, hemp, hin] at h
      · simp only [checkParent, hp] at h
        have hcond : (decide (p ≠ "") && !(ids.contains p)) = true := by
          simp [hemp, hin]
        rw [hcond] at h
        simp only [if_true, Except.error.injEq] at h
        exact ⟨p, rfl, hemp, hin, h.symm⟩

theorem checkNodes_ok_iff (name : String) (ids : List String) :
    ∀ l : List ActionNode,
      checkNodes name ids l = .ok () ↔
        ∀ n ∈ l, (∀ p, n.parent_node_id = some p → p ≠ "" → p ∈ ids) ∧
          ∀ c ∈ n.children_node_ids, c ∈ ids := by
  intro l
  induction l with
  | nil => simp [checkNodes]
  | cons n rest ih =>
    rw [checkNodes]
    cases hpar : checkParent name ids n with
    | error e =>
      constructor
      · intro h; cases h
      · intro hall
        obtain ⟨p, hp, hemp, hni, -⟩ := checkParent_error name ids n e hpar
        exact absurd ((hall n (by simp)).1 p hp hemp) hni
    | ok u =>
      cases u
      cases hch : checkChildren name n.node_id ids n.children_node_ids with
      | error e =>
        constructor
        · intro h; cases h
        · intro hall
          obtain ⟨c, hc, hni, -⟩ := checkChildren_error name n.node_id ids _ _ hch
          exact absurd ((hall n (by simp)).2 c hc) hni
      | ok u =>
        cases u
        rw [ih]
        have hpok := (checkParent_ok_iff name ids n).mp hpar
        have hcok := (checkChildren_ok_iff name n.node_id ids _).mp hch
        constructor
        · intro hall n2 hn2
          rcases List.mem_cons.mp hn2 with rfl | hmem
          · exact ⟨hpok, hcok⟩
          · exact hall n2 hmem
        · intro hall n2 hn2
          exact hall n2 (by simp [hn2])

theorem checkNodes_error (name : String) (ids : List String) :
    ∀ (l : List ActionNode) (e : String),
      checkNodes name ids l = .error e →
      (∃ n ∈ l, ∃ p, n.parent_node_id = some p ∧ p ≠ "" ∧ p ∉ ids ∧
        e = msgParentNotFound name n.node_id p) ∨
      (∃ n ∈ l, ∃ c ∈ n.children_node_ids, c ∉ ids ∧
        e = msgChildNotFound name n.node_id c) := by
  intro l
  induction l with
  | nil => intro e h; cases h
  | cons n rest ih =>
    intro e h
    rw [checkNodes] at h
    cases hpar : checkParent name ids n with
    | error e2 =>
      rw [hpar] at h
      have he2 := Except.error.inj h
      subst he2
      obtain ⟨p, hp, hemp, hni, he⟩ := checkParent_error name ids n e2 hpar
      exact Or.inl ⟨n, by simp, p, hp, hemp, hni, he⟩
    | ok u =>
      cases u
      rw [hpar] at h
      cases hch : checkChildren name n.node_id ids n.children_node_ids with
      | error e2 =>
        rw [hch] at h
        have he2 := Except.error.inj h
        subst he2
        obtain ⟨c, hc, hni, he⟩ := checkChildren_error name n.node_id ids _ _ hch
        exact Or.inr ⟨n, by simp, c, hc, hni, he⟩
      | ok u =>
        cases u
        rw [hch] at h
        rcases ih _ h with ⟨n2, hn2, rest2⟩ | ⟨n2, hn2, rest2⟩
        · exact Or.inl ⟨n2, by simp [hn2], rest2⟩
        · exact Or.inr ⟨n2, by simp [hn2], rest2⟩

theorem validateGraph_ok_iff (g : SessionActionsGraph) :
    validateGraph g = .ok () ↔ ValidOk g := by
  unfold ValidOk
  cases hdup : checkDupIds g.session_name g.nodes [] with
  | error e =>
    constructor
    · intro h
      simp [validateGraph, hdup] at h
    · rintro ⟨hnd, -, -⟩
      have h2 := (checkDupIds_ok_iff g.session_name g.nodes []).mpr ⟨hnd, by simp⟩
      rw [hdup] at h2
      cases h2
  | ok u =>
    cases u
    have hnd := (checkDupIds_ok_iff g.session_name g.nodes []).mp hdup
    cases hst : checkSteps g.session_name (g.nodes.map (fun n => n.node_id)) 0 g.steps with
    | error e =>
      constructor
      · intro h
        simp [validateGraph, hdup, hst] at h
      · rintro ⟨-, hsteps, -⟩
        have h2 := (checkSteps_ok_iff g.session_name _ g.steps 0).mpr hsteps
        rw [hst] at h2
        cases h2
    | ok u =>
      cases u
      have hvg : validateGraph g
          = checkNodes g.session_name (g.nodes.map (fun n => n.node_id)) g.nodes := by
        simp [validateGraph, hdup, hst]
      rw [hvg, checkNodes_ok_iff]
      have hsteps := (checkSteps_ok_iff g.session_name _ g.steps 0).mp hst
      constructor
      · intro hnodes
        exact ⟨hnd.1, hsteps, hnodes⟩
      · rintro ⟨-, -, hnodes⟩
        exact hnodes

theorem validateGraph_error_info (g : SessionActionsGraph)
    (hsid : ∀ s ∈ g.steps, s.step_id ≠ "") (e : String)
    (h : validateGraph g = .error e) :
    strInfix g.session_name e ∧ ∃ i, OffendingId g i ∧ strInfix i e := by
  cases hdup : checkDupIds g.session_name g.nodes [] with
  | error e2 =>
    have he : e2 = e := by
      have h2 : validateGraph g = .error e2 := by simp [validateGraph, hdup]
      rw [h] at h2
      exact (Except.error.inj h2).symm
    subst he
    obtain ⟨i, hmsg, hmem, hcase⟩ := checkDupIds_error g.session_name g.nodes [] e2 hdup
    rcases hcase with hfalse | hcount
    · exact absurd hfalse (List.not_mem_nil _)
    · subst hmsg
      refine ⟨?_, i, Or.inl hcount, ?_⟩
      · exact ⟨("Session " ++ sq).data,
          (sq ++ ": Duplicate nodeId " ++ sq ++ i ++ sq ++ " found in nodes list.").data,
          by simp [msgDuplicate, data_append]⟩
      · exact ⟨("Session " ++ sq ++ g.session_name ++ sq ++ ": Duplicate nodeId " ++ sq).data,
          (sq ++ " found in nodes list.").data,
          by simp [msgDuplicate, data_append]⟩
  | ok u =>
    cases u
    cases hst : checkSteps g.session_name (g.nodes.map (fun n => n.node_id)) 0 g.steps with
    | error e2 =>
      have he : e2 = e := by
        have h2 : validateGraph g = .error e2 := by simp [validateGraph, hdup, hst]
        rw [h] at h2
        exact (Except.error.inj h2).symm
      subst he
      obtain ⟨s, hsmem, r, hrmem, hrni, hmsg⟩ :=
        checkSteps_error g.session_name _ g.steps 0 e2 hsid hst
      subst hmsg
      refine ⟨?_, r, Or.inr ⟨hrni, Or.inl ⟨s, hsmem, hrmem⟩⟩, ?_⟩
      · exact ⟨("Session " ++ sq).data,
          (sq ++ ", Step " ++ sq ++ s.step_name ++ sq ++ " (" ++ s.step_id ++
            "): rootNodeId " ++ sq ++ r ++ sq ++ " not found in defined nodes list.").data,
          by simp [msgRootNotFound, data_append]⟩
      · exact ⟨("Session " ++ sq ++ g.session_name ++ sq ++ ", Step " ++ sq ++ s.step_name ++
            sq ++ " (" ++ s.step_id ++ "): rootNodeId " ++ sq).data,
          (sq ++ " not found in defined nodes list.").data,
          by simp [msgRootNotFound, data_append]⟩
    | ok u =>
      cases u
      have hvg : validateGraph g
          = checkNodes g.session_name (g.nodes.map (fun n => n.node_id)) g.nodes := by
        simp [validateGraph, hdup, hst]
      rw [hvg] at h
      rcases checkNodes_error g.session_name _ g.nodes e h with
        ⟨n, hnmem, p, hp, hemp, hni, hmsg⟩ | ⟨n, hnmem, c, hc, hni, hmsg⟩
      · subst hmsg
        refine ⟨?_, p, Or.inr ⟨hni, Or.inr (Or.inl ⟨n, hnmem, hp, hemp⟩)⟩, ?_⟩
        · exact ⟨("Session " ++ sq).data,
            (sq ++ ", Node " ++ sq ++ n.node_id ++ sq ++ ": parentNodeId " ++ sq ++ p ++ sq ++
              " not found.").data,
            by simp [msgParentNotFound, data_append]⟩
        · exact ⟨("Session " ++ sq ++ g.session_name ++ sq ++ ", Node " ++ sq ++ n.node_id ++
              sq ++ ": parentNodeId " ++ sq).data,
            (sq ++ " not found.").data,
            by simp [msgParentNotFound, data_append]⟩
      · subst hmsg
        refine ⟨?_, c, Or.inr ⟨hni, Or.inr (Or.inr ⟨n, hnmem, hc⟩)⟩, ?_⟩
        · exact ⟨("Session " ++ sq).data,
            (sq ++ ", Node " ++ sq ++ n.node_id ++ sq ++ ": childNodeId " ++ sq ++ c ++ sq ++
              " not found.").data,
            by simp [msgChildNotFound, data_append]⟩
        · exact ⟨("Session " ++ sq ++ g.session_name ++ sq ++ ", Node " ++ sq ++ n.node_id ++
              sq ++ ": childNodeId " ++ sq).data,
            (sq ++ " not found.").data,
            by simp [msgChildNotFound, data_append]⟩

/-! ### Claim C5 — validation rejects duplicates and dangling references -/

/-- C5 (corrected), counterexample to the claim as stated: a node whose
`parent_node_id` is the (non-`None`) empty string refers to no node in the
list, yet construction succeeds, because the validation guards the parent
check with Python truthiness (`if node.parent_node_id and ...`). -/
theorem c5_validation_counterexample :
    mkSessionActionsGraph ("S") [] [emptyParentNode] = .ok emptyParentGraph ∧
      emptyParentNode.parent_node_id = some ("") ∧
      (emptyParentGraph.nodes.map (fun n => n.node_id)).contains ("") = false := by
  exact ⟨by decide, rfl, by decide⟩

/-- C5 (corrected), the amended claim: whenever the nodes list contains two
nodes with the same id, or a step root, a NON-EMPTY parent reference, or a
child reference names no node — and the steps carry non-empty ids, as every
constructed `StepDefinition` does — validation returns an error whose message
contains the session name and an offending id, and the constructor never
produces a graph (a parent reference that is the empty string escapes the
check, per the counterexample). -/
theorem c5_validation_rejects (g : SessionActionsGraph)
    (hsid : ∀ s ∈ g.steps, s.step_id ≠ "")
    (hviol : ¬ (g.nodes.map (fun n => n.node_id)).Nodup ∨
      (∃ s ∈ g.steps, ∃ r ∈ s.root_node_ids, r ∉ g.nodes.map (fun n => n.node_id)) ∨
      (∃ n ∈ g.nodes, ∃ p, n.parent_node_id = some p ∧ p ≠ "" ∧
        p ∉ g.nodes.map (fun n => n.node_id)) ∨
      (∃ n ∈ g.nodes, ∃ c ∈ n.children_node_ids,
        c ∉ g.nodes.map (fun n => n.node_id))) :
    ∃ e, validateGraph g = .error e ∧ strInfix g.session_name e ∧
      (∃ i, OffendingId g i ∧ strInfix i e) ∧
      ∃ e2, mkSessionActionsGraph g.session_name g.steps g.nodes = .error e2 := by
  cases hv : validateGraph g with
  | ok u =>
    cases u
    exfalso
    obtain ⟨hnd, hsteps, hnodes⟩ := (validateGraph_ok_iff g).mp hv
    rcases hviol with h1 | ⟨s, hs, r, hr, hni⟩ | ⟨n, hn, p, hp, hemp, hni⟩ | ⟨n, hn, c, hc, hni⟩
    · exact h1 hnd
    · exact hni ((hsteps s hs).2 r hr)
    · exact hni ((hnodes n hn).1 p hp hemp)
    · exact hni ((hnodes n hn).2 c hc)
  | error e =>
    obtain ⟨hsinf, i, hoff, hiinf⟩ := validateGraph_error_info g hsid e hv
    refine ⟨e, rfl, hsinf, ⟨i, hoff, hiinf⟩, ?_⟩
    by_cases hname : g.session_name = ""
    · exact ⟨"session_name cannot be empty.", by simp [mkSessionActionsGraph, hname]⟩
    · exact ⟨e, by simp [mkSessionActionsGraph, hname, hv]⟩

/-- C5 witness: a graph with a duplicate node id is rejected with a message
naming the session and the id. -/
theorem c5_validation_rejects_witness :
    (∀ s ∈ dupGraph.steps, s.step_id ≠ "") ∧
    ¬ (dupGraph.nodes.map (fun n => n.node_id)).Nodup ∧
    ∃ e, validateGraph dupGraph = .error e ∧
      strInfix dupGraph.session_name e ∧
      (∃ i, OffendingId dupGraph i ∧ strInfix i e) ∧
      ∃ e2, mkSessionActionsGraph dupGraph.session_name dupGraph.steps dupGraph.nodes
        = .error e2 :=
  ⟨by decide, by decide,
   c5_validation_rejects dupGraph (by decide) (Or.inl (by decide))⟩

/-! ### Store-update toolkit -/

theorem upd_map_node_id {s : List ActionNode} {i : String} {f : ActionNode → ActionNode}
    (hf : ∀ n, (f n).node_id = n.node_id) :
    (upd s i f).map (fun n => n.node_id) = s.map (fun n => n.node_id) := by
  unfold upd
  rw [List.map_map]
  apply List.map_congr_left
  intro n _
  by_cases h : n.node_id = i
  · simp [h, hf]
  · simp [h]

theorem mem_upd_of_mem {s : List ActionNode} {i : String} {f : ActionNode → ActionNode}
    {n : ActionNode} (hn : n ∈ s) :
    (if n.node_id = i then f n else n) ∈ upd s i f :=
  List.mem_map_of_mem _ hn

theorem mem_upd_of_ne {s : List ActionNode} {i : String} {f : ActionNode → ActionNode}
    {n : ActionNode} (hn : n ∈ s) (h : n.node_id ≠ i) : n ∈ upd s i f := by
  have h2 := mem_upd_of_mem (i := i) (f := f) hn
  rwa [if_neg h] at h2

theorem mem_upd_target {s : List ActionNode} {i : String} {f : ActionNode → ActionNode}
    {n : ActionNode} (hn : n ∈ s) (h : n.node_id = i) : f n ∈ upd s i f := by
  have h2 := mem_upd_of_mem (i := i) (f := f) hn
  rwa [if_pos h] at h2

theorem mem_upd_iff {s : List ActionNode} {i : String} {f : ActionNode → ActionNode}
    {x : ActionNode} :
    x ∈ upd s i f ↔ ∃ n ∈ s, (if n.node_id = i then f n else n) = x := by
  unfold upd
  exact List.mem_map

theorem updEach_eq_map {s : List ActionNode} {ids : List String}
    {f : ActionNode → ActionNode} (hid : ∀ n, (f n).node_id = n.node_id)
    (hidem : ∀ n, f (f n) = f n) :
    updEach s ids f = s.map (fun n => if n.node_id ∈ ids then f n else n) := by
  induction ids generalizing s with
  | nil =>
    unfold updEach
    simp
  | cons i t ih =>
    have hstep : updEach s (i :: t) f = updEach (upd s i f) t f := by
      unfold updEach
      rw [List.foldl_cons]
    rw [hstep, ih]
    unfold upd
    rw [List.map_map]
    apply List.map_congr_left
    intro n _
    simp only [Function.comp_apply]
    by_cases hi : n.node_id = i
    · rw [if_pos hi]
      by_cases ht : n.node_id ∈ t
      · rw [if_pos (by rw [hid]; exact ht), if_pos (by simp [hi, ht]), hidem]
      · rw [if_neg (by rw [hid]; exact ht), if_pos (by simp [hi])]
    · rw [if_neg hi]
      by_cases ht : n.node_id ∈ t
      · rw [if_pos ht, if_pos (by simp [ht])]
      · rw [if_neg ht, if_neg (by simp [hi, ht])]

theorem updEach_map_node_id {s : List ActionNode} {ids : List String}
    {f : ActionNode → ActionNode} (hf : ∀ n, (f n).node_id = n.node_id) :
    (updEach s ids f).map (fun n => n.node_id) = s.map (fun n => n.node_id) := by
  induction ids generalizing s with
  | nil => rfl
  | cons i t ih =>
    have hstep : updEach s (i :: t) f = updEach (upd s i f) t f := by
      unfold updEach
      rw [List.foldl_cons]
    rw [hstep, ih, upd_map_node_id hf]

theorem replaceInList_not_mem {a b : String} {l : List String} (h : a ∉ l) :
    replaceInList a b l = l := by
  unfold replaceInList
  induction l with
  | nil => rfl
  | cons x t ih =>
    have hxa : x ≠ a := by
      intro hxa
      rw [hxa] at h
      exact h (List.mem_cons_self a t)
    rw [List.map_cons, if_neg hxa,
      ih (fun ht => h (List.mem_cons_of_mem x ht))]

theorem replaceInList_split {a b : String} (pre post : List String)
    (h1 : a ∉ pre) (h2 : a ∉ post) :
    replaceInList a b (pre ++ a :: post) = pre ++ b :: post := by
  have hpre := replaceInList_not_mem (b := b) h1
  have hpost := replaceInList_not_mem (b := b) h2
  unfold replaceInList at hpre hpost ⊢
  rw [List.map_append, List.map_cons, if_pos rfl, hpre, hpost]

theorem spliceInList_not_mem {a : String} {repl l : List String} (h : a ∉ l) :
    spliceInList a repl l = l := by
  unfold spliceInList
  induction l with
  | nil => rfl
  | cons x t ih =>
    have hxa : x ≠ a := by
      intro hxa
      rw [hxa] at h
      exact h (List.mem_cons_self a t)
    rw [List.flatMap_cons, if_neg hxa,
      ih (fun ht => h (List.mem_cons_of_mem x ht))]
    rfl

theorem spliceInList_split {a : String} {repl : List String} (pre post : List String)
    (h1 : a ∉ pre) (h2 : a ∉ post) :
    spliceInList a repl (pre ++ a :: post) = pre ++ repl ++ post := by
  have hpre := @spliceInList_not_mem a repl pre h1
  have hpost := @spliceInList_not_mem a repl post h2
  unfold spliceInList at hpre hpost ⊢
  rw [List.flatMap_append, List.flatMap_cons, if_pos rfl, hpre, hpost, List.append_assoc]

theorem getNode_acc_preserved {i : String} (acc : Option ActionNode) :
    ∀ t : List ActionNode, (∀ m ∈ t, m.node_id ≠ i) →
      t.foldl (fun acc n => if n.node_id = i then some n else acc) acc = acc := by
  intro t
  induction t generalizing acc with
  | nil => intro _; rfl
  | cons x rest ih =>
    intro h
    rw [List.foldl_cons, if_neg (h x (by simp))]
    exact ih acc (fun m hm => h m (by simp [hm]))

theorem getNode_eq_some_of_mem {s : List ActionNode} {n : ActionNode}
    (hnd : (s.map (fun x => x.node_id)).Nodup) (hn : n ∈ s) :
    getNode s n.node_id = some n := by
  induction s with
  | nil => cases hn
  | cons x t ih =>
    rw [List.map_cons, List.nodup_cons] at hnd
    rcases List.mem_cons.mp hn with rfl | hmem
    · unfold getNode
      rw [List.foldl_cons, if_pos rfl]
      apply getNode_acc_preserved
      intro m hm hmi
      exact hnd.1 (hmi ▸ List.mem_map_of_mem (fun x => x.node_id) hm)
    · have hne : x.node_id ≠ n.node_id := by
        intro he
        exact hnd.1 (he ▸ List.mem_map_of_mem (fun x => x.node_id) hmem)
      unfold getNode
      rw [List.foldl_cons, if_neg hne]
      exact ih hnd.2 hmem

theorem nodup_id_inj {s : List ActionNode} (hnd : (s.map (fun x => x.node_id)).Nodup)
    {n m : ActionNode} (hn : n ∈ s) (hm : m ∈ s) (h : n.node_id = m.node_id) : n = m :=
  List.inj_on_of_nodup_map hnd hn hm h

/-! ### Consequences of the graph invariants -/

theorem wf_nodupIds {g : SessionActionsGraph} (h : WF g) : NodupIds g := h.1

theorem wf_noEmptyId {g : SessionActionsGraph} (h : WF g) : NoEmptyId g := h.2.1

theorem wf_consistent {g : SessionActionsGraph} (h : WF g) : Consistent g := h.2.2.1

theorem wf_nodupChildren {g : SessionActionsGraph} (h : WF g) : NodupChildren g :=
  h.2.2.2.1

theorem wf_rootsOk {g : SessionActionsGraph} (h : WF g) : RootsOk g := h.2.2.2.2.1

theorem wf_rootsNodup {g : SessionActionsGraph} (h : WF g) : RootsNodup g :=
  h.2.2.2.2.2.1

theorem wf_stepIdsNodup {g : SessionActionsGraph} (h : WF g) : StepIdsNodup g :=
  h.2.2.2.2.2.2.1

theorem wf_acyclic {g : SessionActionsGraph} (h : WF g) : Acyclic g :=
  h.2.2.2.2.2.2.2

theorem parentOf_eq {g : SessionActionsGraph} {n : ActionNode} (hnd : NodupIds g)
    (hn : n ∈ g.nodes) : parentOf g.nodes n.node_id = n.parent_node_id := by
  unfold parentOf
  rw [getNode_eq_some_of_mem hnd hn]
  rfl

theorem chainOk_false_of_self {s : List ActionNode} {a : String}
    (h : parentOf s a = some a) : ∀ fuel, chainOk s fuel (some a) = false := by
  intro fuel
  induction fuel with
  | zero => rfl
  | succ f ih =>
    rw [chainOk, h]
    exact ih

theorem chainOk_false_of_two {s : List ActionNode} {a b : String}
    (hab : parentOf s a = some b) (hba : parentOf s b = some a) :
    ∀ fuel, chainOk s fuel (some a) = false ∧ chainOk s fuel (some b) = false := by
  intro fuel
  induction fuel with
  | zero => exact ⟨rfl, rfl⟩
  | succ f ih =>
    constructor
    · rw [chainOk, hab]
      exact ih.2
    · rw [chainOk, hba]
      exact ih.1

theorem chainOk_false_of_three {s : List ActionNode} {a b c : String}
    (hab : parentOf s a = some b) (hbc : parentOf s b = some c)
    (hca : parentOf s c = some a) :
    ∀ fuel, chainOk s fuel (some a) = false ∧ chainOk s fuel (some b) = false ∧
      chainOk s fuel (some c) = false := by
  intro fuel
  induction fuel with
  | zero => exact ⟨rfl, rfl, rfl⟩
  | succ f ih =>
    refine ⟨?_, ?_, ?_⟩
    · rw [chainOk, hab]
      exact ih.2.1
    · rw [chainOk, hbc]
      exact ih.2.2
    · rw [chainOk, hca]
      exact ih.1

theorem wf_no_self_parent {g : SessionActionsGraph} {n : ActionNode} (hwf : WF g)
    (hn : n ∈ g.nodes) : n.parent_node_id ≠ some n.node_id := by
  intro hp
  have hpo : parentOf g.nodes n.node_id = some n.node_id := by
    rw [parentOf_eq (wf_nodupIds hwf) hn, hp]
  have hch := wf_acyclic hwf n hn
  rw [hp, chainOk_false_of_self hpo _] at hch
  cases hch

theorem wf_no_two_cycle {g : SessionActionsGraph} {n m : ActionNode} (hwf : WF g)
    (hn : n ∈ g.nodes) (hm : m ∈ g.nodes)
    (h1 : n.parent_node_id = some m.node_id)
    (h2 : m.parent_node_id = some n.node_id) : False := by
  have poA : parentOf g.nodes n.node_id = some m.node_id := by
    rw [parentOf_eq (wf_nodupIds hwf) hn, h1]
  have poB : parentOf g.nodes m.node_id = some n.node_id := by
    rw [parentOf_eq (wf_nodupIds hwf) hm, h2]
  have hch := wf_acyclic hwf n hn
  rw [h1, (chainOk_false_of_two poB poA g.nodes.length).1] at hch
  cases hch

theorem wf_no_three_cycle {g : SessionActionsGraph} {a b c : ActionNode} (hwf : WF g)
    (ha : a ∈ g.nodes) (hb : b ∈ g.nodes) (hc : c ∈ g.nodes)
    (h1 : a.parent_node_id = some b.node_id)
    (h2 : b.parent_node_id = some c.node_id)
    (h3 : c.parent_node_id = some a.node_id) : False := by
  have poA : parentOf g.nodes a.node_id = some b.node_id := by
    rw [parentOf_eq (wf_nodupIds hwf) ha, h1]
  have poB : parentOf g.nodes b.node_id = some c.node_id := by
    rw [parentOf_eq (wf_nodupIds hwf) hb, h2]
  have poC : parentOf g.nodes c.node_id = some a.node_id := by
    rw [parentOf_eq (wf_nodupIds hwf) hc, h3]
  have hch := wf_acyclic hwf a ha
  rw [h1, (chainOk_false_of_three poA poB poC g.nodes.length).2.1] at hch
  cases hch

theorem child_spec {g : SessionActionsGraph} {m : ActionNode} {c : String}
    (hcons : Consistent g) (hm : m ∈ g.nodes) (hc : c ∈ m.children_node_ids) :
    ∃ C ∈ g.nodes, C.node_id = c ∧ C.parent_node_id = some m.node_id :=
  hcons.2 m hm c hc

theorem parent_spec {g : SessionActionsGraph} {n : ActionNode} {p : String}
    (hcons : Consistent g) (hn : n ∈ g.nodes) (hp : n.parent_node_id = some p) :
    ∃ P ∈ g.nodes, P.node_id = p ∧ n.node_id ∈ P.children_node_ids :=
  hcons.1 n hn p hp

theorem parent_unique {g : SessionActionsGraph} (hnd : NodupIds g)
    (hcons : Consistent g) {c : String} {m₁ m₂ : ActionNode}
    (h₁ : m₁ ∈ g.nodes) (h₂ : m₂ ∈ g.nodes)
    (hc₁ : c ∈ m₁.children_node_ids) (hc₂ : c ∈ m₂.children_node_ids) : m₁ = m₂ := by
  obtain ⟨C₁, hC₁, hid₁, hp₁⟩ := child_spec hcons h₁ hc₁
  obtain ⟨C₂, hC₂, hid₂, hp₂⟩ := child_spec hcons h₂ hc₂
  have hCeq : C₁ = C₂ := nodup_id_inj hnd hC₁ hC₂ (by rw [hid₁, hid₂])
  subst hCeq
  have : some m₁.node_id = some m₂.node_id := by rw [← hp₁, hp₂]
  exact nodup_id_inj hnd h₁ h₂ (Option.some.inj this)

theorem wf_not_self_child {g : SessionActionsGraph} {n : ActionNode} (hwf : WF g)
    (hn : n ∈ g.nodes) : n.node_id ∉ n.children_node_ids := by
  intro hmem
  obtain ⟨C, hC, hid, hp⟩ := child_spec (wf_consistent hwf) hn hmem
  have hCeq : C = n := nodup_id_inj (wf_nodupIds hwf) hC hn hid
  subst hCeq
  exact wf_no_self_parent hwf hC hp

theorem wf_parent_not_child {g : SessionActionsGraph} {n : ActionNode} {pid : String}
    (hwf : WF g) (hn : n ∈ g.nodes) (hp : n.parent_node_id = some pid) :
    pid ∉ n.children_node_ids := by
  intro hmem
  obtain ⟨C, hC, hid, hcp⟩ := child_spec (wf_consistent hwf) hn hmem
  subst hid
  exact wf_no_two_cycle hwf hn hC hp hcp

theorem wf_parent_nonempty {g : SessionActionsGraph} {n : ActionNode} {pid : String}
    (hwf : WF g) (hn : n ∈ g.nodes) (hp : n.parent_node_id = some pid) : pid ≠ "" := by
  obtain ⟨P, hP, hid, -⟩ := parent_spec (wf_consistent hwf) hn hp
  rw [← hid]
  exact wf_noEmptyId hwf P hP

theorem map_node_id_filter (s : List ActionNode) (i : String) :
    ((s.filter (fun n => n.node_id ≠ i)).map (fun n => n.node_id))
      = (s.map (fun n => n.node_id)).filter (fun x => x ≠ i) := by
  induction s with
  | nil => rfl
  | cons x t ih =>
    rw [List.filter_cons, List.map_cons, List.filter_cons]
    by_cases hx : x.node_id = i
    · rw [if_neg (by simp [hx]), if_neg (by simp [hx])]
      exact ih
    · rw [if_pos (by simp [hx]), if_pos (by simp [hx]), List.map_cons, ih]

theorem nodup_split_not_mem {a : String} {pre post : List String}
    (h : (pre ++ a :: post).Nodup) : a ∉ pre ∧ a ∉ post := by
  rw [List.nodup_append] at h
  obtain ⟨-, hcons, hdisj⟩ := h
  rw [List.nodup_cons] at hcons
  exact ⟨fun hmem => hdisj hmem (by simp), hcons.1⟩

theorem updateFirstStep_split (p : StepDefinition → Bool) (f : StepDefinition → StepDefinition) :
    ∀ steps : List StepDefinition, (∃ s ∈ steps, p s = true) →
      ∃ l1 s' l2, steps = l1 ++ s' :: l2 ∧ p s' = true ∧ (∀ t ∈ l1, p t = false) ∧
        updateFirstStep p f steps = l1 ++ f s' :: l2 := by
  intro steps
  induction steps with
  | nil => rintro ⟨s, hs, -⟩; cases hs
  | cons x t ih =>
    intro hex
    by_cases hx : p x = true
    · exact ⟨[], x, t, rfl, hx, by simp, by rw [updateFirstStep, if_pos hx]; rfl⟩
    · have hex2 : ∃ s ∈ t, p s = true := by
        rcases hex with ⟨s, hs, hps⟩
        rcases List.mem_cons.mp hs with rfl | hst
        · exact absurd hps hx
        · exact ⟨s, hst, hps⟩
      obtain ⟨l1, s', l2, heq, hps', hl1, hupd⟩ := ih hex2
      refine ⟨x :: l1, s', l2, by rw [heq]; rfl, hps', ?_, ?_⟩
      · rintro t2 ht2
        rcases List.mem_cons.mp ht2 with rfl | hmem
        · simpa using hx
        · exact hl1 t2 hmem
      · rw [updateFirstStep, if_neg hx, hupd]
        rfl

theorem updateFirstStep_id (p : StepDefinition → Bool) (f : StepDefinition → StepDefinition) :
    ∀ steps : List StepDefinition, (∀ t ∈ steps, p t = false) →
      updateFirstStep p f steps = steps := by
  intro steps
  induction steps with
  | nil => intro _; rfl
  | cons x t ih =>
    intro h
    rw [updateFirstStep, if_neg (by simp [h x (by simp)]), ih (fun u hu => h u (by simp [hu]))]

theorem updateFirstStep_of_split (p : StepDefinition → Bool) (f : StepDefinition → StepDefinition)
    (s : StepDefinition) (l2 : List StepDefinition) :
    ∀ l1 : List StepDefinition, (∀ t ∈ l1, p t = false) → p s = true →
      updateFirstStep p f (l1 ++ s :: l2) = l1 ++ f s :: l2 := by
  intro l1
  induction l1 with
  | nil =>
    intro _ hs
    rw [List.nil_append, updateFirstStep, if_pos hs, List.nil_append]
  | cons x t ih =>
    intro h hs
    rw [List.cons_append, updateFirstStep, if_neg (by simp [h x (by simp)]),
      ih (fun u hu => h u (by simp [hu])) hs, List.cons_append]

theorem mem_updEach_of_not_mem {s : List ActionNode} {ids : List String}
    {f : ActionNode → ActionNode} (hid : ∀ n, (f n).node_id = n.node_id)
    (hidem : ∀ n, f (f n) = f n) {n : ActionNode} (hn : n ∈ s)
    (h : n.node_id ∉ ids) : n ∈ updEach s ids f := by
  rw [updEach_eq_map hid hidem]
  have h2 := List.mem_map_of_mem (fun m => if m.node_id ∈ ids then f m else m) hn
  simp only [] at h2
  rwa [if_neg h] at h2

theorem mem_updEach_target {s : List ActionNode} {ids : List String}
    {f : ActionNode → ActionNode} (hid : ∀ n, (f n).node_id = n.node_id)
    (hidem : ∀ n, f (f n) = f n) {n : ActionNode} (hn : n ∈ s)
    (h : n.node_id ∈ ids) : f n ∈ updEach s ids f := by
  rw [updEach_eq_map hid hidem]
  have h2 := List.mem_map_of_mem (fun m => if m.node_id ∈ ids then f m else m) hn
  simp only [] at h2
  rwa [if_pos h] at h2

theorem graph_fields_ext (a b : SessionActionsGraph)
    (h1 : a.session_name = b.session_name) (h2 : a.steps = b.steps)
    (h3 : a.nodes = b.nodes) : a = b := by
  cases a
  cases b
  simp only [] at h1 h2 h3
  rw [h1, h2, h3]

theorem map_self_of_mem {α : Type} {l : List α} {f : α → α}
    (h : ∀ a ∈ l, f a = a) : l.map f = l := by
  rw [List.map_congr_left h]
  exact List.map_id' l

theorem consistent_iff_nodes (g : SessionActionsGraph) :
    Consistent g ↔ ConsistentN g.nodes := Iff.rfl

theorem consistentN_append {s t : List ActionNode}
    (hs : ConsistentN s) (ht : ConsistentN t) : ConsistentN (s ++ t) := by
  constructor
  · intro n hn p hp
    rcases List.mem_append.mp hn with h | h
    · obtain ⟨m, hm, h1, h2⟩ := hs.1 n h p hp
      exact ⟨m, List.mem_append_left _ hm, h1, h2⟩
    · obtain ⟨m, hm, h1, h2⟩ := ht.1 n h p hp
      exact ⟨m, List.mem_append_right _ hm, h1, h2⟩
  · intro m hm c hc
    rcases List.mem_append.mp hm with h | h
    · obtain ⟨n, hn, h1, h2⟩ := hs.2 m h c hc
      exact ⟨n, List.mem_append_left _ hn, h1, h2⟩
    · obtain ⟨n, hn, h1, h2⟩ := ht.2 m h c hc
      exact ⟨n, List.mem_append_right _ hn, h1, h2⟩

theorem mem_replaceInList_of_mem {a b : String} {l : List String} (h : a ∈ l) :
    b ∈ replaceInList a b l := by
  unfold replaceInList
  have h2 := List.mem_map_of_mem (fun x => if x = a then b else x) h
  simpa using h2

theorem mem_replaceInList_of_ne {a b c : String} {l : List String} (h : c ∈ l)
    (hne : c ≠ a) : c ∈ replaceInList a b l := by
  unfold replaceInList
  have h2 := List.mem_map_of_mem (fun x => if x = a then b else x) h
  simp only [] at h2
  rwa [if_neg hne] at h2

theorem mem_replaceInList_elim {a b c : String} {l : List String}
    (h : c ∈ replaceInList a b l) : c = b ∨ (c ∈ l ∧ c ≠ a) := by
  unfold replaceInList at h
  obtain ⟨x, hx, hxe⟩ := List.mem_map.mp h
  by_cases hxa : x = a
  · rw [if_pos hxa] at hxe
    exact Or.inl hxe.symm
  · rw [if_neg hxa] at hxe
    exact Or.inr ⟨hxe ▸ hx, hxe ▸ hxa⟩

theorem not_mem_replaceInList_self {a b : String} {l : List String} (hne : a ≠ b) :
    a ∉ replaceInList a b l := by
  intro h
  rcases mem_replaceInList_elim h with h2 | h2
  · exact hne h2
  · exact h2.2 rfl

theorem mem_spliceInList_of_repl {a c : String} {repl l : List String}
    (ha : a ∈ l) (hc : c ∈ repl) : c ∈ spliceInList a repl l := by
  unfold spliceInList
  rw [List.mem_flatMap]
  exact ⟨a, ha, by rw [if_pos rfl]; exact hc⟩

theorem mem_spliceInList_of_ne {a c : String} {repl l : List String}
    (h : c ∈ l) (hne : c ≠ a) : c ∈ spliceInList a repl l := by
  unfold spliceInList
  rw [List.mem_flatMap]
  exact ⟨c, h, by rw [if_neg hne]; exact List.mem_singleton.mpr rfl⟩

theorem mem_spliceInList_elim {a c : String} {repl l : List String}
    (h : c ∈ spliceInList a repl l) : c ∈ repl ∨ (c ∈ l ∧ c ≠ a) := by
  unfold spliceInList at h
  obtain ⟨x, hx, hxe⟩ := (List.mem_flatMap).mp h
  by_cases hxa : x = a
  · rw [if_pos hxa] at hxe
    exact Or.inl hxe
  · rw [if_neg hxa] at hxe
    have hcx : c = x := List.mem_singleton.mp hxe
    exact Or.inr ⟨hcx ▸ hx, hcx ▸ hxa⟩

theorem clipMap_acc (c : String) :
    ∀ (l : List (ActionNode × String)) (acc : Option String),
      (∀ q ∈ l, q.1.node_id ≠ c) →
      l.foldl (fun acc p => if p.1.node_id = c then some p.2 else acc) acc = acc := by
  intro l
  induction l with
  | nil => intro acc _; rfl
  | cons q rest ih =>
    intro acc h
    rw [List.foldl_cons, if_neg (h q (by simp))]
    exact ih acc (fun r hr => h r (by simp [hr]))

theorem clipMap_eq_some {l : List (ActionNode × String)}
    (hnd : (l.map (fun p => p.1.node_id)).Nodup) {p : ActionNode × String}
    (hp : p ∈ l) : clipMap l p.1.node_id = some p.2 := by
  induction l with
  | nil => cases hp
  | cons q rest ih =>
    rw [List.map_cons, List.nodup_cons] at hnd
    rcases List.mem_cons.mp hp with rfl | hmem
    · unfold clipMap
      rw [List.foldl_cons, if_pos rfl]
      apply clipMap_acc
      intro r hr hre
      exact hnd.1 (hre ▸ List.mem_map_of_mem (fun p => p.1.node_id) hr)
    · have hne : q.1.node_id ≠ p.1.node_id :=
        fun he => hnd.1 (he ▸ List.mem_map_of_mem (fun p => p.1.node_id) hmem)
      unfold clipMap
      rw [List.foldl_cons, if_neg hne]
      exact ih hnd.2 hmem

theorem clipMap_mem {l : List (ActionNode × String)} {c f : String}
    (h : clipMap l c = some f) : ∃ p ∈ l, p.1.node_id = c ∧ p.2 = f := by
  unfold clipMap at h
  suffices H : ∀ (l2 : List (ActionNode × String)) (acc : Option String),
      l2.foldl (fun acc p => if p.1.node_id = c then some p.2 else acc) acc = some f →
      (∃ p ∈ l2, p.1.node_id = c ∧ p.2 = f) ∨ acc = some f by
    rcases H l none h with h1 | h2
    · exact h1
    · cases h2
  intro l2
  induction l2 with
  | nil => intro acc h2; exact Or.inr h2
  | cons q rest ih =>
    intro acc h2
    rw [List.foldl_cons] at h2
    by_cases hq : q.1.node_id = c
    · rw [if_pos hq] at h2
      rcases ih _ h2 with h3 | h3
      · obtain ⟨p, hp, h4, h5⟩ := h3
        exact Or.inl ⟨p, List.mem_cons_of_mem _ hp, h4, h5⟩
      · exact Or.inl ⟨q, List.mem_cons_self _ _, hq, Option.some.inj h3⟩
    · rw [if_neg hq] at h2
      rcases ih _ h2 with h3 | h3
      · obtain ⟨p, hp, h4, h5⟩ := h3
        exact Or.inl ⟨p, List.mem_cons_of_mem _ hp, h4, h5⟩
      · exact Or.inr h3

theorem zip_fst_ids_nodup :
    ∀ {clip : List ActionNode} {freshs : List String},
      (clip.map (fun n => n.node_id)).Nodup →
      ((clip.zip freshs).map (fun p => p.1.node_id)).Nodup := by
  intro clip
  induction clip with
  | nil => intro freshs _; simp
  | cons x rest ih =>
    intro freshs hnd
    cases freshs with
    | nil => simp
    | cons f frest =>
      rw [List.map_cons, List.nodup_cons] at hnd
      rw [List.zip_cons_cons, List.map_cons, List.nodup_cons]
      refine ⟨?_, ih hnd.2⟩
      intro hmem
      obtain ⟨p, hp, hpe⟩ := List.mem_map.mp hmem
      have hp1 := (List.of_mem_zip hp).1
      exact hnd.1 (hpe ▸ List.mem_map_of_mem (fun n => n.node_id) hp1)

theorem bfsCollect_spec (nodes : List ActionNode) :
    ∀ (fuel : Nat) (queue processed out : List String),
      bfsCollect nodes fuel queue processed = some out →
      (∀ q ∈ queue, q ∈ out) ∧ (∀ p ∈ processed, p ∈ out) ∧
      (∀ x ∈ out, x ∈ processed ∨
        ((∀ n, getNode nodes x = some n → ∀ c ∈ n.children_node_ids, c ∈ out) ∧
         (x ∈ queue ∨ ∃ d nd, d ∈ out ∧ getNode nodes d = some nd ∧
            x ∈ nd.children_node_ids))) := by
  intro fuel
  induction fuel with
  | zero =>
    intro queue processed out h
    cases queue with
    | nil =>
      have hout : processed = out := Option.some.inj h
      subst hout
      exact ⟨fun q hq => absurd hq (List.not_mem_nil q), fun p hp => hp,
        fun x hx => Or.inl hx⟩
    | cons a rest => cases h
  | succ fuel ih =>
    intro queue processed out h
    cases queue with
    | nil =>
      have hout : processed = out := Option.some.inj h
      subst hout
      exact ⟨fun q hq => absurd hq (List.not_mem_nil q), fun p hp => hp,
        fun x hx => Or.inl hx⟩
    | cons nid rest =>
      rw [bfsCollect] at h
      by_cases hmem : nid ∈ processed
      · rw [if_pos hmem] at h
        obtain ⟨hq, hpr, hcl⟩ := ih rest processed out h
        refine ⟨?_, hpr, ?_⟩
        · intro q hq2
          rcases List.mem_cons.mp hq2 with rfl | hq3
          · exact hpr q hmem
          · exact hq q hq3
        · intro x hx
          rcases hcl x hx with h1 | ⟨h1, h2⟩
          · exact Or.inl h1
          · refine Or.inr ⟨h1, ?_⟩
            rcases h2 with h3 | h3
            · exact Or.inl (List.mem_cons_of_mem _ h3)
            · exact Or.inr h3
      · rw [if_neg hmem] at h
        cases hget : getNode nodes nid with
        | some n =>
          rw [hget] at h
          obtain ⟨hq, hpr, hcl⟩ := ih (rest ++ n.children_node_ids) (nid :: processed) out h
          have hnidout : nid ∈ out := hpr nid (List.mem_cons_self _ _)
          refine ⟨?_, fun p hp => hpr p (List.mem_cons_of_mem _ hp), ?_⟩
          · intro q hq2
            rcases List.mem_cons.mp hq2 with rfl | hq3
            · exact hnidout
            · exact hq q (List.mem_append_left _ hq3)
          · intro x hx
            rcases hcl x hx with h1 | ⟨h1, h2⟩
            · rcases List.mem_cons.mp h1 with rfl | h3
              · refine Or.inr ⟨?_, Or.inl (List.mem_cons_self _ _)⟩
                intro n2 hn2 c hc
                have hn2n : n2 = n := by
                  rw [hget] at hn2
                  exact (Option.some.inj hn2).symm
                subst hn2n
                exact hq c (List.mem_append_right _ hc)
              · exact Or.inl h3
            · refine Or.inr ⟨h1, ?_⟩
              rcases h2 with h3 | h3
              · rcases List.mem_append.mp h3 with h4 | h4
                · exact Or.inl (List.mem_cons_of_mem _ h4)
                · exact Or.inr ⟨nid, n, hnidout, hget, h4⟩
              · exact Or.inr h3
        | none =>
          rw [hget] at h
          obtain ⟨hq, hpr, hcl⟩ := ih rest (nid :: processed) out h
          have hnidout : nid ∈ out := hpr nid (List.mem_cons_self _ _)
          refine ⟨?_, fun p hp => hpr p (List.mem_cons_of_mem _ hp), ?_⟩
          · intro q hq2
            rcases List.mem_cons.mp hq2 with rfl | hq3
            · exact hnidout
            · exact hq q hq3
          · intro x hx
            rcases hcl x hx with h1 | ⟨h1, h2⟩
            · rcases List.mem_cons.mp h1 with rfl | h3
              · refine Or.inr ⟨?_, Or.inl (List.mem_cons_self _ _)⟩
                intro n2 hn2 c hc
                rw [hget] at hn2
                cases hn2
              · exact Or.inl h3
            · refine Or.inr ⟨h1, ?_⟩
              rcases h2 with h3 | h3
              · exact Or.inl (List.mem_cons_of_mem _ h3)
              · exact Or.inr h3

theorem consistentN_attach {s t : List ActionNode} {pid h : String}
    (hs : ConsistentN s)
    (hPex : ∃ m ∈ s, m.node_id = pid)
    (hx : ∃ x ∈ t, x.node_id = h ∧ x.parent_node_id = some pid)
    (htP : ∀ n ∈ t, ∀ p, n.parent_node_id = some p →
      (p = pid ∧ n.node_id = h) ∨ ∃ m ∈ t, m.node_id = p ∧ n.node_id ∈ m.children_node_ids)
    (htC : ∀ m ∈ t, ∀ c ∈ m.children_node_ids,
      ∃ n ∈ t, n.node_id = c ∧ n.parent_node_id = some m.node_id)
    (hpidt : ∀ n ∈ t, n.node_id ≠ pid) :
    ConsistentN (upd (s ++ t) pid
      (fun n => { n with children_node_ids := n.children_node_ids ++ [h] })) := by
  have hFid : ∀ y : ActionNode,
      ((if y.node_id = pid then { y with children_node_ids := y.children_node_ids ++ [h] } else y) : ActionNode).node_id = y.node_id := by
    intro y
    by_cases hy : y.node_id = pid
    · rw [if_pos hy]
    · rw [if_neg hy]
  have hFpar : ∀ y : ActionNode,
      ((if y.node_id = pid then { y with children_node_ids := y.children_node_ids ++ [h] } else y) : ActionNode).parent_node_id = y.parent_node_id := by
    intro y
    by_cases hy : y.node_id = pid
    · rw [if_pos hy]
    · rw [if_neg hy]
  have hFt : ∀ y ∈ t,
      ((if y.node_id = pid then { y with children_node_ids := y.children_node_ids ++ [h] } else y) : ActionNode) = y :=
    fun y hy => if_neg (hpidt y hy)
  unfold upd
  constructor
  · intro n2 hn2 p hp
    obtain ⟨y, hy, hFy⟩ := List.mem_map.mp hn2
    have hypar : y.parent_node_id = some p := by
      rw [← hFpar y, hFy, hp]
    rcases List.mem_append.mp hy with hys | hyt
    · obtain ⟨m, hm, hmid, hmch⟩ := hs.1 y hys p hypar
      refine ⟨(if m.node_id = pid then { m with children_node_ids := m.children_node_ids ++ [h] } else m),
        List.mem_map_of_mem _ (List.mem_append_left _ hm), ?_, ?_⟩
      · rw [hFid m, hmid]
      · rw [← hFy, hFid y]
        by_cases hm2 : m.node_id = pid
        · rw [if_pos hm2]
          exact List.mem_append_left _ hmch
        · rw [if_neg hm2]
          exact hmch
    · rcases htP y hyt p hypar with ⟨hppid, hyh⟩ | ⟨m, hm, hmid, hmch⟩
      · obtain ⟨P0, hP0, hP0id⟩ := hPex
        refine ⟨(if P0.node_id = pid then { P0 with children_node_ids := P0.children_node_ids ++ [h] } else P0),
          List.mem_map_of_mem _ (List.mem_append_left _ hP0), ?_, ?_⟩
        · rw [hFid P0, hP0id, hppid]
        · rw [if_pos hP0id, ← hFy, hFid y, hyh]
          exact List.mem_append_right _ (List.mem_singleton.mpr rfl)
      · refine ⟨m, ?_, hmid, ?_⟩
        · have := List.mem_map_of_mem
            (fun n => if n.node_id = pid then { n with children_node_ids := n.children_node_ids ++ [h] } else n)
            (List.mem_append_right s hm)
          simp only [] at this
          rwa [hFt m hm] at this
        · rw [← hFy, hFid y]
          exact hmch
  · intro m2 hm2 c hc
    obtain ⟨y, hy, hFy⟩ := List.mem_map.mp hm2
    have hm2id : m2.node_id = y.node_id := by rw [← hFy, hFid y]
    rcases List.mem_append.mp hy with hys | hyt
    · by_cases hyp : y.node_id = pid
      · rw [← hFy, if_pos hyp] at hc
        rcases List.mem_append.mp hc with hcy | hch
        · obtain ⟨n, hn, hnid, hnpar⟩ := hs.2 y hys c hcy
          refine ⟨(if n.node_id = pid then { n with children_node_ids := n.children_node_ids ++ [h] } else n),
            List.mem_map_of_mem _ (List.mem_append_left _ hn), ?_, ?_⟩
          · rw [hFid n, hnid]
          · rw [hFpar n, hnpar, hm2id]
        · have hch2 : c = h := List.mem_singleton.mp hch
          obtain ⟨x, hxt, hxid, hxpar⟩ := hx
          refine ⟨x, ?_, by rw [hxid, hch2], ?_⟩
          · have := List.mem_map_of_mem
              (fun n => if n.node_id = pid then { n with children_node_ids := n.children_node_ids ++ [h] } else n)
              (List.mem_append_right s hxt)
            simp only [] at this
            rwa [hFt x hxt] at this
          · rw [hxpar, hm2id, hyp]
      · rw [← hFy, if_neg hyp] at hc
        obtain ⟨n, hn, hnid, hnpar⟩ := hs.2 y hys c hc
        refine ⟨(if n.node_id = pid then { n with children_node_ids := n.children_node_ids ++ [h] } else n),
          List.mem_map_of_mem _ (List.mem_append_left _ hn), ?_, ?_⟩
        · rw [hFid n, hnid]
        · rw [hFpar n, hnpar, hm2id]
    · rw [← hFy, hFt y hyt] at hc
      obtain ⟨n, hn, hnid, hnpar⟩ := htC y hyt c hc
      refine ⟨n, ?_, hnid, ?_⟩
      · have := List.mem_map_of_mem
          (fun n => if n.node_id = pid then { n with children_node_ids := n.children_node_ids ++ [h] } else n)
          (List.mem_append_right s hn)
        simp only [] at this
        rwa [hFt n hn] at this
      · rw [hnpar, hm2id]

theorem mem_zip_fst {α β : Type} {l1 : List α} {l2 : List β} {p : α × β}
    (h : p ∈ l1.zip l2) : p.1 ∈ l1 ∧ p.2 ∈ l2 := by
  obtain ⟨a, b⟩ := p
  exact List.of_mem_zip h

theorem clip_id_inj {clip : List ActionNode}
    (hnd : (clip.map (fun n => n.node_id)).Nodup) {n m : ActionNode}
    (hn : n ∈ clip) (hm : m ∈ clip) (h : n.node_id = m.node_id) : n = m :=
  List.inj_on_of_nodup_map hnd hn hm h

theorem parent_build_parents {clip : List ActionNode} {freshs : List String}
    (hnd : (clip.map (fun n => n.node_id)).Nodup) (hP : ClipParents clip) :
    ∀ p2 ∈ clip.zip freshs, ∀ q,
      p2.1.parent_node_id.bind (clipMap (clip.zip freshs)) = some q →
      ∃ cm fm, (cm, fm) ∈ clip.zip freshs ∧ fm = q ∧
        p2.2 ∈ cm.children_node_ids.filterMap (clipMap (clip.zip freshs)) := by
  intro p2 hp2 q hq
  have hndP : ((clip.zip freshs).map (fun p => p.1.node_id)).Nodup :=
    zip_fst_ids_nodup hnd
  cases hpp : p2.1.parent_node_id with
  | none => rw [hpp] at hq; cases hq
  | some op =>
    rw [hpp] at hq
    have hq2 : clipMap (clip.zip freshs) op = some q := hq
    obtain ⟨pr, hpr, hprid, hprf⟩ := clipMap_mem hq2
    have hpr1 : pr.1 ∈ clip := (mem_zip_fst hpr).1
    have hp21 : p2.1 ∈ clip := (mem_zip_fst hp2).1
    obtain ⟨m, hm, hmid, hmch⟩ := hP p2.1 hp21 op hpp
      (by rw [← hprid]; exact List.mem_map_of_mem (fun n => n.node_id) hpr1)
    have hmpr : m = pr.1 := clip_id_inj hnd hm hpr1 (by rw [hmid, hprid])
    rw [hmpr] at hmch
    refine ⟨pr.1, pr.2, by rwa [Prod.mk.eta], hprf, ?_⟩
    rw [List.mem_filterMap]
    exact ⟨p2.1.node_id, hmch, clipMap_eq_some hndP hp2⟩

theorem parent_build_children {clip : List ActionNode} {freshs : List String}
    (hnd : (clip.map (fun n => n.node_id)).Nodup) (hC : ClipChildren clip) :
    ∀ pr ∈ clip.zip freshs,
      ∀ c2 ∈ pr.1.children_node_ids.filterMap (clipMap (clip.zip freshs)),
      ∃ p2 ∈ clip.zip freshs, p2.2 = c2 ∧
        p2.1.parent_node_id.bind (clipMap (clip.zip freshs)) = some pr.2 := by
  intro pr hpr c2 hc2
  have hndP : ((clip.zip freshs).map (fun p => p.1.node_id)).Nodup :=
    zip_fst_ids_nodup hnd
  rw [List.mem_filterMap] at hc2
  obtain ⟨c, hcmem, hcmap⟩ := hc2
  obtain ⟨pw, hpw, hpwid, hpwf⟩ := clipMap_mem hcmap
  have hpw1 : pw.1 ∈ clip := (mem_zip_fst hpw).1
  have hpr1 : pr.1 ∈ clip := (mem_zip_fst hpr).1
  obtain ⟨n, hn, hnid, hnpar⟩ := hC pr.1 hpr1 c hcmem
    (by rw [← hpwid]; exact List.mem_map_of_mem (fun n => n.node_id) hpw1)
  have hnpw : n = pw.1 := clip_id_inj hnd hn hpw1 (by rw [hnid, hpwid])
  rw [hnpw] at hnpar
  refine ⟨pw, hpw, by rw [hpwf], ?_⟩
  rw [hnpar]
  show clipMap (clip.zip freshs) pr.1.node_id = some pr.2
  exact clipMap_eq_some hndP hpr

theorem step_build_parents {clip : List ActionNode} {freshs : List String}
    (hnd : (clip.map (fun n => n.node_id)).Nodup) (hP : ClipParents clip) :
    ∀ p2 ∈ clip.zip freshs, ∀ q,
      (match p2.1.parent_node_id with
        | some pp => if pp ≠ "" then clipMap (clip.zip freshs) pp else none
        | none => none) = some q →
      ∃ cm fm, (cm, fm) ∈ clip.zip freshs ∧ fm = q ∧
        p2.2 ∈ cm.children_node_ids.filterMap (clipMap (clip.zip freshs)) := by
  intro p2 hp2 q hq
  have hndP : ((clip.zip freshs).map (fun p => p.1.node_id)).Nodup :=
    zip_fst_ids_nodup hnd
  cases hpp : p2.1.parent_node_id with
  | none =>
    rw [hpp] at hq
    exact Option.noConfusion hq
  | some op =>
    rw [hpp] at hq
    have hq1 : (if op ≠ "" then clipMap (clip.zip freshs) op else none) = some q := hq
    by_cases hop : op = ""
    · rw [if_neg (fun hne => hne hop)] at hq1
      exact Option.noConfusion hq1
    · rw [if_pos hop] at hq1
      obtain ⟨pr, hpr, hprid, hprf⟩ := clipMap_mem hq1
      have hpr1 : pr.1 ∈ clip := (mem_zip_fst hpr).1
      have hp21 : p2.1 ∈ clip := (mem_zip_fst hp2).1
      obtain ⟨m, hm, hmid, hmch⟩ := hP p2.1 hp21 op hpp
        (by rw [← hprid]; exact List.mem_map_of_mem (fun n => n.node_id) hpr1)
      have hmpr : m = pr.1 := clip_id_inj hnd hm hpr1 (by rw [hmid, hprid])
      rw [hmpr] at hmch
      refine ⟨pr.1, pr.2, by rwa [Prod.mk.eta], hprf, ?_⟩
      rw [List.mem_filterMap]
      exact ⟨p2.1.node_id, hmch, clipMap_eq_some hndP hp2⟩

theorem step_build_children {clip : List ActionNode} {freshs : List String}
    (hnd : (clip.map (fun n => n.node_id)).Nodup)
    (hne : ∀ n ∈ clip, n.node_id ≠ "") (hC : ClipChildren clip) :
    ∀ pr ∈ clip.zip freshs,
      ∀ c2 ∈ pr.1.children_node_ids.filterMap (clipMap (clip.zip freshs)),
      ∃ p2 ∈ clip.zip freshs, p2.2 = c2 ∧
        (match p2.1.parent_node_id with
          | some pp => if pp ≠ "" then clipMap (clip.zip freshs) pp else none
          | none => none) = some pr.2 := by
  intro pr hpr c2 hc2
  have hndP : ((clip.zip freshs).map (fun p => p.1.node_id)).Nodup :=
    zip_fst_ids_nodup hnd
  rw [List.mem_filterMap] at hc2
  obtain ⟨c, hcmem, hcmap⟩ := hc2
  obtain ⟨pw, hpw, hpwid, hpwf⟩ := clipMap_mem hcmap
  have hpw1 : pw.1 ∈ clip := (mem_zip_fst hpw).1
  have hpr1 : pr.1 ∈ clip := (mem_zip_fst hpr).1
  obtain ⟨n, hn, hnid, hnpar⟩ := hC pr.1 hpr1 c hcmem
    (by rw [← hpwid]; exact List.mem_map_of_mem (fun n => n.node_id) hpw1)
  have hnpw : n = pw.1 := clip_id_inj hnd hn hpw1 (by rw [hnid, hpwid])
  rw [hnpw] at hnpar
  refine ⟨pw, hpw, by rw [hpwf], ?_⟩
  rw [hnpar]
  show (if pr.1.node_id ≠ "" then clipMap (clip.zip freshs) pr.1.node_id else none) = some pr.2
  rw [if_pos (hne pr.1 hpr1)]
  exact clipMap_eq_some hndP hpr

theorem mapIdx_indep {α β : Type} {f : Nat → α → β} {g2 : α → β}
    (h : ∀ i a, f i a = g2 a) : ∀ l : List α, l.mapIdx f = l.map g2 := by
  intro l
  induction l generalizing f with
  | nil => simp
  | cons a t ih =>
    rw [List.mapIdx_cons, List.map_cons, h 0 a, ih (fun i a => h (i + 1) a)]

theorem pasteBranchBuild_cons (c0 : ActionNode) (crest : List ActionNode)
    (f0 : String) (frest : List String) (rp : Option String) :
    pasteBranchBuild ((c0 :: crest).zip (f0 :: frest)) rp
      = { node_id := f0, action_label_to_execute := c0.action_label_to_execute,
          parent_node_id := rp,
          children_node_ids := c0.children_node_ids.filterMap (clipMap ((c0 :: crest).zip (f0 :: frest))),
          instance_label := c0.instance_label,
          custom_field_values := c0.custom_field_values }
        :: (crest.zip frest).map (fun p =>
          { node_id := p.2, action_label_to_execute := p.1.action_label_to_execute,
            parent_node_id := p.1.parent_node_id.bind (clipMap ((c0 :: crest).zip (f0 :: frest))),
            children_node_ids := p.1.children_node_ids.filterMap (clipMap ((c0 :: crest).zip (f0 :: frest))),
            instance_label := p.1.instance_label,
            custom_field_values := p.1.custom_field_values }) := by
  unfold pasteBranchBuild
  rw [show (c0 :: crest).zip (f0 :: frest) = (c0, f0) :: crest.zip frest from List.zip_cons_cons]
  rw [List.mapIdx_cons]
  congr 1
  exact mapIdx_indep (fun i a => by simp) _

theorem roots_nodup_of_mem {g : SessionActionsGraph} (h : RootsNodup g)
    {s : StepDefinition} (hs : s ∈ g.steps) : s.root_node_ids.Nodup := by
  obtain ⟨u, v, huv⟩ := List.append_of_mem hs
  unfold RootsNodup at h
  rw [huv, List.flatMap_append, List.flatMap_cons] at h
  exact ((h.of_append_right).of_append_left)

/-! ### Consistency preservation, operation by operation -/

theorem consistentN_single_root (x : ActionNode) (hxpar : x.parent_node_id = none)
    (hxch : x.children_node_ids = []) : ConsistentN [x] := by
  constructor
  · intro n hn p hp
    have hnx : n = x := List.mem_singleton.mp hn
    subst hnx
    rw [hxpar] at hp
    cases hp
  · intro m hm c hc
    have hmx : m = x := List.mem_singleton.mp hm
    subst hmx
    rw [hxch] at hc
    cases hc

theorem consistent_attach_leaf (g : SessionActionsGraph) (hwf : WF g)
    (pid fresh : String) (x : ActionNode)
    (hxidf : x.node_id = fresh) (hxpar : x.parent_node_id = some pid)
    (hfr : fresh ∉ g.nodes.map (fun n => n.node_id))
    (hxch : x.children_node_ids = [])
    (hPex : ∃ P ∈ g.nodes, P.node_id = pid) :
    ConsistentN (upd (g.nodes ++ [x]) pid
      (fun n => { n with children_node_ids := n.children_node_ids ++ [fresh] })) := by
  have hpidfr : fresh ≠ pid := by
    intro he
    obtain ⟨P, hP, hPid⟩ := hPex
    exact hfr (by rw [he, ← hPid]; exact List.mem_map_of_mem (fun n => n.node_id) hP)
  apply consistentN_attach ((consistent_iff_nodes g).mp (wf_consistent hwf)) hPex
  · exact ⟨x, List.mem_singleton.mpr rfl, hxidf, hxpar⟩
  · intro n hn p hp
    have hnx : n = x := List.mem_singleton.mp hn
    subst hnx
    rw [hxpar] at hp
    exact Or.inl ⟨(Option.some.inj hp).symm, hxidf⟩
  · intro m hm c hc
    have hmx : m = x := List.mem_singleton.mp hm
    subst hmx
    rw [hxch] at hc
    cases hc
  · intro n hn
    have hnx : n = x := List.mem_singleton.mp hn
    subst hnx
    rw [hxidf]
    exact hpidfr


theorem reparentF_node_id (tid fresh pid : String) (n : ActionNode) :
    (reparentF tid fresh pid n).node_id = n.node_id := by
  unfold reparentF
  split
  · rfl
  · split
    · rfl
    · split
      · rfl
      · rfl

theorem reparentF_par {tid fresh pid : String} {n : ActionNode} (h : n.node_id ≠ tid) :
    (reparentF tid fresh pid n).parent_node_id = n.parent_node_id := by
  unfold reparentF
  rw [if_neg h]
  split
  · rfl
  · split
    · rfl
    · rfl

theorem reparentF_ch {tid fresh pid : String} {n : ActionNode}
    (h2 : n.node_id ≠ fresh) (h3 : n.node_id ≠ pid) :
    (reparentF tid fresh pid n).children_node_ids = n.children_node_ids := by
  unfold reparentF
  by_cases h1 : n.node_id = tid
  · rw [if_pos h1]
  · rw [if_neg h1, if_neg h2, if_neg h3]

theorem reparentF_at_tid {tid fresh pid : String} {n : ActionNode} (h : n.node_id = tid) :
    reparentF tid fresh pid n = { n with parent_node_id := some fresh } := by
  unfold reparentF
  rw [if_pos h]

theorem reparentF_at_fresh {tid fresh pid : String} {n : ActionNode}
    (h1 : n.node_id ≠ tid) (h : n.node_id = fresh) :
    reparentF tid fresh pid n = { n with children_node_ids := [tid] } := by
  unfold reparentF
  rw [if_neg h1, if_pos h]

theorem reparentF_at_pid {tid fresh pid : String} {n : ActionNode}
    (h1 : n.node_id ≠ tid) (h2 : n.node_id ≠ fresh) (h : n.node_id = pid) :
    reparentF tid fresh pid n
      = { n with children_node_ids := replaceInList tid fresh n.children_node_ids } := by
  unfold reparentF
  rw [if_neg h1, if_neg h2, if_pos h]

theorem reparentF_other {tid fresh pid : String} {n : ActionNode}
    (h1 : n.node_id ≠ tid) (h2 : n.node_id ≠ fresh) (h3 : n.node_id ≠ pid) :
    reparentF tid fresh pid n = n := by
  unfold reparentF
  rw [if_neg h1, if_neg h2, if_neg h3]

theorem reparent_pipeline (s : List ActionNode) (tid fresh pid : String)
    (htp : tid ≠ pid) (hft : fresh ≠ tid) (hfp : fresh ≠ pid) :
    upd (upd (upd s pid (fun n => { n with children_node_ids := replaceInList tid fresh n.children_node_ids })) tid (fun n => { n with parent_node_id := some fresh })) fresh (fun n => { n with children_node_ids := [tid] })
      = s.map (reparentF tid fresh pid) := by
  unfold upd
  simp only [List.map_map]
  apply List.map_congr_left
  intro n _
  simp only [Function.comp_apply]
  by_cases h1 : n.node_id = pid
  · have hc2 : ¬(n.node_id = tid) := by rw [h1]; exact Ne.symm htp
    have hc3 : ¬(n.node_id = fresh) := by rw [h1]; exact Ne.symm hfp
    rw [if_pos h1]
    simp only []
    rw [if_neg hc2, if_neg hc3, reparentF_at_pid hc2 hc3 h1]
  · by_cases h2 : n.node_id = tid
    · have hc3 : ¬(n.node_id = fresh) := by rw [h2]; exact Ne.symm hft
      rw [if_neg h1, if_pos h2]
      simp only []
      rw [if_neg hc3, reparentF_at_tid h2]
    · by_cases h3 : n.node_id = fresh
      · rw [if_neg h1, if_neg h2, if_pos h3, reparentF_at_fresh h2 h3]
      · rw [if_neg h1, if_neg h2, if_neg h3, reparentF_other h2 h3 h1]

theorem reparent_pipeline_root (s : List ActionNode) (tid fresh : String)
    (hft : fresh ≠ tid) :
    upd (upd s tid (fun n => { n with parent_node_id := some fresh })) fresh (fun n => { n with children_node_ids := [tid] })
      = s.map (reparentF tid fresh tid) := by
  unfold upd
  simp only [List.map_map]
  apply List.map_congr_left
  intro n _
  simp only [Function.comp_apply]
  by_cases h2 : n.node_id = tid
  · have hc3 : ¬(n.node_id = fresh) := by rw [h2]; exact Ne.symm hft
    rw [if_pos h2]
    simp only []
    rw [if_neg hc3, reparentF_at_tid h2]
  · by_cases h3 : n.node_id = fresh
    · rw [if_neg h2, if_pos h3, reparentF_at_fresh h2 h3]
    · rw [if_neg h2, if_neg h3, reparentF_other h2 h3 h2]

theorem consistentN_reparent_parent (g : SessionActionsGraph) (hwf : WF g)
    (tid fresh pid : String) (T x : ActionNode)
    (hT : getNode g.nodes tid = some T)
    (hxid : x.node_id = fresh) (hxpar : x.parent_node_id = some pid)
    (hfr : fresh ∉ g.nodes.map (fun n => n.node_id))
    (hpT : T.parent_node_id = some pid) :
    ConsistentN ((g.nodes ++ [x]).map (reparentF tid fresh pid)) := by
  obtain ⟨hTmem, hTid⟩ := getNode_isSome_mem hT
  have hndg : NodupIds g := wf_nodupIds hwf
  have hcons : Consistent g := wf_consistent hwf
  have htidpid : tid ≠ pid := by
    intro he
    exact wf_no_self_parent hwf hTmem (by rw [hpT, ← he, hTid])
  obtain ⟨P, hPmem, hPid, hPch⟩ := parent_spec hcons hTmem hpT
  have htidP : tid ∈ P.children_node_ids := by rw [← hTid]; exact hPch
  have hfr_tid : fresh ≠ tid := by
    intro he
    exact hfr (by rw [he, ← hTid]; exact List.mem_map_of_mem (fun n => n.node_id) hTmem)
  have hfr_pid : fresh ≠ pid := by
    intro he
    exact hfr (by rw [he, ← hPid]; exact List.mem_map_of_mem (fun n => n.node_id) hPmem)
  have hyfresh : ∀ y ∈ g.nodes, y.node_id ≠ fresh := by
    intro y hy he
    exact hfr (by rw [← he]; exact List.mem_map_of_mem (fun n => n.node_id) hy)
  have hTnotch : tid ∉ T.children_node_ids := by
    have h2 := wf_not_self_child hwf hTmem
    rwa [hTid] at h2
  constructor
  · intro n2 hn2 p hp
    obtain ⟨y, hy, hFy⟩ := List.mem_map.mp hn2
    rcases List.mem_append.mp hy with hyg | hyx
    · by_cases hyT : y.node_id = tid
      · rw [reparentF_at_tid hyT] at hFy
        have hppp : p = fresh := by
          rw [← hFy] at hp
          exact (Option.some.inj hp).symm
        refine ⟨reparentF tid fresh pid x,
          List.mem_map_of_mem _ (List.mem_append_right _ (List.mem_singleton.mpr rfl)), ?_, ?_⟩
        · rw [reparentF_at_fresh (by rw [hxid]; exact hfr_tid) hxid]
          show x.node_id = p
          rw [hxid, hppp]
        · rw [reparentF_at_fresh (by rw [hxid]; exact hfr_tid) hxid]
          show n2.node_id ∈ [tid]
          rw [← hFy]
          show y.node_id ∈ [tid]
          rw [hyT]
          exact List.mem_singleton.mpr rfl
      · have hypar : y.parent_node_id = some p := by
          rw [← hFy, reparentF_par hyT] at hp
          exact hp
        obtain ⟨m, hm, hmid, hmch⟩ := hcons.1 y hyg p hypar
        have hn2id : n2.node_id = y.node_id := by rw [← hFy, reparentF_node_id]
        refine ⟨reparentF tid fresh pid m,
          List.mem_map_of_mem _ (List.mem_append_left _ hm), ?_, ?_⟩
        · rw [reparentF_node_id]
          exact hmid
        · by_cases hmP : m.node_id = pid
          · rw [reparentF_at_pid (by rw [hmP]; exact Ne.symm htidpid) (by rw [hmP]; exact Ne.symm hfr_pid) hmP]
            show n2.node_id ∈ replaceInList tid fresh m.children_node_ids
            rw [hn2id]
            exact mem_replaceInList_of_ne hmch hyT
          · by_cases hmT : m.node_id = tid
            · rw [reparentF_at_tid hmT]
              show n2.node_id ∈ m.children_node_ids
              rw [hn2id]
              exact hmch
            · rw [reparentF_other hmT (hyfresh m hm) hmP]
              rw [hn2id]
              exact hmch
    · have hyx2 : y = x := List.mem_singleton.mp hyx
      subst hyx2
      rw [reparentF_at_fresh (by rw [hxid]; exact hfr_tid) hxid] at hFy
      have hppid : p = pid := by
        rw [← hFy] at hp
        have hp2 : y.parent_node_id = some p := hp
        rw [hxpar] at hp2
        exact (Option.some.inj hp2).symm
      refine ⟨reparentF tid fresh pid P,
        List.mem_map_of_mem _ (List.mem_append_left _ hPmem), ?_, ?_⟩
      · rw [reparentF_at_pid (by rw [hPid]; exact Ne.symm htidpid) (by rw [hPid]; exact Ne.symm hfr_pid) hPid]
        show P.node_id = p
        rw [hPid, hppid]
      · rw [reparentF_at_pid (by rw [hPid]; exact Ne.symm htidpid) (by rw [hPid]; exact Ne.symm hfr_pid) hPid]
        show n2.node_id ∈ replaceInList tid fresh P.children_node_ids
        rw [← hFy]
        show y.node_id ∈ replaceInList tid fresh P.children_node_ids
        rw [hxid]
        exact mem_replaceInList_of_mem htidP
  · intro m2 hm2 c hc
    obtain ⟨y, hy, hFy⟩ := List.mem_map.mp hm2
    have hm2id : m2.node_id = y.node_id := by rw [← hFy, reparentF_node_id]
    rcases List.mem_append.mp hy with hyg | hyx
    · by_cases hyP : y.node_id = pid
      · have hyT : y.node_id ≠ tid := by rw [hyP]; exact Ne.symm htidpid
        rw [reparentF_at_pid hyT (by rw [hyP]; exact Ne.symm hfr_pid) hyP] at hFy
        have hcin : c ∈ replaceInList tid fresh y.children_node_ids := by
          rw [← hFy] at hc
          exact hc
        rcases mem_replaceInList_elim hcin with hcf | ⟨hcy, hcne⟩
        · refine ⟨reparentF tid fresh pid x,
            List.mem_map_of_mem _ (List.mem_append_right _ (List.mem_singleton.mpr rfl)), ?_, ?_⟩
          · rw [reparentF_at_fresh (by rw [hxid]; exact hfr_tid) hxid]
            show x.node_id = c
            rw [hxid, hcf]
          · rw [reparentF_at_fresh (by rw [hxid]; exact hfr_tid) hxid]
            show x.parent_node_id = some m2.node_id
            rw [hxpar, hm2id, hyP]
        · obtain ⟨n, hn, hnid, hnpar⟩ := hcons.2 y hyg c hcy
          have hnT : n.node_id ≠ tid := by rw [hnid]; exact hcne
          refine ⟨reparentF tid fresh pid n,
            List.mem_map_of_mem _ (List.mem_append_left _ hn), ?_, ?_⟩
          · rw [reparentF_node_id]
            exact hnid
          · rw [reparentF_par hnT, hnpar, hm2id]
      · by_cases hyT : y.node_id = tid
        · have hyT2 : y = T := nodup_id_inj hndg hyg hTmem (by rw [hyT, hTid])
          rw [reparentF_at_tid hyT] at hFy
          have hcy : c ∈ y.children_node_ids := by rw [← hFy] at hc; exact hc
          obtain ⟨n, hn, hnid, hnpar⟩ := hcons.2 y hyg c hcy
          have hnT : n.node_id ≠ tid := by
            intro he
            apply hTnotch
            have hct : c = tid := by rw [← hnid, he]
            rw [← hyT2, ← hct]
            exact hcy
          refine ⟨reparentF tid fresh pid n,
            List.mem_map_of_mem _ (List.mem_append_left _ hn), ?_, ?_⟩
          · rw [reparentF_node_id]
            exact hnid
          · rw [reparentF_par hnT, hnpar, hm2id]
        · rw [reparentF_other hyT (hyfresh y hyg) hyP] at hFy
          have hcy : c ∈ y.children_node_ids := by rw [← hFy] at hc; exact hc
          obtain ⟨n, hn, hnid, hnpar⟩ := hcons.2 y hyg c hcy
          have hnT : n.node_id ≠ tid := by
            intro he
            have hnY : n = T := nodup_id_inj hndg hn hTmem (by rw [he, hTid])
            rw [hnY, hpT] at hnpar
            exact hyP (Option.some.inj hnpar).symm
          refine ⟨reparentF tid fresh pid n,
            List.mem_map_of_mem _ (List.mem_append_left _ hn), ?_, ?_⟩
          · rw [reparentF_node_id]
            exact hnid
          · rw [reparentF_par hnT, hnpar, hm2id]
    · have hyx2 : y = x := List.mem_singleton.mp hyx
      subst hyx2
      rw [reparentF_at_fresh (by rw [hxid]; exact hfr_tid) hxid] at hFy
      have hct : c = tid := by
        rw [← hFy] at hc
        exact List.mem_singleton.mp hc
      refine ⟨reparentF tid fresh pid T,
        List.mem_map_of_mem _ (List.mem_append_left _ hTmem), ?_, ?_⟩
      · rw [reparentF_at_tid hTid]
        show T.node_id = c
        rw [hTid, hct]
      · rw [reparentF_at_tid hTid]
        show (some fresh : Option String) = some m2.node_id
        rw [hm2id, hxid]

theorem consistentN_reparent_root (g : SessionActionsGraph) (hwf : WF g)
    (tid fresh : String) (T x : ActionNode)
    (hT : getNode g.nodes tid = some T)
    (hxid : x.node_id = fresh) (hxpar : x.parent_node_id = none)
    (hfr : fresh ∉ g.nodes.map (fun n => n.node_id))
    (hpT : T.parent_node_id = none) :
    ConsistentN ((g.nodes ++ [x]).map (reparentF tid fresh tid)) := by
  obtain ⟨hTmem, hTid⟩ := getNode_isSome_mem hT
  have hndg : NodupIds g := wf_nodupIds hwf
  have hcons : Consistent g := wf_consistent hwf
  have hfr_tid : fresh ≠ tid := by
    intro he
    exact hfr (by rw [he, ← hTid]; exact List.mem_map_of_mem (fun n => n.node_id) hTmem)
  have hyfresh : ∀ y ∈ g.nodes, y.node_id ≠ fresh := by
    intro y hy he
    exact hfr (by rw [← he]; exact List.mem_map_of_mem (fun n => n.node_id) hy)
  have hTnotch : tid ∉ T.children_node_ids := by
    have h2 := wf_not_self_child hwf hTmem
    rwa [hTid] at h2
  constructor
  · intro n2 hn2 p hp
    obtain ⟨y, hy, hFy⟩ := List.mem_map.mp hn2
    rcases List.mem_append.mp hy with hyg | hyx
    · by_cases hyT : y.node_id = tid
      · rw [reparentF_at_tid hyT] at hFy
        have hppp : p = fresh := by
          rw [← hFy] at hp
          exact (Option.some.inj hp).symm
        refine ⟨reparentF tid fresh tid x,
          List.mem_map_of_mem _ (List.mem_append_right _ (List.mem_singleton.mpr rfl)), ?_, ?_⟩
        · rw [reparentF_at_fresh (by rw [hxid]; exact hfr_tid) hxid]
          show x.node_id = p
          rw [hxid, hppp]
        · rw [reparentF_at_fresh (by rw [hxid]; exact hfr_tid) hxid]
          show n2.node_id ∈ [tid]
          rw [← hFy]
          show y.node_id ∈ [tid]
          rw [hyT]
          exact List.mem_singleton.mpr rfl
      · have hypar : y.parent_node_id = some p := by
          rw [← hFy, reparentF_par hyT] at hp
          exact hp
        obtain ⟨m, hm, hmid, hmch⟩ := hcons.1 y hyg p hypar
        have hn2id : n2.node_id = y.node_id := by rw [← hFy, reparentF_node_id]
        refine ⟨reparentF tid fresh tid m,
          List.mem_map_of_mem _ (List.mem_append_left _ hm), ?_, ?_⟩
        · rw [reparentF_node_id]
          exact hmid
        · by_cases hmT : m.node_id = tid
          · rw [reparentF_at_tid hmT]
            show n2.node_id ∈ m.children_node_ids
            rw [hn2id]
            exact hmch
          · rw [reparentF_other hmT (hyfresh m hm) hmT]
            rw [hn2id]
            exact hmch
    · have hyx2 : y = x := List.mem_singleton.mp hyx
      subst hyx2
      rw [reparentF_at_fresh (by rw [hxid]; exact hfr_tid) hxid] at hFy
      rw [← hFy] at hp
      have hp2 : y.parent_node_id = some p := hp
      rw [hxpar] at hp2
      cases hp2
  · intro m2 hm2 c hc
    obtain ⟨y, hy, hFy⟩ := List.mem_map.mp hm2
    have hm2id : m2.node_id = y.node_id := by rw [← hFy, reparentF_node_id]
    rcases List.mem_append.mp hy with hyg | hyx
    · by_cases hyT : y.node_id = tid
      · have hyT2 : y = T := nodup_id_inj hndg hyg hTmem (by rw [hyT, hTid])
        rw [reparentF_at_tid hyT] at hFy
        have hcy : c ∈ y.children_node_ids := by rw [← hFy] at hc; exact hc
        obtain ⟨n, hn, hnid, hnpar⟩ := hcons.2 y hyg c hcy
        have hnT : n.node_id ≠ tid := by
          intro he
          apply hTnotch
          have hct : c = tid := by rw [← hnid, he]
          rw [← hyT2, ← hct]
          exact hcy
        refine ⟨reparentF tid fresh tid n,
          List.mem_map_of_mem _ (List.mem_append_left _ hn), ?_, ?_⟩
        · rw [reparentF_node_id]
          exact hnid
        · rw [reparentF_par hnT, hnpar, hm2id]
      · rw [reparentF_other hyT (hyfresh y hyg) hyT] at hFy
        have hcy : c ∈ y.children_node_ids := by rw [← hFy] at hc; exact hc
        obtain ⟨n, hn, hnid, hnpar⟩ := hcons.2 y hyg c hcy
        have hnT : n.node_id ≠ tid := by
          intro he
          have hnY : n = T := nodup_id_inj hndg hn hTmem (by rw [he, hTid])
          rw [hnY, hpT] at hnpar
          cases hnpar
        refine ⟨reparentF tid fresh tid n,
          List.mem_map_of_mem _ (List.mem_append_left _ hn), ?_, ?_⟩
        · rw [reparentF_node_id]
          exact hnid
        · rw [reparentF_par hnT, hnpar, hm2id]
    · have hyx2 : y = x := List.mem_singleton.mp hyx
      subst hyx2
      rw [reparentF_at_fresh (by rw [hxid]; exact hfr_tid) hxid] at hFy
      have hct : c = tid := by
        rw [← hFy] at hc
        exact List.mem_singleton.mp hc
      refine ⟨reparentF tid fresh tid T,
        List.mem_map_of_mem _ (List.mem_append_left _ hTmem), ?_, ?_⟩
      · rw [reparentF_at_tid hTid]
        show T.node_id = c
        rw [hTid, hct]
      · rw [reparentF_at_tid hTid]
        show (some fresh : Option String) = some m2.node_id
        rw [hm2id, hxid]

theorem consistent_addParentAction (g : SessionActionsGraph) (hwf : WF g)
    (tid label fresh : String)
    (hfr : fresh ∉ g.nodes.map (fun n => n.node_id)) :
    Consistent (addParentAction g tid label fresh) := by
  cases hT : getNode g.nodes tid with
  | none =>
    have hg : addParentAction g tid label fresh = g := by
      simp [addParentAction, hT]
    rw [hg]
    exact wf_consistent hwf
  | some T =>
    obtain ⟨hTmem, hTid⟩ := getNode_isSome_mem hT
    have hft : fresh ≠ tid := by
      intro he
      exact hfr (by rw [he, ← hTid]; exact List.mem_map_of_mem (fun n => n.node_id) hTmem)
    cases hpT : T.parent_node_id with
    | some pid =>
      have hpne : pid ≠ "" := wf_parent_nonempty hwf hTmem hpT
      obtain ⟨P, hPmem, hPid, -⟩ := parent_spec (wf_consistent hwf) hTmem hpT
      have htp : tid ≠ pid := by
        intro he
        exact wf_no_self_parent hwf hTmem (by rw [hpT, ← he, hTid])
      have hfp : fresh ≠ pid := by
        intro he
        exact hfr (by rw [he, ← hPid]; exact List.mem_map_of_mem (fun n => n.node_id) hPmem)
      have hnodes : (addParentAction g tid label fresh).nodes
          = upd (upd (upd (g.nodes ++ [newActionNode fresh label (some pid)]) pid (fun n => { n with children_node_ids := replaceInList tid fresh n.children_node_ids })) tid (fun n => { n with parent_node_id := some fresh })) fresh (fun n => { n with children_node_ids := [tid] }) := by
        simp [addParentAction, hT, hpT, hpne]
      rw [consistent_iff_nodes, hnodes, reparent_pipeline _ _ _ _ htp hft hfp]
      exact consistentN_reparent_parent g hwf tid fresh pid T _ hT rfl rfl hfr hpT
    | none =>
      have hnodes : (addParentAction g tid label fresh).nodes
          = upd (upd (g.nodes ++ [newActionNode fresh label none]) tid (fun n => { n with parent_node_id := some fresh })) fresh (fun n => { n with children_node_ids := [tid] }) := by
        simp [addParentAction, hT, hpT]
      rw [consistent_iff_nodes, hnodes, reparent_pipeline_root _ _ _ hft]
      exact consistentN_reparent_root g hwf tid fresh T _ hT rfl rfl hfr hpT

theorem consistent_pasteActionAsParent (g : SessionActionsGraph) (hwf : WF g)
    (tid : String) (clipN : ActionNode) (fresh : String)
    (hfr : fresh ∉ g.nodes.map (fun n => n.node_id)) :
    Consistent (pasteActionAsParent g tid clipN fresh) := by
  cases hT : getNode g.nodes tid with
  | none =>
    have hg : pasteActionAsParent g tid clipN fresh = g := by
      simp [pasteActionAsParent, hT]
    rw [hg]
    exact wf_consistent hwf
  | some T =>
    obtain ⟨hTmem, hTid⟩ := getNode_isSome_mem hT
    have hft : fresh ≠ tid := by
      intro he
      exact hfr (by rw [he, ← hTid]; exact List.mem_map_of_mem (fun n => n.node_id) hTmem)
    cases hpT : T.parent_node_id with
    | some pid =>
      have hpne : pid ≠ "" := wf_parent_nonempty hwf hTmem hpT
      obtain ⟨P, hPmem, hPid, -⟩ := parent_spec (wf_consistent hwf) hTmem hpT
      have htp : tid ≠ pid := by
        intro he
        exact wf_no_self_parent hwf hTmem (by rw [hpT, ← he, hTid])
      have hfp : fresh ≠ pid := by
        intro he
        exact hfr (by rw [he, ← hPid]; exact List.mem_map_of_mem (fun n => n.node_id) hPmem)
      have hnodes : (pasteActionAsParent g tid clipN fresh).nodes
          = upd (upd (upd (g.nodes ++ [cloneActionNode fresh clipN (some pid)]) pid (fun n => { n with children_node_ids := replaceInList tid fresh n.children_node_ids })) tid (fun n => { n with parent_node_id := some fresh })) fresh (fun n => { n with children_node_ids := [tid] }) := by
        simp [pasteActionAsParent, hT, hpT, hpne]
      rw [consistent_iff_nodes, hnodes, reparent_pipeline _ _ _ _ htp hft hfp]
      exact consistentN_reparent_parent g hwf tid fresh pid T _ hT rfl rfl hfr hpT
    | none =>
      have hnodes : (pasteActionAsParent g tid clipN fresh).nodes
          = upd (upd (g.nodes ++ [cloneActionNode fresh clipN none]) tid (fun n => { n with parent_node_id := some fresh })) fresh (fun n => { n with children_node_ids := [tid] }) := by
        simp [pasteActionAsParent, hT, hpT]
      rw [consistent_iff_nodes, hnodes, reparent_pipeline_root _ _ _ hft]
      exact consistentN_reparent_root g hwf tid fresh T _ hT rfl rfl hfr hpT

theorem consistent_addActionToStep (g : SessionActionsGraph) (hwf : WF g)
    (stepId label fresh : String) :
    Consistent (addActionToStep g stepId label fresh) := by
  rw [consistent_iff_nodes]
  show ConsistentN (g.nodes ++ [newActionNode fresh label none])
  exact consistentN_append ((consistent_iff_nodes g).mp (wf_consistent hwf))
    (consistentN_single_root _ rfl rfl)

theorem consistent_addChildAction (g : SessionActionsGraph) (hwf : WF g)
    (pid label fresh : String)
    (hPex : ∃ P ∈ g.nodes, P.node_id = pid)
    (hfr : fresh ∉ g.nodes.map (fun n => n.node_id)) :
    Consistent (addChildAction g pid label fresh) := by
  rw [consistent_iff_nodes]
  show ConsistentN (upd (g.nodes ++ [newActionNode fresh label (some pid)]) pid
    (fun n => { n with children_node_ids := n.children_node_ids ++ [fresh] }))
  exact consistent_attach_leaf g hwf pid fresh _ rfl rfl hfr rfl hPex

theorem consistent_pasteActionAsChild (g : SessionActionsGraph) (hwf : WF g)
    (tid : String) (clipN : ActionNode) (fresh : String)
    (hPex : ∃ P ∈ g.nodes, P.node_id = tid)
    (hfr : fresh ∉ g.nodes.map (fun n => n.node_id)) :
    Consistent (pasteActionAsChild g tid clipN fresh) := by
  rw [consistent_iff_nodes]
  show ConsistentN (upd (g.nodes ++ [cloneActionNode fresh clipN (some tid)]) tid
    (fun n => { n with children_node_ids := n.children_node_ids ++ [fresh] }))
  exact consistent_attach_leaf g hwf tid fresh _ rfl rfl hfr rfl hPex

theorem consistent_addSiblingAction (g : SessionActionsGraph) (hwf : WF g)
    (tid label fresh : String)
    (hfr : fresh ∉ g.nodes.map (fun n => n.node_id)) :
    Consistent (addSiblingAction g tid label fresh) := by
  cases hT : getNode g.nodes tid with
  | none =>
    have hg : addSiblingAction g tid label fresh = g := by
      simp [addSiblingAction, hT]
    rw [hg]
    exact wf_consistent hwf
  | some target =>
    obtain ⟨hTmem, hTid⟩ := getNode_isSome_mem hT
    cases hp : target.parent_node_id with
    | some pid =>
      have hpne : pid ≠ "" := wf_parent_nonempty hwf hTmem hp
      have hnodes : (addSiblingAction g tid label fresh).nodes
          = upd (g.nodes ++ [newActionNode fresh label (some pid)]) pid
            (fun n => { n with children_node_ids := n.children_node_ids ++ [fresh] }) := by
        simp [addSiblingAction, hT, hp, hpne]
      rw [consistent_iff_nodes, hnodes]
      obtain ⟨P, hP, hPid, -⟩ := parent_spec (wf_consistent hwf) hTmem hp
      exact consistent_attach_leaf g hwf pid fresh _ rfl rfl hfr rfl ⟨P, hP, hPid⟩
    | none =>
      have hnodes : (addSiblingAction g tid label fresh).nodes
          = g.nodes ++ [newActionNode fresh label none] := by
        simp [addSiblingAction, hT, hp]
      rw [consistent_iff_nodes, hnodes]
      exact consistentN_append ((consistent_iff_nodes g).mp (wf_consistent hwf))
        (consistentN_single_root _ rfl rfl)

theorem consistent_pasteActionAsBrother (g : SessionActionsGraph) (hwf : WF g)
    (tid : String) (clipN : ActionNode) (fresh : String)
    (hfr : fresh ∉ g.nodes.map (fun n => n.node_id)) :
    Consistent (pasteActionAsBrother g tid clipN fresh) := by
  cases hT : getNode g.nodes tid with
  | none =>
    have hg : pasteActionAsBrother g tid clipN fresh = g := by
      simp [pasteActionAsBrother, hT]
    rw [hg]
    exact wf_consistent hwf
  | some target =>
    obtain ⟨hTmem, hTid⟩ := getNode_isSome_mem hT
    cases hp : target.parent_node_id with
    | some pid =>
      have hpne : pid ≠ "" := wf_parent_nonempty hwf hTmem hp
      have hnodes : (pasteActionAsBrother g tid clipN fresh).nodes
          = upd (g.nodes ++ [cloneActionNode fresh clipN (some pid)]) pid
            (fun n => { n with children_node_ids := n.children_node_ids ++ [fresh] }) := by
        simp [pasteActionAsBrother, hT, hp, hpne]
      rw [consistent_iff_nodes, hnodes]
      obtain ⟨P, hP, hPid, -⟩ := parent_spec (wf_consistent hwf) hTmem hp
      exact consistent_attach_leaf g hwf pid fresh _ rfl rfl hfr rfl ⟨P, hP, hPid⟩
    | none =>
      have hnodes : (pasteActionAsBrother g tid clipN fresh).nodes
          = g.nodes ++ [cloneActionNode fresh clipN none] := by
        simp [pasteActionAsBrother, hT, hp]
      rw [consistent_iff_nodes, hnodes]
      exact consistentN_append ((consistent_iff_nodes g).mp (wf_consistent hwf))
        (consistentN_single_root _ rfl rfl)

theorem insertF_node_id (tid fresh : String) (cs : List String) (n : ActionNode) :
    (insertF tid fresh cs n).node_id = n.node_id := by
  unfold insertF
  split
  · rfl
  · split
    · rfl
    · split
      · rfl
      · rfl

theorem insertF_par {tid fresh : String} {cs : List String} {n : ActionNode}
    (h : n.node_id ∉ cs) :
    (insertF tid fresh cs n).parent_node_id = n.parent_node_id := by
  unfold insertF
  by_cases h1 : n.node_id = tid
  · rw [if_pos h1]
  · by_cases h2 : n.node_id = fresh
    · rw [if_neg h1, if_pos h2]
    · rw [if_neg h1, if_neg h2, if_neg h]

theorem insertF_ch {tid fresh : String} {cs : List String} {n : ActionNode}
    (h1 : n.node_id ≠ tid) (h2 : n.node_id ≠ fresh) :
    (insertF tid fresh cs n).children_node_ids = n.children_node_ids := by
  unfold insertF
  rw [if_neg h1, if_neg h2]
  by_cases h3 : n.node_id ∈ cs
  · rw [if_pos h3]
  · rw [if_neg h3]

theorem insertF_at_tid {tid fresh : String} {cs : List String} {n : ActionNode}
    (h : n.node_id = tid) :
    insertF tid fresh cs n = { n with children_node_ids := [fresh] } := by
  unfold insertF
  rw [if_pos h]

theorem insertF_at_fresh {tid fresh : String} {cs : List String} {n : ActionNode}
    (h1 : n.node_id ≠ tid) (h : n.node_id = fresh) :
    insertF tid fresh cs n = { n with children_node_ids := cs } := by
  unfold insertF
  rw [if_neg h1, if_pos h]

theorem insertF_at_cs {tid fresh : String} {cs : List String} {n : ActionNode}
    (h1 : n.node_id ≠ tid) (h2 : n.node_id ≠ fresh) (h : n.node_id ∈ cs) :
    insertF tid fresh cs n = { n with parent_node_id := some fresh } := by
  unfold insertF
  rw [if_neg h1, if_neg h2, if_pos h]

theorem insert_pipeline (s : List ActionNode) (tid fresh : String) (cs : List String)
    (htf : fresh ≠ tid) (htc : tid ∉ cs) (hfc : fresh ∉ cs) :
    updEach (upd (upd s tid (fun n => { n with children_node_ids := [fresh] })) fresh (fun n => { n with children_node_ids := cs })) cs (fun n => { n with parent_node_id := some fresh })
      = s.map (insertF tid fresh cs) := by
  have hue : ∀ s2 : List ActionNode, updEach s2 cs (fun n => { n with parent_node_id := some fresh }) = s2.map (fun n => if n.node_id ∈ cs then { n with parent_node_id := some fresh } else n) :=
    fun s2 => updEach_eq_map (fun n => rfl) (fun n => rfl)
  rw [hue]
  unfold upd
  simp only [List.map_map]
  apply List.map_congr_left
  intro n _
  simp only [Function.comp_apply]
  by_cases h1 : n.node_id = tid
  · have hc2 : ¬(n.node_id = fresh) := by rw [h1]; exact Ne.symm htf
    have hc3 : ¬(n.node_id ∈ cs) := by rw [h1]; exact htc
    rw [if_pos h1]
    simp only []
    rw [if_neg hc2, if_neg hc3, insertF_at_tid h1]
  · by_cases h2 : n.node_id = fresh
    · have hc3 : ¬(n.node_id ∈ cs) := by rw [h2]; exact hfc
      rw [if_neg h1, if_pos h2]
      simp only []
      rw [if_neg hc3, insertF_at_fresh h1 h2]
    · by_cases h3 : n.node_id ∈ cs
      · rw [if_neg h1, if_neg h2, if_pos h3, insertF_at_cs h1 h2 h3]
      · rw [if_neg h1, if_neg h2, if_neg h3]
        unfold insertF
        rw [if_neg h1, if_neg h2, if_neg h3]

theorem consistentN_insert (g : SessionActionsGraph) (hwf : WF g)
    (tid fresh : String) (T x : ActionNode)
    (hT : getNode g.nodes tid = some T)
    (hxid : x.node_id = fresh) (hxpar : x.parent_node_id = some tid)
    (hfr : fresh ∉ g.nodes.map (fun n => n.node_id)) :
    ConsistentN ((g.nodes ++ [x]).map (insertF tid fresh T.children_node_ids)) := by
  obtain ⟨hTmem, hTid⟩ := getNode_isSome_mem hT
  have hndg : NodupIds g := wf_nodupIds hwf
  have hcons : Consistent g := wf_consistent hwf
  have htc : tid ∉ T.children_node_ids := by
    have h2 := wf_not_self_child hwf hTmem
    rwa [hTid] at h2
  have hfr_tid : fresh ≠ tid := by
    intro he
    exact hfr (by rw [he, ← hTid]; exact List.mem_map_of_mem (fun n => n.node_id) hTmem)
  have hyfresh : ∀ y ∈ g.nodes, y.node_id ≠ fresh := by
    intro y hy he
    exact hfr (by rw [← he]; exact List.mem_map_of_mem (fun n => n.node_id) hy)
  have hfc : fresh ∉ T.children_node_ids := by
    intro hm
    obtain ⟨C, hC, hCid, -⟩ := child_spec hcons hTmem hm
    exact hfr (by rw [← hCid]; exact List.mem_map_of_mem (fun n => n.node_id) hC)
  have hchild : ∀ n ∈ g.nodes, n.node_id ∈ T.children_node_ids →
      n.parent_node_id = some tid := by
    intro n hn hmem
    obtain ⟨C, hCmem, hCid, hCpar⟩ := child_spec hcons hTmem hmem
    have hCn : C = n := nodup_id_inj hndg hCmem hn hCid
    rw [← hCn, hCpar, hTid]
  constructor
  · intro n2 hn2 p hp
    obtain ⟨y, hy, hFy⟩ := List.mem_map.mp hn2
    rcases List.mem_append.mp hy with hyg | hyx
    · by_cases hyC : y.node_id ∈ T.children_node_ids
      · have hyT : y.node_id ≠ tid := fun he => htc (by rw [← he]; exact hyC)
        rw [insertF_at_cs hyT (hyfresh y hyg) hyC] at hFy
        have hppp : p = fresh := by
          rw [← hFy] at hp
          exact (Option.some.inj hp).symm
        refine ⟨insertF tid fresh T.children_node_ids x,
          List.mem_map_of_mem _ (List.mem_append_right _ (List.mem_singleton.mpr rfl)), ?_, ?_⟩
        · rw [insertF_at_fresh (by rw [hxid]; exact hfr_tid) hxid]
          show x.node_id = p
          rw [hxid, hppp]
        · rw [insertF_at_fresh (by rw [hxid]; exact hfr_tid) hxid]
          show n2.node_id ∈ T.children_node_ids
          rw [← hFy]
          show y.node_id ∈ T.children_node_ids
          exact hyC
      · have hypar : y.parent_node_id = some p := by
          rw [← hFy, insertF_par hyC] at hp
          exact hp
        obtain ⟨m, hm, hmid, hmch⟩ := hcons.1 y hyg p hypar
        have hn2id : n2.node_id = y.node_id := by rw [← hFy, insertF_node_id]
        have hmT : m.node_id ≠ tid := by
          intro he
          have hmT2 : m = T := nodup_id_inj hndg hm hTmem (by rw [he, hTid])
          rw [hmT2] at hmch
          exact hyC hmch
        refine ⟨insertF tid fresh T.children_node_ids m,
          List.mem_map_of_mem _ (List.mem_append_left _ hm), ?_, ?_⟩
        · rw [insertF_node_id]
          exact hmid
        · rw [insertF_ch hmT (hyfresh m hm)]
          rw [hn2id]
          exact hmch
    · have hyx2 : y = x := List.mem_singleton.mp hyx
      subst hyx2
      rw [insertF_at_fresh (by rw [hxid]; exact hfr_tid) hxid] at hFy
      have hptid : p = tid := by
        rw [← hFy] at hp
        have hp2 : y.parent_node_id = some p := hp
        rw [hxpar] at hp2
        exact (Option.some.inj hp2).symm
      refine ⟨insertF tid fresh T.children_node_ids T,
        List.mem_map_of_mem _ (List.mem_append_left _ hTmem), ?_, ?_⟩
      · rw [insertF_at_tid hTid]
        show T.node_id = p
        rw [hTid, hptid]
      · rw [insertF_at_tid hTid]
        show n2.node_id ∈ [fresh]
        rw [← hFy]
        show y.node_id ∈ [fresh]
        rw [hxid]
        exact List.mem_singleton.mpr rfl
  · intro m2 hm2 c hc
    obtain ⟨y, hy, hFy⟩ := List.mem_map.mp hm2
    have hm2id : m2.node_id = y.node_id := by rw [← hFy, insertF_node_id]
    rcases List.mem_append.mp hy with hyg | hyx
    · by_cases hyT : y.node_id = tid
      · rw [insertF_at_tid hyT] at hFy
        have hcf : c = fresh := by
          rw [← hFy] at hc
          exact List.mem_singleton.mp hc
        refine ⟨insertF tid fresh T.children_node_ids x,
          List.mem_map_of_mem _ (List.mem_append_right _ (List.mem_singleton.mpr rfl)), ?_, ?_⟩
        · rw [insertF_at_fresh (by rw [hxid]; exact hfr_tid) hxid]
          show x.node_id = c
          rw [hxid, hcf]
        · rw [insertF_at_fresh (by rw [hxid]; exact hfr_tid) hxid]
          show x.parent_node_id = some m2.node_id
          rw [hxpar, hm2id, hyT]
      · have hcy : c ∈ y.children_node_ids := by
          rw [← hFy, insertF_ch hyT (hyfresh y hyg)] at hc
          exact hc
        obtain ⟨n, hn, hnid, hnpar⟩ := hcons.2 y hyg c hcy
        have hnC : n.node_id ∉ T.children_node_ids := by
          intro hmem
          have := hchild n hn hmem
          rw [this] at hnpar
          exact hyT (Option.some.inj hnpar).symm
        refine ⟨insertF tid fresh T.children_node_ids n,
          List.mem_map_of_mem _ (List.mem_append_left _ hn), ?_, ?_⟩
        · rw [insertF_node_id]
          exact hnid
        · rw [insertF_par hnC, hnpar, hm2id]
    · have hyx2 : y = x := List.mem_singleton.mp hyx
      subst hyx2
      rw [insertF_at_fresh (by rw [hxid]; exact hfr_tid) hxid] at hFy
      have hcy : c ∈ T.children_node_ids := by rw [← hFy] at hc; exact hc
      obtain ⟨C, hCmem, hCid, hCpar⟩ := child_spec hcons hTmem hcy
      have hCT : C.node_id ≠ tid := fun he => htc (by rw [← he, hCid]; exact hcy)
      refine ⟨insertF tid fresh T.children_node_ids C,
        List.mem_map_of_mem _ (List.mem_append_left _ hCmem), ?_, ?_⟩
      · rw [insertF_at_cs hCT (hyfresh C hCmem) (by rw [hCid]; exact hcy)]
        exact hCid
      · rw [insertF_at_cs hCT (hyfresh C hCmem) (by rw [hCid]; exact hcy)]
        show (some fresh : Option String) = some m2.node_id
        rw [hm2id, hxid]

theorem consistent_insertIntermediateAction (g : SessionActionsGraph) (hwf : WF g)
    (tid label fresh : String)
    (hfr : fresh ∉ g.nodes.map (fun n => n.node_id)) :
    Consistent (insertIntermediateAction g tid label fresh) := by
  cases hT : getNode g.nodes tid with
  | none =>
    have hg : insertIntermediateAction g tid label fresh = g := by
      simp [insertIntermediateAction, hT]
    rw [hg]
    exact wf_consistent hwf
  | some T =>
    obtain ⟨hTmem, hTid⟩ := getNode_isSome_mem hT
    by_cases hlen : T.children_node_ids.length ≤ 1
    · have hg : insertIntermediateAction g tid label fresh = g := by
        simp [insertIntermediateAction, hT, hlen]
      rw [hg]
      exact wf_consistent hwf
    · have hft : fresh ≠ tid := by
        intro he
        exact hfr (by rw [he, ← hTid]; exact List.mem_map_of_mem (fun n => n.node_id) hTmem)
      have htc : tid ∉ T.children_node_ids := by
        have h2 := wf_not_self_child hwf hTmem
        rwa [hTid] at h2
      have hfc : fresh ∉ T.children_node_ids := by
        intro hm
        obtain ⟨C, hC, hCid, -⟩ := child_spec (wf_consistent hwf) hTmem hm
        exact hfr (by rw [← hCid]; exact List.mem_map_of_mem (fun n => n.node_id) hC)
      have hnodes : (insertIntermediateAction g tid label fresh).nodes
          = updEach (upd (upd (g.nodes ++ [newActionNode fresh label (some tid)]) tid (fun n => { n with children_node_ids := [fresh] })) fresh (fun n => { n with children_node_ids := T.children_node_ids })) T.children_node_ids (fun n => { n with parent_node_id := some fresh }) := by
        simp [insertIntermediateAction, hT, hlen]
      rw [consistent_iff_nodes, hnodes, insert_pipeline _ _ _ _ hft htc hfc]
      exact consistentN_insert g hwf tid fresh T _ hT rfl rfl hfr

theorem moveF_node_id (aid bid gpid : String) (gp : Option String) (cs : List String)
    (n : ActionNode) : (moveF aid bid gpid gp cs n).node_id = n.node_id := by
  unfold moveF
  by_cases h1 : n.node_id = aid
  · rw [if_pos h1]
  · by_cases h2 : n.node_id = bid
    · rw [if_neg h1, if_pos h2]
    · by_cases h3 : n.node_id ∈ cs
      · rw [if_neg h1, if_neg h2, if_pos h3]
      · by_cases h4 : n.node_id = gpid
        · rw [if_neg h1, if_neg h2, if_neg h3, if_pos h4]
        · rw [if_neg h1, if_neg h2, if_neg h3, if_neg h4]

theorem moveF_par {aid bid gpid : String} {gp : Option String} {cs : List String}
    {n : ActionNode} (h1 : n.node_id ≠ aid) (h2 : n.node_id ≠ bid)
    (h3 : n.node_id ∉ cs) :
    (moveF aid bid gpid gp cs n).parent_node_id = n.parent_node_id := by
  unfold moveF
  rw [if_neg h1, if_neg h2, if_neg h3]
  by_cases h4 : n.node_id = gpid
  · rw [if_pos h4]
  · rw [if_neg h4]

theorem moveF_ch {aid bid gpid : String} {gp : Option String} {cs : List String}
    {n : ActionNode} (h1 : n.node_id ≠ aid) (h2 : n.node_id ≠ bid)
    (h4 : n.node_id ≠ gpid) :
    (moveF aid bid gpid gp cs n).children_node_ids = n.children_node_ids := by
  unfold moveF
  rw [if_neg h1, if_neg h2]
  by_cases h3 : n.node_id ∈ cs
  · rw [if_pos h3]
  · rw [if_neg h3, if_neg h4]

theorem moveF_at_aid {aid bid gpid : String} {gp : Option String} {cs : List String}
    {n : ActionNode} (h : n.node_id = aid) :
    moveF aid bid gpid gp cs n
      = { n with parent_node_id := gp, children_node_ids := [bid] } := by
  unfold moveF
  rw [if_pos h]

theorem moveF_at_bid {aid bid gpid : String} {gp : Option String} {cs : List String}
    {n : ActionNode} (h1 : n.node_id ≠ aid) (h : n.node_id = bid) :
    moveF aid bid gpid gp cs n
      = { n with parent_node_id := some aid, children_node_ids := cs } := by
  unfold moveF
  rw [if_neg h1, if_pos h]

theorem moveF_at_cs {aid bid gpid : String} {gp : Option String} {cs : List String}
    {n : ActionNode} (h1 : n.node_id ≠ aid) (h2 : n.node_id ≠ bid)
    (h : n.node_id ∈ cs) :
    moveF aid bid gpid gp cs n = { n with parent_node_id := some bid } := by
  unfold moveF
  rw [if_neg h1, if_neg h2, if_pos h]

theorem moveF_at_gpid {aid bid gpid : String} {gp : Option String} {cs : List String}
    {n : ActionNode} (h1 : n.node_id ≠ aid) (h2 : n.node_id ≠ bid)
    (h3 : n.node_id ∉ cs) (h : n.node_id = gpid) :
    moveF aid bid gpid gp cs n
      = { n with children_node_ids := replaceInList bid aid n.children_node_ids } := by
  unfold moveF
  rw [if_neg h1, if_neg h2, if_neg h3, if_pos h]

theorem moveF_other {aid bid gpid : String} {gp : Option String} {cs : List String}
    {n : ActionNode} (h1 : n.node_id ≠ aid) (h2 : n.node_id ≠ bid)
    (h3 : n.node_id ∉ cs) (h4 : n.node_id ≠ gpid) :
    moveF aid bid gpid gp cs n = n := by
  unfold moveF
  rw [if_neg h1, if_neg h2, if_neg h3, if_neg h4]

theorem move_pipeline (s : List ActionNode) (aid bid gpid : String)
    (gp : Option String) (cs : List String)
    (hab : aid ≠ bid) (hac : aid ∉ cs) (hag : aid ≠ gpid)
    (hbc : bid ∉ cs) (hbg : bid ≠ gpid) (hgc : gpid ∉ cs) :
    upd (updEach (upd (upd s aid (fun n => { n with parent_node_id := gp, children_node_ids := [bid] })) bid (fun n => { n with parent_node_id := some aid, children_node_ids := cs })) cs (fun n => { n with parent_node_id := some bid })) gpid (fun n => { n with children_node_ids := replaceInList bid aid n.children_node_ids })
      = s.map (moveF aid bid gpid gp cs) := by
  have hue : ∀ s2 : List ActionNode, updEach s2 cs (fun n => { n with parent_node_id := some bid }) = s2.map (fun n => if n.node_id ∈ cs then { n with parent_node_id := some bid } else n) :=
    fun s2 => updEach_eq_map (fun n => rfl) (fun n => rfl)
  rw [hue]
  unfold upd
  simp only [List.map_map]
  apply List.map_congr_left
  intro n _
  simp only [Function.comp_apply]
  by_cases h1 : n.node_id = aid
  · have hc2 : ¬(n.node_id = bid) := by rw [h1]; exact hab
    have hc3 : ¬(n.node_id ∈ cs) := by rw [h1]; exact hac
    have hc4 : ¬(n.node_id = gpid) := by rw [h1]; exact hag
    rw [if_pos h1]
    simp only []
    rw [if_neg hc2, if_neg hc3, if_neg hc4, moveF_at_aid h1]
  · by_cases h2 : n.node_id = bid
    · have hc3 : ¬(n.node_id ∈ cs) := by rw [h2]; exact hbc
      have hc4 : ¬(n.node_id = gpid) := by rw [h2]; exact hbg
      rw [if_neg h1, if_pos h2]
      simp only []
      rw [if_neg hc3, if_neg hc4, moveF_at_bid h1 h2]
    · by_cases h3 : n.node_id ∈ cs
      · have hc4 : ¬(n.node_id = gpid) := by
          intro he
          rw [he] at h3
          exact hgc h3
        rw [if_neg h1, if_neg h2, if_pos h3]
        simp only []
        rw [if_neg hc4, moveF_at_cs h1 h2 h3]
      · by_cases h4 : n.node_id = gpid
        · rw [if_neg h1, if_neg h2, if_neg h3, if_pos h4, moveF_at_gpid h1 h2 h3 h4]
        · rw [if_neg h1, if_neg h2, if_neg h3, if_neg h4, moveF_other h1 h2 h3 h4]

theorem move_pipeline_root (s : List ActionNode) (aid bid : String)
    (gp : Option String) (cs : List String)
    (hab : aid ≠ bid) (hac : aid ∉ cs) (hbc : bid ∉ cs) :
    updEach (upd (upd s aid (fun n => { n with parent_node_id := gp, children_node_ids := [bid] })) bid (fun n => { n with parent_node_id := some aid, children_node_ids := cs })) cs (fun n => { n with parent_node_id := some bid })
      = s.map (moveF aid bid bid gp cs) := by
  have hue : ∀ s2 : List ActionNode, updEach s2 cs (fun n => { n with parent_node_id := some bid }) = s2.map (fun n => if n.node_id ∈ cs then { n with parent_node_id := some bid } else n) :=
    fun s2 => updEach_eq_map (fun n => rfl) (fun n => rfl)
  rw [hue]
  unfold upd
  simp only [List.map_map]
  apply List.map_congr_left
  intro n _
  simp only [Function.comp_apply]
  by_cases h1 : n.node_id = aid
  · have hc2 : ¬(n.node_id = bid) := by rw [h1]; exact hab
    have hc3 : ¬(n.node_id ∈ cs) := by rw [h1]; exact hac
    rw [if_pos h1]
    simp only []
    rw [if_neg hc2, if_neg hc3, moveF_at_aid h1]
  · by_cases h2 : n.node_id = bid
    · have hc3 : ¬(n.node_id ∈ cs) := by rw [h2]; exact hbc
      rw [if_neg h1, if_pos h2]
      simp only []
      rw [if_neg hc3, moveF_at_bid h1 h2]
    · by_cases h3 : n.node_id ∈ cs
      · rw [if_neg h1, if_neg h2, if_pos h3, moveF_at_cs h1 h2 h3]
      · rw [if_neg h1, if_neg h2, if_neg h3, moveF_other h1 h2 h3 h2]

theorem consistentN_move (g : SessionActionsGraph) (hwf : WF g)
    {aid bid gpid : String} {A B G : ActionNode}
    (hA : getNode g.nodes aid = some A)
    (hB : getNode g.nodes bid = some B)
    (hpar : A.parent_node_id = some bid)
    (hBch : B.children_node_ids = [aid])
    (hgp : B.parent_node_id = some gpid)
    (hG : getNode g.nodes gpid = some G) :
    ConsistentN (g.nodes.map (moveF aid bid gpid (some gpid) A.children_node_ids)) := by
  obtain ⟨hAmem, hAid⟩ := getNode_isSome_mem hA
  obtain ⟨hBmem, hBid⟩ := getNode_isSome_mem hB
  obtain ⟨hGmem, hGid⟩ := getNode_isSome_mem hG
  have hnd : (g.nodes.map (fun x => x.node_id)).Nodup := wf_nodupIds hwf
  have hcons := wf_consistent hwf
  have haidbid : aid ≠ bid := by
    intro he
    exact wf_no_self_parent hwf hAmem (by rw [hpar, hAid, he])
  have hcs_aid : aid ∉ A.children_node_ids := by
    have h := wf_not_self_child hwf hAmem
    rwa [hAid] at h
  have hcs_bid : bid ∉ A.children_node_ids := wf_parent_not_child hwf hAmem hpar
  have hGch : bid ∈ G.children_node_ids := by
    obtain ⟨P, hPmem, hPid, hPch⟩ := parent_spec hcons hBmem hgp
    have hPG : P = G := nodup_id_inj hnd hPmem hGmem (by rw [hPid, hGid])
    rw [← hPG]
    rw [hBid] at hPch
    exact hPch
  have hgpaid : gpid ≠ aid := by
    intro he
    exact wf_no_two_cycle hwf hAmem hBmem (by rw [hpar, hBid]) (by rw [hgp, he, hAid])
  have hgpbid : gpid ≠ bid := by
    intro he
    exact wf_no_self_parent hwf hBmem (by rw [hgp, he, hBid])
  have hgpcs : gpid ∉ A.children_node_ids := by
    intro hmem
    obtain ⟨C, hCmem, hCid, hCpar⟩ := child_spec hcons hAmem hmem
    exact wf_no_three_cycle hwf hAmem hBmem hCmem (by rw [hpar, hBid])
      (by rw [hgp, hCid]) hCpar
  have haidG : aid ∉ G.children_node_ids := by
    intro hmem
    obtain ⟨C, hCmem, hCid, hCpar⟩ := child_spec hcons hGmem hmem
    have hCA : C = A := nodup_id_inj hnd hCmem hAmem (by rw [hCid, hAid])
    rw [hCA, hpar, hGid] at hCpar
    exact hgpbid (Option.some.inj hCpar).symm
  have hchild : ∀ n ∈ g.nodes, n.node_id ∈ A.children_node_ids →
      n.parent_node_id = some aid := by
    intro n hn hmem
    obtain ⟨C, hCmem, hCid, hCpar⟩ := child_spec hcons hAmem hmem
    have hCn : C = n := nodup_id_inj hnd hCmem hn hCid
    rw [hCn, hAid] at hCpar
    exact hCpar
  constructor
  · intro n2 hn2 p hp
    obtain ⟨y, hy, hFy⟩ := List.mem_map.mp hn2
    have hn2id : n2.node_id = y.node_id := by rw [← hFy, moveF_node_id]
    by_cases h1 : y.node_id = aid
    · rw [← hFy, moveF_at_aid h1] at hp
      have hp2 : (some gpid : Option String) = some p := hp
      have hpg : p = gpid := (Option.some.inj hp2).symm
      refine ⟨moveF aid bid gpid (some gpid) A.children_node_ids G,
        List.mem_map_of_mem _ hGmem, ?_, ?_⟩
      · rw [moveF_node_id, hGid, hpg]
      · have hGne1 : G.node_id ≠ aid := by rw [hGid]; exact hgpaid
        have hGne2 : G.node_id ≠ bid := by rw [hGid]; exact hgpbid
        have hGne3 : G.node_id ∉ A.children_node_ids := by rw [hGid]; exact hgpcs
        rw [moveF_at_gpid hGne1 hGne2 hGne3 hGid]
        show n2.node_id ∈ replaceInList bid aid G.children_node_ids
        rw [hn2id, h1]
        exact mem_replaceInList_of_mem hGch
    · by_cases h2 : y.node_id = bid
      · rw [← hFy, moveF_at_bid h1 h2] at hp
        have hp2 : (some aid : Option String) = some p := hp
        have hpa : p = aid := (Option.some.inj hp2).symm
        refine ⟨moveF aid bid gpid (some gpid) A.children_node_ids A,
          List.mem_map_of_mem _ hAmem, ?_, ?_⟩
        · rw [moveF_node_id, hAid, hpa]
        · rw [moveF_at_aid hAid]
          show n2.node_id ∈ [bid]
          rw [hn2id, h2]
          exact List.mem_singleton.mpr rfl
      · by_cases h3 : y.node_id ∈ A.children_node_ids
        · rw [← hFy, moveF_at_cs h1 h2 h3] at hp
          have hp2 : (some bid : Option String) = some p := hp
          have hpb : p = bid := (Option.some.inj hp2).symm
          refine ⟨moveF aid bid gpid (some gpid) A.children_node_ids B,
            List.mem_map_of_mem _ hBmem, ?_, ?_⟩
          · rw [moveF_node_id, hBid, hpb]
          · have hBne1 : B.node_id ≠ aid := by
              rw [hBid]
              exact fun he => haidbid he.symm
            rw [moveF_at_bid hBne1 hBid]
            show n2.node_id ∈ A.children_node_ids
            rw [hn2id]
            exact h3
        · rw [← hFy, moveF_par h1 h2 h3] at hp
          obtain ⟨m, hm, hmid, hmch⟩ := hcons.1 y hy p hp
          have hmaid : m.node_id ≠ aid := by
            intro he
            have hmA : m = A := nodup_id_inj hnd hm hAmem (by rw [he, hAid])
            rw [hmA] at hmch
            exact h3 hmch
          have hmbid : m.node_id ≠ bid := by
            intro he
            have hmB : m = B := nodup_id_inj hnd hm hBmem (by rw [he, hBid])
            rw [hmB, hBch] at hmch
            exact h1 (List.mem_singleton.mp hmch)
          refine ⟨moveF aid bid gpid (some gpid) A.children_node_ids m,
            List.mem_map_of_mem _ hm, ?_, ?_⟩
          · rw [moveF_node_id, hmid]
          · by_cases hmc : m.node_id ∈ A.children_node_ids
            · rw [moveF_at_cs hmaid hmbid hmc]
              show n2.node_id ∈ m.children_node_ids
              rw [hn2id]
              exact hmch
            · by_cases hmg : m.node_id = gpid
              · rw [moveF_at_gpid hmaid hmbid hmc hmg]
                show n2.node_id ∈ replaceInList bid aid m.children_node_ids
                rw [hn2id]
                exact mem_replaceInList_of_ne hmch h2
              · rw [moveF_other hmaid hmbid hmc hmg]
                rw [hn2id]
                exact hmch
  · intro m2 hm2 c hc
    obtain ⟨y, hy, hFy⟩ := List.mem_map.mp hm2
    have hm2id : m2.node_id = y.node_id := by rw [← hFy, moveF_node_id]
    by_cases h1 : y.node_id = aid
    · rw [← hFy, moveF_at_aid h1] at hc
      have hc2 : c ∈ [bid] := hc
      have hcb : c = bid := List.mem_singleton.mp hc2
      refine ⟨moveF aid bid gpid (some gpid) A.children_node_ids B,
        List.mem_map_of_mem _ hBmem, ?_, ?_⟩
      · rw [moveF_node_id, hBid, hcb]
      · have hBne1 : B.node_id ≠ aid := by
          rw [hBid]
          exact fun he => haidbid he.symm
        rw [moveF_at_bid hBne1 hBid]
        show some aid = some m2.node_id
        rw [hm2id, h1]
    · by_cases h2 : y.node_id = bid
      · rw [← hFy, moveF_at_bid h1 h2] at hc
        have hc2 : c ∈ A.children_node_ids := hc
        obtain ⟨C, hCmem, hCid, hCpar⟩ := child_spec hcons hAmem hc2
        have hCne1 : C.node_id ≠ aid := by
          rw [hCid]
          intro he
          rw [he] at hc2
          exact hcs_aid hc2
        have hCne2 : C.node_id ≠ bid := by
          rw [hCid]
          intro he
          rw [he] at hc2
          exact hcs_bid hc2
        have hCcs : C.node_id ∈ A.children_node_ids := by
          rw [hCid]
          exact hc2
        refine ⟨moveF aid bid gpid (some gpid) A.children_node_ids C,
          List.mem_map_of_mem _ hCmem, ?_, ?_⟩
        · rw [moveF_node_id, hCid]
        · rw [moveF_at_cs hCne1 hCne2 hCcs]
          show some bid = some m2.node_id
          rw [hm2id, h2]
      · by_cases h3 : y.node_id ∈ A.children_node_ids
        · rw [← hFy, moveF_at_cs h1 h2 h3] at hc
          have hc2 : c ∈ y.children_node_ids := hc
          obtain ⟨n, hn, hnid, hnpar⟩ := hcons.2 y hy c hc2
          have hnaid : n.node_id ≠ aid := by
            intro he
            have hnA : n = A := nodup_id_inj hnd hn hAmem (by rw [he, hAid])
            rw [hnA, hpar] at hnpar
            have hby : bid = y.node_id := Option.some.inj hnpar
            rw [← hby] at h3
            exact hcs_bid h3
          have hnbid : n.node_id ≠ bid := by
            intro he
            have hnB : n = B := nodup_id_inj hnd hn hBmem (by rw [he, hBid])
            rw [hnB, hgp] at hnpar
            have hgy : gpid = y.node_id := Option.some.inj hnpar
            rw [← hgy] at h3
            exact hgpcs h3
          have hncs : n.node_id ∉ A.children_node_ids := by
            intro hmem
            have hpn := hchild n hn hmem
            rw [hpn] at hnpar
            have hay : aid = y.node_id := Option.some.inj hnpar
            exact h1 hay.symm
          refine ⟨moveF aid bid gpid (some gpid) A.children_node_ids n,
            List.mem_map_of_mem _ hn, ?_, ?_⟩
          · rw [moveF_node_id, hnid]
          · rw [moveF_par hnaid hnbid hncs, hnpar, hm2id]
        · by_cases h4 : y.node_id = gpid
          · have hyG : y = G := nodup_id_inj hnd hy hGmem (by rw [h4, hGid])
            rw [← hFy, moveF_at_gpid h1 h2 h3 h4] at hc
            have hc2 : c ∈ replaceInList bid aid y.children_node_ids := hc
            rcases mem_replaceInList_elim hc2 with hca | hcp
            · refine ⟨moveF aid bid gpid (some gpid) A.children_node_ids A,
                List.mem_map_of_mem _ hAmem, ?_, ?_⟩
              · rw [moveF_node_id, hAid, hca]
              · rw [moveF_at_aid hAid]
                show some gpid = some m2.node_id
                rw [hm2id, h4]
            · obtain ⟨hcl, hcnb⟩ := hcp
              obtain ⟨n, hn, hnid, hnpar⟩ := hcons.2 y hy c hcl
              have hnaid : n.node_id ≠ aid := by
                rw [hnid]
                intro he
                rw [hyG] at hcl
                rw [he] at hcl
                exact haidG hcl
              have hnbid : n.node_id ≠ bid := by
                rw [hnid]
                exact hcnb
              have hncs : n.node_id ∉ A.children_node_ids := by
                intro hmem
                have hpn := hchild n hn hmem
                rw [hpn] at hnpar
                have hay : aid = y.node_id := Option.some.inj hnpar
                rw [← hay] at h4
                exact hgpaid h4.symm
              refine ⟨moveF aid bid gpid (some gpid) A.children_node_ids n,
                List.mem_map_of_mem _ hn, ?_, ?_⟩
              · rw [moveF_node_id, hnid]
              · rw [moveF_par hnaid hnbid hncs, hnpar, hm2id]
          · rw [← hFy, moveF_ch h1 h2 h4] at hc
            obtain ⟨n, hn, hnid, hnpar⟩ := hcons.2 y hy c hc
            have hnaid : n.node_id ≠ aid := by
              intro he
              have hnA : n = A := nodup_id_inj hnd hn hAmem (by rw [he, hAid])
              rw [hnA, hpar] at hnpar
              have hby : bid = y.node_id := Option.some.inj hnpar
              exact h2 hby.symm
            have hnbid : n.node_id ≠ bid := by
              intro he
              have hnB : n = B := nodup_id_inj hnd hn hBmem (by rw [he, hBid])
              rw [hnB, hgp] at hnpar
              have hgy : gpid = y.node_id := Option.some.inj hnpar
              exact h4 hgy.symm
            have hncs : n.node_id ∉ A.children_node_ids := by
              intro hmem
              have hpn := hchild n hn hmem
              rw [hpn] at hnpar
              have hay : aid = y.node_id := Option.some.inj hnpar
              exact h1 hay.symm
            refine ⟨moveF aid bid gpid (some gpid) A.children_node_ids n,
              List.mem_map_of_mem _ hn, ?_, ?_⟩
            · rw [moveF_node_id, hnid]
            · rw [moveF_par hnaid hnbid hncs, hnpar, hm2id]

theorem consistentN_move_root (g : SessionActionsGraph) (hwf : WF g)
    {aid bid : String} {A B : ActionNode}
    (hA : getNode g.nodes aid = some A)
    (hB : getNode g.nodes bid = some B)
    (hpar : A.parent_node_id = some bid)
    (hBch : B.children_node_ids = [aid])
    (hgp : B.parent_node_id = none) :
    ConsistentN (g.nodes.map (moveF aid bid bid none A.children_node_ids)) := by
  obtain ⟨hAmem, hAid⟩ := getNode_isSome_mem hA
  obtain ⟨hBmem, hBid⟩ := getNode_isSome_mem hB
  have hnd : (g.nodes.map (fun x => x.node_id)).Nodup := wf_nodupIds hwf
  have hcons := wf_consistent hwf
  have haidbid : aid ≠ bid := by
    intro he
    exact wf_no_self_parent hwf hAmem (by rw [hpar, hAid, he])
  have hcs_aid : aid ∉ A.children_node_ids := by
    have h := wf_not_self_child hwf hAmem
    rwa [hAid] at h
  have hcs_bid : bid ∉ A.children_node_ids := wf_parent_not_child hwf hAmem hpar
  have hchild : ∀ n ∈ g.nodes, n.node_id ∈ A.children_node_ids →
      n.parent_node_id = some aid := by
    intro n hn hmem
    obtain ⟨C, hCmem, hCid, hCpar⟩ := child_spec hcons hAmem hmem
    have hCn : C = n := nodup_id_inj hnd hCmem hn hCid
    rw [hCn, hAid] at hCpar
    exact hCpar
  constructor
  · intro n2 hn2 p hp
    obtain ⟨y, hy, hFy⟩ := List.mem_map.mp hn2
    have hn2id : n2.node_id = y.node_id := by rw [← hFy, moveF_node_id]
    by_cases h1 : y.node_id = aid
    · rw [← hFy, moveF_at_aid h1] at hp
      have hp2 : (none : Option String) = some p := hp
      exact Option.noConfusion hp2
    · by_cases h2 : y.node_id = bid
      · rw [← hFy, moveF_at_bid h1 h2] at hp
        have hp2 : (some aid : Option String) = some p := hp
        have hpa : p = aid := (Option.some.inj hp2).symm
        refine ⟨moveF aid bid bid none A.children_node_ids A,
          List.mem_map_of_mem _ hAmem, ?_, ?_⟩
        · rw [moveF_node_id, hAid, hpa]
        · rw [moveF_at_aid hAid]
          show n2.node_id ∈ [bid]
          rw [hn2id, h2]
          exact List.mem_singleton.mpr rfl
      · by_cases h3 : y.node_id ∈ A.children_node_ids
        · rw [← hFy, moveF_at_cs h1 h2 h3] at hp
          have hp2 : (some bid : Option String) = some p := hp
          have hpb : p = bid := (Option.some.inj hp2).symm
          refine ⟨moveF aid bid bid none A.children_node_ids B,
            List.mem_map_of_mem _ hBmem, ?_, ?_⟩
          · rw [moveF_node_id, hBid, hpb]
          · have hBne1 : B.node_id ≠ aid := by
              rw [hBid]
              exact fun he => haidbid he.symm
            rw [moveF_at_bid hBne1 hBid]
            show n2.node_id ∈ A.children_node_ids
            rw [hn2id]
            exact h3
        · rw [← hFy, moveF_par h1 h2 h3] at hp
          obtain ⟨m, hm, hmid, hmch⟩ := hcons.1 y hy p hp
          have hmaid : m.node_id ≠ aid := by
            intro he
            have hmA : m = A := nodup_id_inj hnd hm hAmem (by rw [he, hAid])
            rw [hmA] at hmch
            exact h3 hmch
          have hmbid : m.node_id ≠ bid := by
            intro he
            have hmB : m = B := nodup_id_inj hnd hm hBmem (by rw [he, hBid])
            rw [hmB, hBch] at hmch
            exact h1 (List.mem_singleton.mp hmch)
          refine ⟨moveF aid bid bid none A.children_node_ids m,
            List.mem_map_of_mem _ hm, ?_, ?_⟩
          · rw [moveF_node_id, hmid]
          · by_cases hmc : m.node_id ∈ A.children_node_ids
            · rw [moveF_at_cs hmaid hmbid hmc]
              show n2.node_id ∈ m.children_node_ids
              rw [hn2id]
              exact hmch
            · rw [moveF_other hmaid hmbid hmc hmbid]
              rw [hn2id]
              exact hmch
  · intro m2 hm2 c hc
    obtain ⟨y, hy, hFy⟩ := List.mem_map.mp hm2
    have hm2id : m2.node_id = y.node_id := by rw [← hFy, moveF_node_id]
    by_cases h1 : y.node_id = aid
    · rw [← hFy, moveF_at_aid h1] at hc
      have hc2 : c ∈ [bid] := hc
      have hcb : c = bid := List.mem_singleton.mp hc2
      refine ⟨moveF aid bid bid none A.children_node_ids B,
        List.mem_map_of_mem _ hBmem, ?_, ?_⟩
      · rw [moveF_node_id, hBid, hcb]
      · have hBne1 : B.node_id ≠ aid := by
          rw [hBid]
          exact fun he => haidbid he.symm
        rw [moveF_at_bid hBne1 hBid]
        show some aid = some m2.node_id
        rw [hm2id, h1]
    · by_cases h2 : y.node_id = bid
      · rw [← hFy, moveF_at_bid h1 h2] at hc
        have hc2 : c ∈ A.children_node_ids := hc
        obtain ⟨C, hCmem, hCid, hCpar⟩ := child_spec hcons hAmem hc2
        have hCne1 : C.node_id ≠ aid := by
          rw [hCid]
          intro he
          rw [he] at hc2
          exact hcs_aid hc2
        have hCne2 : C.node_id ≠ bid := by
          rw [hCid]
          intro he
          rw [he] at hc2
          exact hcs_bid hc2
        have hCcs : C.node_id ∈ A.children_node_ids := by
          rw [hCid]
          exact hc2
        refine ⟨moveF aid bid bid none A.children_node_ids C,
          List.mem_map_of_mem _ hCmem, ?_, ?_⟩
        · rw [moveF_node_id, hCid]
        · rw [moveF_at_cs hCne1 hCne2 hCcs]
          show some bid = some m2.node_id
          rw [hm2id, h2]
      · by_cases h3 : y.node_id ∈ A.children_node_ids
        · rw [← hFy, moveF_at_cs h1 h2 h3] at hc
          have hc2 : c ∈ y.children_node_ids := hc
          obtain ⟨n, hn, hnid, hnpar⟩ := hcons.2 y hy c hc2
          have hnaid : n.node_id ≠ aid := by
            intro he
            have hnA : n = A := nodup_id_inj hnd hn hAmem (by rw [he, hAid])
            rw [hnA, hpar] at hnpar
            have hby : bid = y.node_id := Option.some.inj hnpar
            rw [← hby] at h3
            exact hcs_bid h3
          have hnbid : n.node_id ≠ bid := by
            intro he
            have hnB : n = B := nodup_id_inj hnd hn hBmem (by rw [he, hBid])
            rw [hnB, hgp] at hnpar
            exact Option.noConfusion hnpar
          have hncs : n.node_id ∉ A.children_node_ids := by
            intro hmem
            have hpn := hchild n hn hmem
            rw [hpn] at hnpar
            have hay : aid = y.node_id := Option.some.inj hnpar
            exact h1 hay.symm
          refine ⟨moveF aid bid bid none A.children_node_ids n,
            List.mem_map_of_mem _ hn, ?_, ?_⟩
          · rw [moveF_node_id, hnid]
          · rw [moveF_par hnaid hnbid hncs, hnpar, hm2id]
        · rw [← hFy, moveF_ch h1 h2 h2] at hc
          obtain ⟨n, hn, hnid, hnpar⟩ := hcons.2 y hy c hc
          have hnaid : n.node_id ≠ aid := by
            intro he
            have hnA : n = A := nodup_id_inj hnd hn hAmem (by rw [he, hAid])
            rw [hnA, hpar] at hnpar
            have hby : bid = y.node_id := Option.some.inj hnpar
            exact h2 hby.symm
          have hnbid : n.node_id ≠ bid := by
            intro he
            have hnB : n = B := nodup_id_inj hnd hn hBmem (by rw [he, hBid])
            rw [hnB, hgp] at hnpar
            exact Option.noConfusion hnpar
          have hncs : n.node_id ∉ A.children_node_ids := by
            intro hmem
            have hpn := hchild n hn hmem
            rw [hpn] at hnpar
            have hay : aid = y.node_id := Option.some.inj hnpar
            exact h1 hay.symm
          refine ⟨moveF aid bid bid none A.children_node_ids n,
            List.mem_map_of_mem _ hn, ?_, ?_⟩
          · rw [moveF_node_id, hnid]
          · rw [moveF_par hnaid hnbid hncs, hnpar, hm2id]

theorem canMoveActionUp_inv {g : SessionActionsGraph} {n : ActionNode}
    (h : canMoveActionUp g n = true) :
    ∃ pid B, n.parent_node_id = some pid ∧ pid ≠ "" ∧ getNode g.nodes pid = some B ∧
      B.children_node_ids.length = 1 := by
  unfold canMoveActionUp at h
  split at h
  · cases h
  · next pid hp =>
    split at h
    · cases h
    · next hpe =>
      split at h
      · cases h
      · next B hB =>
        exact ⟨pid, B, hp, hpe, hB, by simpa using h⟩

theorem consistent_moveActionUp (g : SessionActionsGraph) (hwf : WF g)
    (aid : String) : Consistent (moveActionUp g aid) := by
  cases hA : getNode g.nodes aid with
  | none =>
    have hg : moveActionUp g aid = g := by simp [moveActionUp, hA]
    rw [hg]
    exact wf_consistent hwf
  | some A =>
    by_cases hcan : canMoveActionUp g A = true
    · obtain ⟨hAmem, hAid⟩ := getNode_isSome_mem hA
      have hndg : NodupIds g := wf_nodupIds hwf
      have hcons : Consistent g := wf_consistent hwf
      obtain ⟨bid, B, hpar, hbe, hB, hlen⟩ := canMoveActionUp_inv hcan
      obtain ⟨hBmem, hBid⟩ := getNode_isSome_mem hB
      have haidB : aid ∈ B.children_node_ids := by
        obtain ⟨P, hPmem, hPid, hPch⟩ := parent_spec hcons hAmem hpar
        have hPB : P = B := nodup_id_inj hndg hPmem hBmem (by rw [hPid, hBid])
        rw [hPB] at hPch
        rwa [hAid] at hPch
      have hBch : B.children_node_ids = [aid] := by
        cases hc : B.children_node_ids with
        | nil =>
          rw [hc] at haidB
          cases haidB
        | cons x t =>
          rw [hc] at hlen haidB
          have ht : t = [] := by
            rw [List.length_cons] at hlen
            exact List.length_eq_zero.mp (Nat.succ_injective hlen)
          subst ht
          have hax : aid = x := by simpa using haidB
          rw [hax]
      have haidbid : aid ≠ bid := by
        intro he
        exact wf_no_self_parent hwf hAmem (by rw [hpar, ← he, hAid])
      have hcs_aid : aid ∉ A.children_node_ids := by
        have h2 := wf_not_self_child hwf hAmem
        rwa [hAid] at h2
      have hcs_bid : bid ∉ A.children_node_ids := wf_parent_not_child hwf hAmem hpar
      cases hgp : B.parent_node_id with
      | some gpid =>
        have hgpne : gpid ≠ "" := wf_parent_nonempty hwf hBmem hgp
        have hgpaid : gpid ≠ aid := by
          intro he
          exact wf_no_two_cycle hwf hAmem hBmem (by rw [hpar, hBid])
            (by rw [hgp, he, hAid])
        have haidgp : aid ≠ gpid := fun he => hgpaid he.symm
        have hgpbid : gpid ≠ bid := by
          intro he
          exact wf_no_self_parent hwf hBmem (by rw [hgp, he, hBid])
        have hbidgp : bid ≠ gpid := fun he => hgpbid he.symm
        have hgpcs : gpid ∉ A.children_node_ids := by
          intro hmem
          obtain ⟨C, hCmem, hCid, hCpar⟩ := child_spec hcons hAmem hmem
          exact wf_no_three_cycle hwf hBmem hCmem hAmem (by rw [hgp, hCid])
            (by rw [hCpar, hAid]) (by rw [hpar, hBid])
        obtain ⟨G, hGmem, hGid, hGchB⟩ := parent_spec hcons hBmem hgp
        have hG : getNode g.nodes gpid = some G := by
          have h2 := getNode_eq_some_of_mem hndg hGmem
          rw [hGid] at h2
          exact h2
        have hnodes1 : (moveActionUp g aid).nodes
            = upd (updEach (upd (upd g.nodes aid (fun n => { n with parent_node_id := some gpid, children_node_ids := [bid] })) bid (fun n => { n with parent_node_id := some aid, children_node_ids := A.children_node_ids })) A.children_node_ids (fun n => { n with parent_node_id := some bid })) gpid (fun n => { n with children_node_ids := replaceInList bid aid n.children_node_ids }) := by
          simp [moveActionUp, hA, hcan, hpar, hB, hgp, hgpne]
        rw [consistent_iff_nodes, hnodes1,
          move_pipeline g.nodes aid bid gpid (some gpid) A.children_node_ids
            haidbid hcs_aid haidgp hcs_bid hbidgp hgpcs]
        exact consistentN_move g hwf hA hB hpar hBch hgp hG
      | none =>
        have hnodes1 : (moveActionUp g aid).nodes
            = updEach (upd (upd g.nodes aid (fun n => { n with parent_node_id := none, children_node_ids := [bid] })) bid (fun n => { n with parent_node_id := some aid, children_node_ids := A.children_node_ids })) A.children_node_ids (fun n => { n with parent_node_id := some bid }) := by
          simp [moveActionUp, hA, hcan, hpar, hB, hgp]
        rw [consistent_iff_nodes, hnodes1,
          move_pipeline_root g.nodes aid bid none A.children_node_ids
            haidbid hcs_aid hcs_bid]
        exact consistentN_move_root g hwf hA hB hpar hBch hgp
    · have hcf : canMoveActionUp g A = false := by
        cases hcv : canMoveActionUp g A
        · rfl
        · exact absurd hcv hcan
      have hg : moveActionUp g aid = g := by simp [moveActionUp, hA, hcf]
      rw [hg]
      exact wf_consistent hwf

theorem consistent_moveActionDown (g : SessionActionsGraph) (hwf : WF g)
    (tid : String) : Consistent (moveActionDown g tid) := by
  cases hA : getNode g.nodes tid with
  | none =>
    have hg : moveActionDown g tid = g := by simp [moveActionDown, hA]
    rw [hg]
    exact wf_consistent hwf
  | some A =>
    by_cases hcan : canMoveActionDown A = true
    · obtain ⟨hAmem, hAid⟩ := getNode_isSome_mem hA
      have hndg : NodupIds g := wf_nodupIds hwf
      have hcons : Consistent g := wf_consistent hwf
      have hlen : A.children_node_ids.length = 1 := by
        unfold canMoveActionDown at hcan
        simpa using hcan
      obtain ⟨cid, hch⟩ : ∃ cid, A.children_node_ids = [cid] := by
        cases hc : A.children_node_ids with
        | nil =>
          rw [hc] at hlen
          cases hlen
        | cons x t =>
          rw [hc] at hlen
          have ht : t = [] := by
            rw [List.length_cons] at hlen
            exact List.length_eq_zero.mp (Nat.succ_injective hlen)
          exact ⟨x, by rw [ht]⟩
      have hcidA : cid ∈ A.children_node_ids := by
        rw [hch]
        exact List.mem_singleton.mpr rfl
      obtain ⟨C, hCmem, hCid, hCpar⟩ := child_spec hcons hAmem hcidA
      have hCparA : C.parent_node_id = some tid := by rw [hCpar, hAid]
      have hC : getNode g.nodes cid = some C := by
        have h2 := getNode_eq_some_of_mem hndg hCmem
        rw [hCid] at h2
        exact h2
      have hcidtid : cid ≠ tid := by
        intro he
        have hCA : C = A := nodup_id_inj hndg hCmem hAmem (by rw [hCid, he, hAid])
        rw [hCA] at hCparA
        exact wf_no_self_parent hwf hAmem (by rw [hCparA, hAid])
      have hccs : cid ∉ C.children_node_ids := by
        have h2 := wf_not_self_child hwf hCmem
        rwa [hCid] at h2
      have htcs : tid ∉ C.children_node_ids := wf_parent_not_child hwf hCmem hCparA
      cases hap : A.parent_node_id with
      | some apid =>
        have hapne : apid ≠ "" := wf_parent_nonempty hwf hAmem hap
        have hcidap : cid ≠ apid := by
          intro he
          exact wf_no_two_cycle hwf hAmem hCmem (by rw [hap, ← he, hCid])
            (by rw [hCparA, hAid])
        have htidap : tid ≠ apid := by
          intro he
          exact wf_no_self_parent hwf hAmem (by rw [hap, ← he, hAid])
        have hapcs : apid ∉ C.children_node_ids := by
          intro hmem
          obtain ⟨D, hDmem, hDid, hDpar⟩ := child_spec hcons hCmem hmem
          exact wf_no_three_cycle hwf hAmem hDmem hCmem (by rw [hap, hDid])
            hDpar (by rw [hCparA, hAid])
        obtain ⟨P, hPmem, hPid, hPch⟩ := parent_spec hcons hAmem hap
        have hAP : getNode g.nodes apid = some P := by
          have h2 := getNode_eq_some_of_mem hndg hPmem
          rw [hPid] at h2
          exact h2
        have hnodes1 : (moveActionDown g tid).nodes
            = upd (updEach (upd (upd g.nodes cid (fun n => { n with parent_node_id := some apid, children_node_ids := [tid] })) tid (fun n => { n with parent_node_id := some cid, children_node_ids := C.children_node_ids })) C.children_node_ids (fun n => { n with parent_node_id := some tid })) apid (fun n => { n with children_node_ids := replaceInList tid cid n.children_node_ids }) := by
          simp [moveActionDown, hA, hcan, hch, hC, hap, hapne]
        rw [consistent_iff_nodes, hnodes1,
          move_pipeline g.nodes cid tid apid (some apid) C.children_node_ids
            hcidtid hccs hcidap htcs htidap hapcs]
        exact consistentN_move g hwf hC hA hCparA hch hap hAP
      | none =>
        have hnodes1 : (moveActionDown g tid).nodes
            = updEach (upd (upd g.nodes cid (fun n => { n with parent_node_id := none, children_node_ids := [tid] })) tid (fun n => { n with parent_node_id := some cid, children_node_ids := C.children_node_ids })) C.children_node_ids (fun n => { n with parent_node_id := some tid }) := by
          simp [moveActionDown, hA, hcan, hch, hC, hap]
        rw [consistent_iff_nodes, hnodes1,
          move_pipeline_root g.nodes cid tid none C.children_node_ids
            hcidtid hccs htcs]
        exact consistentN_move_root g hwf hC hA hCparA hch hap
    · have hcf : canMoveActionDown A = false := by
        cases hcv : canMoveActionDown A
        · rfl
        · exact absurd hcv hcan
      have hg : moveActionDown g tid = g := by simp [moveActionDown, hA, hcf]
      rw [hg]
      exact wf_consistent hwf

theorem removeOnlyF_node_id (tid : String) (cs : List String) (pp : Option String)
    (pid : String) (n : ActionNode) :
    (removeOnlyF tid cs pp pid n).node_id = n.node_id := by
  unfold removeOnlyF
  by_cases h1 : n.node_id ∈ cs
  · rw [if_pos h1]
  · by_cases h2 : n.node_id = pid
    · rw [if_neg h1, if_pos h2]
    · rw [if_neg h1, if_neg h2]

theorem removeOnlyF_at_cs {tid : String} {cs : List String} {pp : Option String}
    {pid : String} {n : ActionNode} (h : n.node_id ∈ cs) :
    removeOnlyF tid cs pp pid n = { n with parent_node_id := pp } := by
  unfold removeOnlyF
  rw [if_pos h]

theorem removeOnlyF_at_pid {tid : String} {cs : List String} {pp : Option String}
    {pid : String} {n : ActionNode} (h1 : n.node_id ∉ cs) (h : n.node_id = pid) :
    removeOnlyF tid cs pp pid n
      = { n with children_node_ids := spliceInList tid cs n.children_node_ids } := by
  unfold removeOnlyF
  rw [if_neg h1, if_pos h]

theorem removeOnlyF_other {tid : String} {cs : List String} {pp : Option String}
    {pid : String} {n : ActionNode} (h1 : n.node_id ∉ cs) (h2 : n.node_id ≠ pid) :
    removeOnlyF tid cs pp pid n = n := by
  unfold removeOnlyF
  rw [if_neg h1, if_neg h2]

theorem removeOnlyF_par {tid : String} {cs : List String} {pp : Option String}
    {pid : String} {n : ActionNode} (h1 : n.node_id ∉ cs) :
    (removeOnlyF tid cs pp pid n).parent_node_id = n.parent_node_id := by
  unfold removeOnlyF
  rw [if_neg h1]
  by_cases h2 : n.node_id = pid
  · rw [if_pos h2]
  · rw [if_neg h2]

theorem removeOnly_pipeline (s : List ActionNode) (tid pid : String)
    (cs : List String) (hpc : pid ∉ cs) :
    upd (updEach s cs (fun n => { n with parent_node_id := some pid })) pid (fun n => { n with children_node_ids := spliceInList tid cs n.children_node_ids })
      = s.map (removeOnlyF tid cs (some pid) pid) := by
  have hue : ∀ s2 : List ActionNode, updEach s2 cs (fun n => { n with parent_node_id := some pid }) = s2.map (fun n => if n.node_id ∈ cs then { n with parent_node_id := some pid } else n) :=
    fun s2 => updEach_eq_map (fun n => rfl) (fun n => rfl)
  rw [hue]
  unfold upd
  simp only [List.map_map]
  apply List.map_congr_left
  intro n _
  simp only [Function.comp_apply]
  by_cases h1 : n.node_id ∈ cs
  · have hc2 : ¬(n.node_id = pid) := by
      intro he
      rw [he] at h1
      exact hpc h1
    rw [if_pos h1]
    simp only []
    rw [if_neg hc2, removeOnlyF_at_cs h1]
  · rw [if_neg h1]
    by_cases h2 : n.node_id = pid
    · rw [if_pos h2, removeOnlyF_at_pid h1 h2]
    · rw [if_neg h2, removeOnlyF_other h1 h2]

theorem removeOnly_pipeline_root (s : List ActionNode) (tid : String)
    (cs : List String) (hne : ∀ n ∈ s, n.node_id ≠ "") :
    updEach s cs (fun n => { n with parent_node_id := none })
      = s.map (removeOnlyF tid cs none ("")) := by
  have hue : ∀ s2 : List ActionNode, updEach s2 cs (fun n => { n with parent_node_id := none }) = s2.map (fun n => if n.node_id ∈ cs then { n with parent_node_id := none } else n) :=
    fun s2 => updEach_eq_map (fun n => rfl) (fun n => rfl)
  rw [hue]
  apply List.map_congr_left
  intro n hn
  by_cases h1 : n.node_id ∈ cs
  · rw [if_pos h1, removeOnlyF_at_cs h1]
  · rw [if_neg h1, removeOnlyF_other h1 (hne n hn)]

theorem consistentN_removeOnly (g : SessionActionsGraph) (hwf : WF g)
    {tid pid : String} {A : ActionNode}
    (hA : getNode g.nodes tid = some A)
    (hpar : A.parent_node_id = some pid) :
    ConsistentN ((g.nodes.map (removeOnlyF tid A.children_node_ids (some pid) pid)).filter (fun n => n.node_id ≠ tid)) := by
  obtain ⟨hAmem, hAid⟩ := getNode_isSome_mem hA
  have hnd : (g.nodes.map (fun x => x.node_id)).Nodup := wf_nodupIds hwf
  have hcons := wf_consistent hwf
  obtain ⟨P, hPmem, hPid, hPchA⟩ := parent_spec hcons hAmem hpar
  have hPch : tid ∈ P.children_node_ids := by
    rw [← hAid]
    exact hPchA
  have htidpid : tid ≠ pid := by
    intro he
    exact wf_no_self_parent hwf hAmem (by rw [hpar, ← he, hAid])
  have htidcs : tid ∉ A.children_node_ids := by
    have h2 := wf_not_self_child hwf hAmem
    rwa [hAid] at h2
  have hpidcs : pid ∉ A.children_node_ids := wf_parent_not_child hwf hAmem hpar
  have hchild : ∀ n ∈ g.nodes, n.node_id ∈ A.children_node_ids →
      n.parent_node_id = some tid := by
    intro n hn hmem
    obtain ⟨C, hCmem, hCid, hCpar⟩ := child_spec hcons hAmem hmem
    have hCn : C = n := nodup_id_inj hnd hCmem hn hCid
    rw [hCn, hAid] at hCpar
    exact hCpar
  constructor
  · intro n2 hn2 p hp
    obtain ⟨hn2m, hn2f⟩ := List.mem_filter.mp hn2
    obtain ⟨y, hy, hFy⟩ := List.mem_map.mp hn2m
    have hn2id : n2.node_id = y.node_id := by rw [← hFy, removeOnlyF_node_id]
    have hytid : y.node_id ≠ tid := by
      rw [← hn2id]
      exact of_decide_eq_true hn2f
    by_cases hy1 : y.node_id ∈ A.children_node_ids
    · rw [← hFy, removeOnlyF_at_cs hy1] at hp
      have hp2 : (some pid : Option String) = some p := hp
      have hpp : p = pid := (Option.some.inj hp2).symm
      refine ⟨removeOnlyF tid A.children_node_ids (some pid) pid P, ?_, ?_, ?_⟩
      · rw [List.mem_filter]
        refine ⟨List.mem_map_of_mem _ hPmem, decide_eq_true ?_⟩
        rw [removeOnlyF_node_id, hPid]
        exact fun he => htidpid he.symm
      · rw [removeOnlyF_node_id, hPid, hpp]
      · have hPcs : P.node_id ∉ A.children_node_ids := by
          rw [hPid]
          exact hpidcs
        rw [removeOnlyF_at_pid hPcs hPid]
        show n2.node_id ∈ spliceInList tid A.children_node_ids P.children_node_ids
        rw [hn2id]
        exact mem_spliceInList_of_repl hPch hy1
    · rw [← hFy, removeOnlyF_par hy1] at hp
      obtain ⟨m, hm, hmid, hmch⟩ := hcons.1 y hy p hp
      have hmtid : m.node_id ≠ tid := by
        intro he
        have hmA : m = A := nodup_id_inj hnd hm hAmem (by rw [he, hAid])
        rw [hmA] at hmch
        exact hy1 hmch
      refine ⟨removeOnlyF tid A.children_node_ids (some pid) pid m, ?_, ?_, ?_⟩
      · rw [List.mem_filter]
        refine ⟨List.mem_map_of_mem _ hm, decide_eq_true ?_⟩
        rw [removeOnlyF_node_id]
        exact hmtid
      · rw [removeOnlyF_node_id, hmid]
      · by_cases hmc : m.node_id ∈ A.children_node_ids
        · rw [removeOnlyF_at_cs hmc]
          show n2.node_id ∈ m.children_node_ids
          rw [hn2id]
          exact hmch
        · by_cases hmp : m.node_id = pid
          · rw [removeOnlyF_at_pid hmc hmp]
            show n2.node_id ∈ spliceInList tid A.children_node_ids m.children_node_ids
            rw [hn2id]
            exact mem_spliceInList_of_ne hmch hytid
          · rw [removeOnlyF_other hmc hmp]
            rw [hn2id]
            exact hmch
  · intro m2 hm2 c hc
    obtain ⟨hm2m, hm2f⟩ := List.mem_filter.mp hm2
    obtain ⟨y, hy, hFy⟩ := List.mem_map.mp hm2m
    have hm2id : m2.node_id = y.node_id := by rw [← hFy, removeOnlyF_node_id]
    have hytid : y.node_id ≠ tid := by
      rw [← hm2id]
      exact of_decide_eq_true hm2f
    by_cases hy1 : y.node_id ∈ A.children_node_ids
    · rw [← hFy, removeOnlyF_at_cs hy1] at hc
      have hc2 : c ∈ y.children_node_ids := hc
      obtain ⟨n, hn, hnid, hnpar⟩ := hcons.2 y hy c hc2
      have hntid : n.node_id ≠ tid := by
        intro he
        have hnA : n = A := nodup_id_inj hnd hn hAmem (by rw [he, hAid])
        rw [hnA, hpar] at hnpar
        have hpy : pid = y.node_id := Option.some.inj hnpar
        rw [← hpy] at hy1
        exact hpidcs hy1
      have hncs : n.node_id ∉ A.children_node_ids := by
        intro hmem
        have hpn := hchild n hn hmem
        rw [hpn] at hnpar
        have hty : tid = y.node_id := Option.some.inj hnpar
        exact hytid hty.symm
      refine ⟨removeOnlyF tid A.children_node_ids (some pid) pid n, ?_, ?_, ?_⟩
      · rw [List.mem_filter]
        refine ⟨List.mem_map_of_mem _ hn, decide_eq_true ?_⟩
        rw [removeOnlyF_node_id]
        exact hntid
      · rw [removeOnlyF_node_id, hnid]
      · rw [removeOnlyF_par hncs, hnpar, hm2id]
    · by_cases hy2 : y.node_id = pid
      · rw [← hFy, removeOnlyF_at_pid hy1 hy2] at hc
        have hc2 : c ∈ spliceInList tid A.children_node_ids y.children_node_ids := hc
        rcases mem_spliceInList_elim hc2 with hcc | hcp
        · obtain ⟨n, hn, hnid, hnpar⟩ := child_spec hcons hAmem hcc
          have hncs : n.node_id ∈ A.children_node_ids := by
            rw [hnid]
            exact hcc
          refine ⟨removeOnlyF tid A.children_node_ids (some pid) pid n, ?_, ?_, ?_⟩
          · rw [List.mem_filter]
            refine ⟨List.mem_map_of_mem _ hn, decide_eq_true ?_⟩
            rw [removeOnlyF_node_id, hnid]
            intro he
            rw [he] at hcc
            exact htidcs hcc
          · rw [removeOnlyF_node_id, hnid]
          · rw [removeOnlyF_at_cs hncs]
            show some pid = some m2.node_id
            rw [hm2id, hy2]
        · obtain ⟨hcl, hcnt⟩ := hcp
          obtain ⟨n, hn, hnid, hnpar⟩ := hcons.2 y hy c hcl
          have hncs : n.node_id ∉ A.children_node_ids := by
            intro hmem
            have hpn := hchild n hn hmem
            rw [hpn] at hnpar
            have hty : tid = y.node_id := Option.some.inj hnpar
            exact hytid hty.symm
          refine ⟨removeOnlyF tid A.children_node_ids (some pid) pid n, ?_, ?_, ?_⟩
          · rw [List.mem_filter]
            refine ⟨List.mem_map_of_mem _ hn, decide_eq_true ?_⟩
            rw [removeOnlyF_node_id, hnid]
            exact hcnt
          · rw [removeOnlyF_node_id, hnid]
          · rw [removeOnlyF_par hncs, hnpar, hm2id]
      · rw [← hFy, removeOnlyF_other hy1 hy2] at hc
        obtain ⟨n, hn, hnid, hnpar⟩ := hcons.2 y hy c hc
        have hntid : n.node_id ≠ tid := by
          intro he
          have hnA : n = A := nodup_id_inj hnd hn hAmem (by rw [he, hAid])
          rw [hnA, hpar] at hnpar
          have hpy : pid = y.node_id := Option.some.inj hnpar
          exact hy2 hpy.symm
        have hncs : n.node_id ∉ A.children_node_ids := by
          intro hmem
          have hpn := hchild n hn hmem
          rw [hpn] at hnpar
          have hty : tid = y.node_id := Option.some.inj hnpar
          exact hytid hty.symm
        refine ⟨removeOnlyF tid A.children_node_ids (some pid) pid n, ?_, ?_, ?_⟩
        · rw [List.mem_filter]
          refine ⟨List.mem_map_of_mem _ hn, decide_eq_true ?_⟩
          rw [removeOnlyF_node_id]
          exact hntid
        · rw [removeOnlyF_node_id, hnid]
        · rw [removeOnlyF_par hncs, hnpar, hm2id]

theorem consistentN_removeOnly_root (g : SessionActionsGraph) (hwf : WF g)
    {tid : String} {A : ActionNode}
    (hA : getNode g.nodes tid = some A)
    (hpar : A.parent_node_id = none) :
    ConsistentN ((g.nodes.map (removeOnlyF tid A.children_node_ids none (""))).filter (fun n => n.node_id ≠ tid)) := by
  obtain ⟨hAmem, hAid⟩ := getNode_isSome_mem hA
  have hnd : (g.nodes.map (fun x => x.node_id)).Nodup := wf_nodupIds hwf
  have hcons := wf_consistent hwf
  have htidcs : tid ∉ A.children_node_ids := by
    have h2 := wf_not_self_child hwf hAmem
    rwa [hAid] at h2
  have hchild : ∀ n ∈ g.nodes, n.node_id ∈ A.children_node_ids →
      n.parent_node_id = some tid := by
    intro n hn hmem
    obtain ⟨C, hCmem, hCid, hCpar⟩ := child_spec hcons hAmem hmem
    have hCn : C = n := nodup_id_inj hnd hCmem hn hCid
    rw [hCn, hAid] at hCpar
    exact hCpar
  constructor
  · intro n2 hn2 p hp
    obtain ⟨hn2m, hn2f⟩ := List.mem_filter.mp hn2
    obtain ⟨y, hy, hFy⟩ := List.mem_map.mp hn2m
    have hn2id : n2.node_id = y.node_id := by rw [← hFy, removeOnlyF_node_id]
    have hytid : y.node_id ≠ tid := by
      rw [← hn2id]
      exact of_decide_eq_true hn2f
    by_cases hy1 : y.node_id ∈ A.children_node_ids
    · rw [← hFy, removeOnlyF_at_cs hy1] at hp
      have hp2 : (none : Option String) = some p := hp
      exact Option.noConfusion hp2
    · rw [← hFy, removeOnlyF_par hy1] at hp
      obtain ⟨m, hm, hmid, hmch⟩ := hcons.1 y hy p hp
      have hmtid : m.node_id ≠ tid := by
        intro he
        have hmA : m = A := nodup_id_inj hnd hm hAmem (by rw [he, hAid])
        rw [hmA] at hmch
        exact hy1 hmch
      refine ⟨removeOnlyF tid A.children_node_ids none ("") m, ?_, ?_, ?_⟩
      · rw [List.mem_filter]
        refine ⟨List.mem_map_of_mem _ hm, decide_eq_true ?_⟩
        rw [removeOnlyF_node_id]
        exact hmtid
      · rw [removeOnlyF_node_id, hmid]
      · by_cases hmc : m.node_id ∈ A.children_node_ids
        · rw [removeOnlyF_at_cs hmc]
          show n2.node_id ∈ m.children_node_ids
          rw [hn2id]
          exact hmch
        · rw [removeOnlyF_other hmc (wf_noEmptyId hwf m hm)]
          rw [hn2id]
          exact hmch
  · intro m2 hm2 c hc
    obtain ⟨hm2m, hm2f⟩ := List.mem_filter.mp hm2
    obtain ⟨y, hy, hFy⟩ := List.mem_map.mp hm2m
    have hm2id : m2.node_id = y.node_id := by rw [← hFy, removeOnlyF_node_id]
    have hytid : y.node_id ≠ tid := by
      rw [← hm2id]
      exact of_decide_eq_true hm2f
    by_cases hy1 : y.node_id ∈ A.children_node_ids
    · rw [← hFy, removeOnlyF_at_cs hy1] at hc
      have hc2 : c ∈ y.children_node_ids := hc
      obtain ⟨n, hn, hnid, hnpar⟩ := hcons.2 y hy c hc2
      have hntid : n.node_id ≠ tid := by
        intro he
        have hnA : n = A := nodup_id_inj hnd hn hAmem (by rw [he, hAid])
        rw [hnA, hpar] at hnpar
        exact Option.noConfusion hnpar
      have hncs : n.node_id ∉ A.children_node_ids := by
        intro hmem
        have hpn := hchild n hn hmem
        rw [hpn] at hnpar
        have hty : tid = y.node_id := Option.some.inj hnpar
        exact hytid hty.symm
      refine ⟨removeOnlyF tid A.children_node_ids none ("") n, ?_, ?_, ?_⟩
      · rw [List.mem_filter]
        refine ⟨List.mem_map_of_mem _ hn, decide_eq_true ?_⟩
        rw [removeOnlyF_node_id]
        exact hntid
      · rw [removeOnlyF_node_id, hnid]
      · rw [removeOnlyF_par hncs, hnpar, hm2id]
    · rw [← hFy, removeOnlyF_other hy1 (wf_noEmptyId hwf y hy)] at hc
      obtain ⟨n, hn, hnid, hnpar⟩ := hcons.2 y hy c hc
      have hntid : n.node_id ≠ tid := by
        intro he
        have hnA : n = A := nodup_id_inj hnd hn hAmem (by rw [he, hAid])
        rw [hnA, hpar] at hnpar
        exact Option.noConfusion hnpar
      have hncs : n.node_id ∉ A.children_node_ids := by
        intro hmem
        have hpn := hchild n hn hmem
        rw [hpn] at hnpar
        have hty : tid = y.node_id := Option.some.inj hnpar
        exact hytid hty.symm
      refine ⟨removeOnlyF tid A.children_node_ids none ("") n, ?_, ?_, ?_⟩
      · rw [List.mem_filter]
        refine ⟨List.mem_map_of_mem _ hn, decide_eq_true ?_⟩
        rw [removeOnlyF_node_id]
        exact hntid
      · rw [removeOnlyF_node_id, hnid]
      · rw [removeOnlyF_par hncs, hnpar, hm2id]

theorem consistent_removeActionOnly (g : SessionActionsGraph) (hwf : WF g)
    (tid : String) : Consistent (removeActionOnly g tid) := by
  cases hA : getNode g.nodes tid with
  | none =>
    have hg : removeActionOnly g tid = g := by simp [removeActionOnly, hA]
    rw [hg]
    exact wf_consistent hwf
  | some A =>
    obtain ⟨hAmem, hAid⟩ := getNode_isSome_mem hA
    cases hpar : A.parent_node_id with
    | some pid =>
      have hpne : pid ≠ "" := wf_parent_nonempty hwf hAmem hpar
      have hpidcs : pid ∉ A.children_node_ids := wf_parent_not_child hwf hAmem hpar
      have hnodes : (removeActionOnly g tid).nodes
          = (upd (updEach g.nodes A.children_node_ids (fun n => { n with parent_node_id := some pid })) pid (fun n => { n with children_node_ids := spliceInList tid A.children_node_ids n.children_node_ids })).filter (fun n => n.node_id ≠ tid) := by
        simp [removeActionOnly, hA, hpar, hpne]
      rw [consistent_iff_nodes, hnodes,
        removeOnly_pipeline g.nodes tid pid A.children_node_ids hpidcs]
      exact consistentN_removeOnly g hwf hA hpar
    | none =>
      have hnodes : (removeActionOnly g tid).nodes
          = (updEach g.nodes A.children_node_ids (fun n => { n with parent_node_id := none })).filter (fun n => n.node_id ≠ tid) := by
        simp [removeActionOnly, hA, hpar]
      rw [consistent_iff_nodes, hnodes,
        removeOnly_pipeline_root g.nodes tid A.children_node_ids
          (fun n hn => wf_noEmptyId hwf n hn)]
      exact consistentN_removeOnly_root g hwf hA hpar

theorem bfsCollect_total (nodes : List ActionNode) (queue : List String) :
    bfsCollect nodes (bfsFuel nodes queue) queue [] = some (collectIds nodes queue) := by
  have h1 : (bfsCollect nodes (bfsFuel nodes queue) queue []).isSome = true := by
    apply bfsCollect_isSome
    have h2 : childBudget nodes [] ≤ (nodes.flatMap (fun n => n.children_node_ids)).length := by
      unfold childBudget
      exact (sublist_flatMap _ (List.filter_sublist _)).length_le
    unfold bfsFuel
    omega
  unfold collectIds
  cases hres : bfsCollect nodes (bfsFuel nodes queue) queue [] with
  | none =>
    rw [hres] at h1
    cases h1
  | some s => rfl

theorem mem_filter_not_del {s : List ActionNode} {dels : List String}
    {n : ActionNode} :
    n ∈ s.filter (fun m => !(dels.contains m.node_id)) ↔
      n ∈ s ∧ n.node_id ∉ dels := by
  rw [List.mem_filter]
  simp

theorem collect_spec (nodes : List ActionNode) (queue dels : List String)
    (hdel : bfsCollect nodes (bfsFuel nodes queue) queue [] = some dels) :
    (∀ q ∈ queue, q ∈ dels) ∧
    (∀ x ∈ dels,
      (∀ n, getNode nodes x = some n → ∀ c ∈ n.children_node_ids, c ∈ dels) ∧
      (x ∈ queue ∨ ∃ d nd, d ∈ dels ∧ getNode nodes d = some nd ∧
        x ∈ nd.children_node_ids)) := by
  obtain ⟨hq, hproc, hclos⟩ := bfsCollect_spec nodes _ _ _ _ hdel
  refine ⟨hq, ?_⟩
  intro x hx
  rcases hclos x hx with h | h
  · exact absurd h (List.not_mem_nil x)
  · exact h

theorem consistentN_filter_dels (g : SessionActionsGraph) (hwf : WF g)
    (queue dels : List String)
    (hdel : bfsCollect g.nodes (bfsFuel g.nodes queue) queue [] = some dels)
    (hqueue : ∀ x ∈ queue, ∀ m ∈ g.nodes, x ∈ m.children_node_ids →
      m.node_id ∈ dels) :
    ConsistentN (g.nodes.filter (fun n => !(dels.contains n.node_id))) := by
  have hnd : (g.nodes.map (fun x => x.node_id)).Nodup := wf_nodupIds hwf
  have hcons := wf_consistent hwf
  obtain ⟨hq, hspec⟩ := collect_spec g.nodes queue dels hdel
  constructor
  · intro y hy2 p hp
    obtain ⟨hy, hynd⟩ := mem_filter_not_del.mp hy2
    obtain ⟨m, hm, hmid, hmch⟩ := hcons.1 y hy p hp
    have hmnd : m.node_id ∉ dels := by
      intro hmem
      exact hynd ((hspec m.node_id hmem).1 m (getNode_eq_some_of_mem hnd hm)
        y.node_id hmch)
    exact ⟨m, mem_filter_not_del.mpr ⟨hm, hmnd⟩, hmid, hmch⟩
  · intro m hm2 c hc
    obtain ⟨hm, hmnd⟩ := mem_filter_not_del.mp hm2
    obtain ⟨n, hn, hnid, hnpar⟩ := hcons.2 m hm c hc
    have hcnd : c ∉ dels := by
      intro hcd
      rcases (hspec c hcd).2 with hcq | hex
      · exact hmnd (hqueue c hcq m hm hc)
      · obtain ⟨d, nd, hd, hgnd, hcnd2⟩ := hex
        obtain ⟨hndmem, hndid⟩ := getNode_isSome_mem hgnd
        have hmeq : m = nd := parent_unique hnd hcons hm hndmem hc hcnd2
        rw [hmeq, hndid] at hmnd
        exact hmnd hd
    refine ⟨n, mem_filter_not_del.mpr ⟨hn, ?_⟩, hnid, hnpar⟩
    rw [hnid]
    exact hcnd

theorem consistentN_removeBranch_upd (g : SessionActionsGraph) (hwf : WF g)
    {tid pid : String} {A : ActionNode} (dels : List String)
    (hA : getNode g.nodes tid = some A)
    (hpar : A.parent_node_id = some pid)
    (hdel : bfsCollect g.nodes (bfsFuel g.nodes [tid]) [tid] [] = some dels) :
    ConsistentN (upd (g.nodes.filter (fun n => !(dels.contains n.node_id))) pid (fun n => { n with children_node_ids := n.children_node_ids.erase tid })) := by
  have hnd : (g.nodes.map (fun x => x.node_id)).Nodup := wf_nodupIds hwf
  have hcons := wf_consistent hwf
  obtain ⟨hAmem, hAid⟩ := getNode_isSome_mem hA
  obtain ⟨hq, hspec⟩ := collect_spec g.nodes [tid] dels hdel
  have htdels : tid ∈ dels := hq tid (by simp)
  constructor
  · intro n2 hn2 p hp
    obtain ⟨y, hyS, hFy⟩ := mem_upd_iff.mp hn2
    obtain ⟨hy, hynd⟩ := mem_filter_not_del.mp hyS
    have hn2par : n2.parent_node_id = y.parent_node_id := by
      by_cases hyp : y.node_id = pid
      · rw [← hFy, if_pos hyp]
      · rw [← hFy, if_neg hyp]
    have hn2id : n2.node_id = y.node_id := by
      by_cases hyp : y.node_id = pid
      · rw [← hFy, if_pos hyp]
      · rw [← hFy, if_neg hyp]
    rw [hn2par] at hp
    obtain ⟨m, hm, hmid, hmch⟩ := hcons.1 y hy p hp
    have hmnd : m.node_id ∉ dels := by
      intro hmem
      exact hynd ((hspec m.node_id hmem).1 m (getNode_eq_some_of_mem hnd hm)
        y.node_id hmch)
    have hmS : m ∈ g.nodes.filter (fun n => !(dels.contains n.node_id)) :=
      mem_filter_not_del.mpr ⟨hm, hmnd⟩
    have hytid : y.node_id ≠ tid := by
      intro he
      rw [he] at hynd
      exact hynd htdels
    by_cases hmp : m.node_id = pid
    · refine ⟨{ m with children_node_ids := m.children_node_ids.erase tid },
        mem_upd_target hmS hmp, hmid, ?_⟩
      show n2.node_id ∈ m.children_node_ids.erase tid
      rw [hn2id]
      exact (List.mem_erase_of_ne hytid).mpr hmch
    · refine ⟨m, mem_upd_of_ne hmS hmp, hmid, ?_⟩
      rw [hn2id]
      exact hmch
  · intro m2 hm2 c hc
    obtain ⟨y, hyS, hFy⟩ := mem_upd_iff.mp hm2
    obtain ⟨hy, hynd⟩ := mem_filter_not_del.mp hyS
    have hm2id : m2.node_id = y.node_id := by
      by_cases hyp : y.node_id = pid
      · rw [← hFy, if_pos hyp]
      · rw [← hFy, if_neg hyp]
    by_cases hyp : y.node_id = pid
    · rw [← hFy, if_pos hyp] at hc
      have hc2 : c ∈ y.children_node_ids.erase tid := hc
      have hynodup : y.children_node_ids.Nodup := wf_nodupChildren hwf y hy
      obtain ⟨hcne, hcl⟩ := (List.Nodup.mem_erase_iff hynodup).mp hc2
      obtain ⟨n, hn, hnid, hnpar⟩ := hcons.2 y hy c hcl
      have hcnd : c ∉ dels := by
        intro hcd
        rcases (hspec c hcd).2 with hcq | hex
        · exact hcne (by simpa using hcq)
        · obtain ⟨d, nd, hd, hgnd, hcnd2⟩ := hex
          obtain ⟨hndmem, hndid⟩ := getNode_isSome_mem hgnd
          have hyeq : y = nd := parent_unique hnd hcons hy hndmem hcl hcnd2
          rw [hyeq, hndid] at hynd
          exact hynd hd
      have hnS : n ∈ g.nodes.filter (fun m => !(dels.contains m.node_id)) :=
        mem_filter_not_del.mpr ⟨hn, by rw [hnid]; exact hcnd⟩
      by_cases hnp : n.node_id = pid
      · refine ⟨{ n with children_node_ids := n.children_node_ids.erase tid },
          mem_upd_target hnS hnp, hnid, ?_⟩
        show n.parent_node_id = some m2.node_id
        rw [hnpar, hm2id]
      · refine ⟨n, mem_upd_of_ne hnS hnp, hnid, ?_⟩
        rw [hnpar, hm2id]
    · rw [← hFy, if_neg hyp] at hc
      obtain ⟨n, hn, hnid, hnpar⟩ := hcons.2 y hy c hc
      have hcne : c ≠ tid := by
        intro he
        have hnA : n = A := nodup_id_inj hnd hn hAmem (by rw [hnid, he, hAid])
        rw [hnA, hpar] at hnpar
        have hpy : pid = y.node_id := Option.some.inj hnpar
        exact hyp hpy.symm
      have hcnd : c ∉ dels := by
        intro hcd
        rcases (hspec c hcd).2 with hcq | hex
        · exact hcne (by simpa using hcq)
        · obtain ⟨d, nd, hd, hgnd, hcnd2⟩ := hex
          obtain ⟨hndmem, hndid⟩ := getNode_isSome_mem hgnd
          have hyeq : y = nd := parent_unique hnd hcons hy hndmem hc hcnd2
          rw [hyeq, hndid] at hynd
          exact hynd hd
      have hnS : n ∈ g.nodes.filter (fun m => !(dels.contains m.node_id)) :=
        mem_filter_not_del.mpr ⟨hn, by rw [hnid]; exact hcnd⟩
      by_cases hnp : n.node_id = pid
      · refine ⟨{ n with children_node_ids := n.children_node_ids.erase tid },
          mem_upd_target hnS hnp, hnid, ?_⟩
        show n.parent_node_id = some m2.node_id
        rw [hnpar, hm2id]
      · refine ⟨n, mem_upd_of_ne hnS hnp, hnid, ?_⟩
        rw [hnpar, hm2id]

theorem consistent_removeBranch (g : SessionActionsGraph) (hwf : WF g)
    (tid : String) : Consistent (removeBranch g tid) := by
  cases hA : getNode g.nodes tid with
  | none =>
    have hg : removeBranch g tid = g := by simp [removeBranch, hA]
    rw [hg]
    exact wf_consistent hwf
  | some A =>
    obtain ⟨hAmem, hAid⟩ := getNode_isSome_mem hA
    have hdel := bfsCollect_total g.nodes [tid]
    cases hpar : A.parent_node_id with
    | some pid =>
      have hpne : pid ≠ "" := wf_parent_nonempty hwf hAmem hpar
      have hnodes : (removeBranch g tid).nodes
          = upd (g.nodes.filter (fun n => !((collectIds g.nodes [tid]).contains n.node_id))) pid (fun n => { n with children_node_ids := n.children_node_ids.erase tid }) := by
        simp [removeBranch, hA, hpar, hpne]
      rw [consistent_iff_nodes, hnodes]
      exact consistentN_removeBranch_upd g hwf (collectIds g.nodes [tid]) hA hpar hdel
    | none =>
      have hnodes : (removeBranch g tid).nodes
          = g.nodes.filter (fun n => !((collectIds g.nodes [tid]).contains n.node_id)) := by
        simp [removeBranch, hA, hpar]
      rw [consistent_iff_nodes, hnodes]
      apply consistentN_filter_dels g hwf [tid] (collectIds g.nodes [tid]) hdel
      intro x hx m hm hxm
      have hxt : x = tid := by simpa using hx
      rw [hxt] at hxm
      obtain ⟨C, hCmem, hCid, hCpar⟩ := child_spec (wf_consistent hwf) hm hxm
      have hCA : C = A := nodup_id_inj (wf_nodupIds hwf) hCmem hAmem
        (by rw [hCid, hAid])
      rw [hCA, hpar] at hCpar
      exact Option.noConfusion hCpar

theorem consistent_removeStep (g : SessionActionsGraph) (hwf : WF g)
    (sid : String) : Consistent (removeStep g sid) := by
  cases hstep : g.steps.find? (fun s => s.step_id == sid) with
  | none =>
    have hg : removeStep g sid = g := by simp [removeStep, hstep]
    rw [hg]
    exact wf_consistent hwf
  | some step =>
    have hdel := bfsCollect_total g.nodes step.root_node_ids
    have hnodes : (removeStep g sid).nodes
        = g.nodes.filter (fun n => !((collectIds g.nodes step.root_node_ids).contains n.node_id)) := by
      simp [removeStep, hstep]
    rw [consistent_iff_nodes, hnodes]
    apply consistentN_filter_dels g hwf step.root_node_ids
      (collectIds g.nodes step.root_node_ids) hdel
    intro x hx m hm hxm
    have hstepmem : step ∈ g.steps := List.mem_of_find?_eq_some hstep
    obtain ⟨r, hrmem, hrid, hrpar⟩ := wf_rootsOk hwf step hstepmem x hx
    obtain ⟨C, hCmem, hCid, hCpar⟩ := child_spec (wf_consistent hwf) hm hxm
    have hCr : C = r := nodup_id_inj (wf_nodupIds hwf) hCmem hrmem
      (by rw [hCid, hrid])
    rw [hCr, hrpar] at hCpar
    exact Option.noConfusion hCpar

theorem pasteBranchBuild_cons2 (c0 : ActionNode) (crest : List ActionNode)
    (f0 : String) (frest : List String) (rp : Option String) :
    pasteBranchBuild ((c0, f0) :: crest.zip frest) rp
      = { node_id := f0, action_label_to_execute := c0.action_label_to_execute,
          parent_node_id := rp,
          children_node_ids := c0.children_node_ids.filterMap (clipMap ((c0, f0) :: crest.zip frest)),
          instance_label := c0.instance_label,
          custom_field_values := c0.custom_field_values }
        :: (crest.zip frest).map (fun p =>
          { node_id := p.2, action_label_to_execute := p.1.action_label_to_execute,
            parent_node_id := p.1.parent_node_id.bind (clipMap ((c0, f0) :: crest.zip frest)),
            children_node_ids := p.1.children_node_ids.filterMap (clipMap ((c0, f0) :: crest.zip frest)),
            instance_label := p.1.instance_label,
            custom_field_values := p.1.custom_field_values }) := by
  have h := pasteBranchBuild_cons c0 crest f0 frest rp
  rw [List.zip_cons_cons] at h
  exact h

theorem build_ids (c0 : ActionNode) (crest : List ActionNode) (f0 : String)
    (frest : List String) (rp : Option String) :
    ∀ n ∈ pasteBranchBuild ((c0 :: crest).zip (f0 :: frest)) rp,
      n.node_id ∈ f0 :: frest := by
  intro n hn
  rw [pasteBranchBuild_cons] at hn
  rcases List.mem_cons.mp hn with hnH | hnR
  · rw [hnH]
    exact List.mem_cons_self _ _
  · obtain ⟨p2, hp2mem, hp2eq⟩ := List.mem_map.mp hnR
    rw [← hp2eq]
    show p2.2 ∈ f0 :: frest
    exact List.mem_cons_of_mem _ (mem_zip_fst hp2mem).2

theorem build_parents_t (c0 : ActionNode) (crest : List ActionNode)
    (f0 : String) (frest : List String) (rp : Option String)
    (hnd : ((c0 :: crest).map (fun n => n.node_id)).Nodup)
    (hP : ClipParents (c0 :: crest)) :
    ∀ n ∈ pasteBranchBuild ((c0 :: crest).zip (f0 :: frest)) rp, ∀ p,
      n.parent_node_id = some p →
      (rp = some p ∧ n.node_id = f0) ∨
      ∃ m ∈ pasteBranchBuild ((c0 :: crest).zip (f0 :: frest)) rp,
        m.node_id = p ∧ n.node_id ∈ m.children_node_ids := by
  intro n hn p hp
  rw [pasteBranchBuild_cons] at hn
  rcases List.mem_cons.mp hn with hnH | hnR
  · subst hnH
    left
    exact ⟨hp, rfl⟩
  · obtain ⟨p2, hp2mem, hp2eq⟩ := List.mem_map.mp hnR
    have hpairs : p2 ∈ (c0 :: crest).zip (f0 :: frest) := by
      rw [List.zip_cons_cons]
      exact List.mem_cons_of_mem _ hp2mem
    have hbind : p2.1.parent_node_id.bind (clipMap ((c0 :: crest).zip (f0 :: frest))) = some p := by
      rw [← hp2eq] at hp
      exact hp
    obtain ⟨cm, fm, hcmfm, hfmq, hmem⟩ := parent_build_parents hnd hP p2 hpairs p hbind
    right
    rw [List.zip_cons_cons] at hcmfm
    rcases List.mem_cons.mp hcmfm with hhd | htl
    · have hcmc0 : cm = c0 := congrArg Prod.fst hhd
      have hfmf0 : fm = f0 := congrArg Prod.snd hhd
      refine ⟨{ node_id := f0, action_label_to_execute := c0.action_label_to_execute, parent_node_id := rp, children_node_ids := c0.children_node_ids.filterMap (clipMap ((c0 :: crest).zip (f0 :: frest))), instance_label := c0.instance_label, custom_field_values := c0.custom_field_values }, ?_, ?_, ?_⟩
      · rw [pasteBranchBuild_cons]
        exact List.mem_cons_self _ _
      · show f0 = p
        rw [← hfmf0]
        exact hfmq
      · show n.node_id ∈ c0.children_node_ids.filterMap (clipMap ((c0 :: crest).zip (f0 :: frest)))
        rw [← hp2eq]
        show p2.2 ∈ c0.children_node_ids.filterMap (clipMap ((c0 :: crest).zip (f0 :: frest)))
        rw [hcmc0] at hmem
        exact hmem
    · refine ⟨{ node_id := fm, action_label_to_execute := cm.action_label_to_execute, parent_node_id := cm.parent_node_id.bind (clipMap ((c0 :: crest).zip (f0 :: frest))), children_node_ids := cm.children_node_ids.filterMap (clipMap ((c0 :: crest).zip (f0 :: frest))), instance_label := cm.instance_label, custom_field_values := cm.custom_field_values }, ?_, ?_, ?_⟩
      · rw [pasteBranchBuild_cons]
        apply List.mem_cons_of_mem
        exact List.mem_map_of_mem _ htl
      · exact hfmq
      · show n.node_id ∈ cm.children_node_ids.filterMap (clipMap ((c0 :: crest).zip (f0 :: frest)))
        rw [← hp2eq]
        exact hmem

theorem build_children_t (c0 : ActionNode) (crest : List ActionNode)
    (f0 : String) (frest : List String) (rp : Option String)
    (hnd : ((c0 :: crest).map (fun n => n.node_id)).Nodup)
    (hC : ClipChildren (c0 :: crest))
    (hhead : ∀ p, c0.parent_node_id = some p →
      p ∉ (c0 :: crest).map (fun n => n.node_id)) :
    ∀ m ∈ pasteBranchBuild ((c0 :: crest).zip (f0 :: frest)) rp,
      ∀ c ∈ m.children_node_ids,
      ∃ n ∈ pasteBranchBuild ((c0 :: crest).zip (f0 :: frest)) rp,
        n.node_id = c ∧ n.parent_node_id = some m.node_id := by
  intro m hm c hc
  rw [pasteBranchBuild_cons] at hm
  have hext : ∃ pr ∈ (c0 :: crest).zip (f0 :: frest), pr.2 = m.node_id ∧
      c ∈ pr.1.children_node_ids.filterMap (clipMap ((c0 :: crest).zip (f0 :: frest))) := by
    rcases List.mem_cons.mp hm with hmH | hmR
    · refine ⟨(c0, f0), by rw [List.zip_cons_cons]; exact List.mem_cons_self _ _, ?_, ?_⟩
      · rw [hmH]
      · rw [hmH] at hc
        exact hc
    · obtain ⟨p2, hp2mem, hp2eq⟩ := List.mem_map.mp hmR
      refine ⟨p2, by rw [List.zip_cons_cons]; exact List.mem_cons_of_mem _ hp2mem, ?_, ?_⟩
      · rw [← hp2eq]
      · rw [← hp2eq] at hc
        exact hc
  obtain ⟨pr, hpr, hprsnd, hch⟩ := hext
  obtain ⟨q2, hq2mem, hq2snd, hq2bind⟩ := parent_build_children hnd hC pr hpr c hch
  rw [List.zip_cons_cons] at hq2mem
  rcases List.mem_cons.mp hq2mem with hq2h | hq2t
  · exfalso
    have hq1c0 : q2.1 = c0 := congrArg Prod.fst hq2h
    rw [hq1c0] at hq2bind
    cases hpp : c0.parent_node_id with
    | none =>
      rw [hpp] at hq2bind
      have hb : (none : Option String) = some pr.2 := hq2bind
      exact Option.noConfusion hb
    | some op =>
      rw [hpp] at hq2bind
      have hq3 : clipMap ((c0 :: crest).zip (f0 :: frest)) op = some pr.2 := hq2bind
      obtain ⟨pw, hpwm, hpwid, hpwf⟩ := clipMap_mem hq3
      exact hhead op hpp (by rw [← hpwid]; exact List.mem_map_of_mem (fun n => n.node_id) (mem_zip_fst hpwm).1)
  · refine ⟨{ node_id := q2.2, action_label_to_execute := q2.1.action_label_to_execute, parent_node_id := q2.1.parent_node_id.bind (clipMap ((c0 :: crest).zip (f0 :: frest))), children_node_ids := q2.1.children_node_ids.filterMap (clipMap ((c0 :: crest).zip (f0 :: frest))), instance_label := q2.1.instance_label, custom_field_values := q2.1.custom_field_values }, ?_, ?_, ?_⟩
    · rw [pasteBranchBuild_cons]
      apply List.mem_cons_of_mem
      exact List.mem_map_of_mem _ hq2t
    · exact hq2snd
    · show q2.1.parent_node_id.bind (clipMap ((c0 :: crest).zip (f0 :: frest))) = some m.node_id
      rw [hq2bind, hprsnd]

theorem consistentN_build_none (c0 : ActionNode) (crest : List ActionNode)
    (f0 : String) (frest : List String)
    (hnd : ((c0 :: crest).map (fun n => n.node_id)).Nodup)
    (hP : ClipParents (c0 :: crest))
    (hC : ClipChildren (c0 :: crest))
    (hhead : ∀ p, c0.parent_node_id = some p →
      p ∉ (c0 :: crest).map (fun n => n.node_id)) :
    ConsistentN (pasteBranchBuild ((c0 :: crest).zip (f0 :: frest)) none) := by
  constructor
  · intro n hn p hp
    rcases build_parents_t c0 crest f0 frest none hnd hP n hn p hp with ⟨hrp, h2⟩ | hex
    · exact Option.noConfusion hrp
    · exact hex
  · exact build_children_t c0 crest f0 frest none hnd hC hhead

theorem consistent_pasteBranchAsChild (g : SessionActionsGraph) (hwf : WF g)
    (tid f0 : String) (c0 : ActionNode) (crest : List ActionNode)
    (frest : List String) {T : ActionNode}
    (hT : getNode g.nodes tid = some T)
    (hnd : ((c0 :: crest).map (fun n => n.node_id)).Nodup)
    (hP : ClipParents (c0 :: crest))
    (hC : ClipChildren (c0 :: crest))
    (hfr : ∀ f ∈ f0 :: frest, f ∉ g.nodes.map (fun n => n.node_id))
    (hhead : ∀ p, c0.parent_node_id = some p →
      p ∉ (c0 :: crest).map (fun n => n.node_id)) :
    Consistent (pasteBranchAsChild g tid (c0 :: crest) (f0 :: frest)) := by
  obtain ⟨hTmem, hTid⟩ := getNode_isSome_mem hT
  have hnodes : (pasteBranchAsChild g tid (c0 :: crest) (f0 :: frest)).nodes
      = upd (g.nodes ++ pasteBranchBuild ((c0 :: crest).zip (f0 :: frest)) (some tid)) tid (fun n => { n with children_node_ids := n.children_node_ids ++ [f0] }) := by
    simp [pasteBranchAsChild, pasteBranchBuild_cons2]
  rw [consistent_iff_nodes, hnodes]
  apply consistentN_attach ((consistent_iff_nodes g).mp (wf_consistent hwf))
  · exact ⟨T, hTmem, hTid⟩
  · refine ⟨{ node_id := f0, action_label_to_execute := c0.action_label_to_execute, parent_node_id := some tid, children_node_ids := c0.children_node_ids.filterMap (clipMap ((c0 :: crest).zip (f0 :: frest))), instance_label := c0.instance_label, custom_field_values := c0.custom_field_values }, ?_, rfl, rfl⟩
    rw [pasteBranchBuild_cons]
    exact List.mem_cons_self _ _
  · intro n hn p hp
    rcases build_parents_t c0 crest f0 frest (some tid) hnd hP n hn p hp with ⟨hrp, hnf⟩ | hex
    · exact Or.inl ⟨(Option.some.inj hrp).symm, hnf⟩
    · exact Or.inr hex
  · exact build_children_t c0 crest f0 frest (some tid) hnd hC hhead
  · intro n hn
    have hid := build_ids c0 crest f0 frest (some tid) n hn
    intro he
    have hmemg : n.node_id ∈ g.nodes.map (fun m => m.node_id) := by
      rw [he, ← hTid]
      exact List.mem_map_of_mem (fun m => m.node_id) hTmem
    exact hfr n.node_id hid hmemg

theorem consistent_pasteBranchAsBrother (g : SessionActionsGraph) (hwf : WF g)
    (tid f0 : String) (c0 : ActionNode) (crest : List ActionNode)
    (frest : List String)
    (hnd : ((c0 :: crest).map (fun n => n.node_id)).Nodup)
    (hP : ClipParents (c0 :: crest))
    (hC : ClipChildren (c0 :: crest))
    (hfr : ∀ f ∈ f0 :: frest, f ∉ g.nodes.map (fun n => n.node_id))
    (hhead : ∀ p, c0.parent_node_id = some p →
      p ∉ (c0 :: crest).map (fun n => n.node_id)) :
    Consistent (pasteBranchAsBrother g tid (c0 :: crest) (f0 :: frest)) := by
  cases hT : getNode g.nodes tid with
  | none =>
    have hg : pasteBranchAsBrother g tid (c0 :: crest) (f0 :: frest) = g := by
      simp [pasteBranchAsBrother, hT]
    rw [hg]
    exact wf_consistent hwf
  | some T =>
    obtain ⟨hTmem, hTid⟩ := getNode_isSome_mem hT
    cases hTpar : T.parent_node_id with
    | some pid =>
      have hpne : pid ≠ "" := wf_parent_nonempty hwf hTmem hTpar
      obtain ⟨P, hPmem, hPid, hPch⟩ := parent_spec (wf_consistent hwf) hTmem hTpar
      have hnodes : (pasteBranchAsBrother g tid (c0 :: crest) (f0 :: frest)).nodes
          = upd (g.nodes ++ pasteBranchBuild ((c0 :: crest).zip (f0 :: frest)) (some pid)) pid (fun n => { n with children_node_ids := n.children_node_ids ++ [f0] }) := by
        simp [pasteBranchAsBrother, hT, hTpar, hpne, pasteBranchBuild_cons2]
      rw [consistent_iff_nodes, hnodes]
      apply consistentN_attach ((consistent_iff_nodes g).mp (wf_consistent hwf))
      · exact ⟨P, hPmem, hPid⟩
      · refine ⟨{ node_id := f0, action_label_to_execute := c0.action_label_to_execute, parent_node_id := some pid, children_node_ids := c0.children_node_ids.filterMap (clipMap ((c0 :: crest).zip (f0 :: frest))), instance_label := c0.instance_label, custom_field_values := c0.custom_field_values }, ?_, rfl, rfl⟩
        rw [pasteBranchBuild_cons]
        exact List.mem_cons_self _ _
      · intro n hn p hp
        rcases build_parents_t c0 crest f0 frest (some pid) hnd hP n hn p hp with ⟨hrp, hnf⟩ | hex
        · exact Or.inl ⟨(Option.some.inj hrp).symm, hnf⟩
        · exact Or.inr hex
      · exact build_children_t c0 crest f0 frest (some pid) hnd hC hhead
      · intro n hn
        have hid := build_ids c0 crest f0 frest (some pid) n hn
        intro he
        have hmemg : n.node_id ∈ g.nodes.map (fun m => m.node_id) := by
          rw [he, ← hPid]
          exact List.mem_map_of_mem (fun m => m.node_id) hPmem
        exact hfr n.node_id hid hmemg
    | none =>
      have hnodes : (pasteBranchAsBrother g tid (c0 :: crest) (f0 :: frest)).nodes
          = g.nodes ++ pasteBranchBuild ((c0 :: crest).zip (f0 :: frest)) none := by
        simp [pasteBranchAsBrother, hT, hTpar, pasteBranchBuild_cons2]
      rw [consistent_iff_nodes, hnodes]
      exact consistentN_append ((consistent_iff_nodes g).mp (wf_consistent hwf))
        (consistentN_build_none c0 crest f0 frest hnd hP hC hhead)

theorem consistentN_pasteStepBuild (clip : List ActionNode) (freshs : List String)
    (hnd : (clip.map (fun n => n.node_id)).Nodup)
    (hne : ∀ n ∈ clip, n.node_id ≠ "")
    (hP : ClipParents clip) (hC : ClipChildren clip) :
    ConsistentN (pasteStepBuild (clip.zip freshs)) := by
  constructor
  · intro n hn p hp
    unfold pasteStepBuild at hn
    obtain ⟨pr, hpr, hpreq⟩ := List.mem_map.mp hn
    have hmatch : (match pr.1.parent_node_id with
        | some pp => if pp ≠ "" then clipMap (clip.zip freshs) pp else none
        | none => none) = some p := by
      rw [← hpreq] at hp
      exact hp
    obtain ⟨cm, fm, hcmfm, hfmq, hmem⟩ := step_build_parents hnd hP pr hpr p hmatch
    refine ⟨{ node_id := fm, action_label_to_execute := cm.action_label_to_execute, parent_node_id := (match cm.parent_node_id with | some pp => if pp ≠ "" then clipMap (clip.zip freshs) pp else none | none => none), children_node_ids := cm.children_node_ids.filterMap (clipMap (clip.zip freshs)), instance_label := cm.instance_label, custom_field_values := cm.custom_field_values }, ?_, ?_, ?_⟩
    · unfold pasteStepBuild
      exact List.mem_map_of_mem _ hcmfm
    · exact hfmq
    · show n.node_id ∈ cm.children_node_ids.filterMap (clipMap (clip.zip freshs))
      rw [← hpreq]
      exact hmem
  · intro m2 hm2 c hc
    unfold pasteStepBuild at hm2
    obtain ⟨pr, hpr, hpreq⟩ := List.mem_map.mp hm2
    have hc2 : c ∈ pr.1.children_node_ids.filterMap (clipMap (clip.zip freshs)) := by
      rw [← hpreq] at hc
      exact hc
    obtain ⟨q2, hq2, hq2snd, hq2m⟩ := step_build_children hnd hne hC pr hpr c hc2
    refine ⟨{ node_id := q2.2, action_label_to_execute := q2.1.action_label_to_execute, parent_node_id := (match q2.1.parent_node_id with | some pp => if pp ≠ "" then clipMap (clip.zip freshs) pp else none | none => none), children_node_ids := q2.1.children_node_ids.filterMap (clipMap (clip.zip freshs)), instance_label := q2.1.instance_label, custom_field_values := q2.1.custom_field_values }, ?_, ?_, ?_⟩
    · unfold pasteStepBuild
      exact List.mem_map_of_mem _ hq2
    · exact hq2snd
    · show (match q2.1.parent_node_id with
        | some pp => if pp ≠ "" then clipMap (clip.zip freshs) pp else none
        | none => none) = some m2.node_id
      rw [hq2m, ← hpreq]

theorem consistent_pasteStepContent (g : SessionActionsGraph) (hwf : WF g)
    (sid f0 : String) (c0 : ActionNode) (crest : List ActionNode)
    (frest : List String)
    (hnd : ((c0 :: crest).map (fun n => n.node_id)).Nodup)
    (hne : ∀ n ∈ c0 :: crest, n.node_id ≠ "")
    (hP : ClipParents (c0 :: crest)) (hC : ClipChildren (c0 :: crest)) :
    Consistent (pasteStepContent g sid (c0 :: crest) (f0 :: frest)) := by
  cases hstep : g.steps.find? (fun s => s.step_id == sid) with
  | none =>
    have hg : pasteStepContent g sid (c0 :: crest) (f0 :: frest) = g := by
      simp [pasteStepContent, hstep]
    rw [hg]
    exact wf_consistent hwf
  | some step =>
    cases hroots : step.root_node_ids.isEmpty with
    | true =>
      have hnodes : (pasteStepContent g sid (c0 :: crest) (f0 :: frest)).nodes
          = g.nodes ++ pasteStepBuild ((c0 :: crest).zip (f0 :: frest)) := by
        simp [pasteStepContent, hstep, hroots]
      rw [consistent_iff_nodes, hnodes]
      exact consistentN_append ((consistent_iff_nodes g).mp (wf_consistent hwf))
        (consistentN_pasteStepBuild (c0 :: crest) (f0 :: frest) hnd hne hP hC)
    | false =>
      have hdel := bfsCollect_total g.nodes step.root_node_ids
      have hnodes : (pasteStepContent g sid (c0 :: crest) (f0 :: frest)).nodes
          = (g.nodes.filter (fun n => !((collectIds g.nodes step.root_node_ids).contains n.node_id))) ++ pasteStepBuild ((c0 :: crest).zip (f0 :: frest)) := by
        simp [pasteStepContent, hstep, hroots]
      rw [consistent_iff_nodes, hnodes]
      refine consistentN_append ?_
        (consistentN_pasteStepBuild (c0 :: crest) (f0 :: frest) hnd hne hP hC)
      apply consistentN_filter_dels g hwf step.root_node_ids
        (collectIds g.nodes step.root_node_ids) hdel
      intro x hx m hm hxm
      have hstepmem : step ∈ g.steps := List.mem_of_find?_eq_some hstep
      obtain ⟨r, hrmem, hrid, hrpar⟩ := wf_rootsOk hwf step hstepmem x hx
      obtain ⟨C, hCmem, hCid, hCpar⟩ := child_spec (wf_consistent hwf) hm hxm
      have hCr : C = r := nodup_id_inj (wf_nodupIds hwf) hCmem hrmem
        (by rw [hCid, hrid])
      rw [hCr, hrpar] at hCpar
      exact Option.noConfusion hCpar

theorem pasteParentF_node_id (tid pid f0 : String) (lp : Option String)
    (n : ActionNode) : (pasteParentF tid pid f0 lp n).node_id = n.node_id := by
  unfold pasteParentF
  by_cases h1 : n.node_id = tid
  · rw [if_pos h1]
  · by_cases h2 : n.node_id = pid
    · rw [if_neg h1, if_pos h2]
    · rw [if_neg h1, if_neg h2]

theorem pasteParentF_at_tid {tid pid f0 : String} {lp : Option String}
    {n : ActionNode} (h : n.node_id = tid) :
    pasteParentF tid pid f0 lp n = { n with parent_node_id := lp } := by
  unfold pasteParentF
  rw [if_pos h]

theorem pasteParentF_at_pid {tid pid f0 : String} {lp : Option String}
    {n : ActionNode} (h1 : n.node_id ≠ tid) (h : n.node_id = pid) :
    pasteParentF tid pid f0 lp n
      = { n with children_node_ids := replaceInList tid f0 n.children_node_ids } := by
  unfold pasteParentF
  rw [if_neg h1, if_pos h]

theorem pasteParentF_other {tid pid f0 : String} {lp : Option String}
    {n : ActionNode} (h1 : n.node_id ≠ tid) (h2 : n.node_id ≠ pid) :
    pasteParentF tid pid f0 lp n = n := by
  unfold pasteParentF
  rw [if_neg h1, if_neg h2]

theorem pasteParentF_par {tid pid f0 : String} {lp : Option String}
    {n : ActionNode} (h1 : n.node_id ≠ tid) :
    (pasteParentF tid pid f0 lp n).parent_node_id = n.parent_node_id := by
  unfold pasteParentF
  rw [if_neg h1]
  by_cases h2 : n.node_id = pid
  · rw [if_pos h2]
  · rw [if_neg h2]

theorem pasteParentF_ch {tid pid f0 : String} {lp : Option String}
    {n : ActionNode} (h2 : n.node_id ≠ pid) :
    (pasteParentF tid pid f0 lp n).children_node_ids = n.children_node_ids := by
  unfold pasteParentF
  by_cases h1 : n.node_id = tid
  · rw [if_pos h1]
  · rw [if_neg h1, if_neg h2]

theorem pasteParent_pipeline (s : List ActionNode) (tid pid f0 : String)
    (lp : Option String) (htp : tid ≠ pid) :
    upd (upd s pid (fun n => { n with children_node_ids := replaceInList tid f0 n.children_node_ids })) tid (fun n => { n with parent_node_id := lp })
      = s.map (pasteParentF tid pid f0 lp) := by
  unfold upd
  simp only [List.map_map]
  apply List.map_congr_left
  intro n _
  simp only [Function.comp_apply]
  by_cases h2 : n.node_id = pid
  · have hc1 : ¬(n.node_id = tid) := by
      rw [h2]
      exact fun he => htp he.symm
    rw [if_pos h2]
    simp only []
    rw [if_neg hc1, pasteParentF_at_pid hc1 h2]
  · rw [if_neg h2]
    by_cases h1 : n.node_id = tid
    · rw [if_pos h1, pasteParentF_at_tid h1]
    · rw [if_neg h1, pasteParentF_other h1 h2]

theorem pasteParent_pipeline_root (s : List ActionNode) (tid f0 : String)
    (lp : Option String) (hne : ∀ n ∈ s, n.node_id ≠ "") :
    upd s tid (fun n => { n with parent_node_id := lp })
      = s.map (pasteParentF tid ("") f0 lp) := by
  unfold upd
  apply List.map_congr_left
  intro n hn
  by_cases h1 : n.node_id = tid
  · rw [if_pos h1, pasteParentF_at_tid h1]
  · rw [if_neg h1, pasteParentF_other h1 (hne n hn)]

theorem pasteParentBuild_cons (c0 : ActionNode) (crest : List ActionNode)
    (f0 : String) (frest : List String) :
    pasteParentBuild ((c0 :: crest).zip (f0 :: frest))
      = { node_id := f0, action_label_to_execute := c0.action_label_to_execute, parent_node_id := c0.parent_node_id.bind (clipMap ((c0 :: crest).zip (f0 :: frest))), children_node_ids := c0.children_node_ids.filterMap (clipMap ((c0 :: crest).zip (f0 :: frest))), instance_label := c0.instance_label, custom_field_values := c0.custom_field_values }
        :: (crest.zip frest).map (fun p => { node_id := p.2, action_label_to_execute := p.1.action_label_to_execute, parent_node_id := p.1.parent_node_id.bind (clipMap ((c0 :: crest).zip (f0 :: frest))), children_node_ids := p.1.children_node_ids.filterMap (clipMap ((c0 :: crest).zip (f0 :: frest))), instance_label := p.1.instance_label, custom_field_values := p.1.custom_field_values }) := by
  unfold pasteParentBuild
  rw [List.zip_cons_cons, List.map_cons]

theorem leafAttachF_node_id (tid : String) (n : ActionNode) :
    (leafAttachF tid n).node_id = n.node_id := by
  unfold leafAttachF
  by_cases h : n.children_node_ids.isEmpty = true
  · rw [if_pos h]
  · rw [if_neg h]

theorem leafAttachF_par (tid : String) (n : ActionNode) :
    (leafAttachF tid n).parent_node_id = n.parent_node_id := by
  unfold leafAttachF
  by_cases h : n.children_node_ids.isEmpty = true
  · rw [if_pos h]
  · rw [if_neg h]

theorem leafAttachF_at_leaf {tid : String} {n : ActionNode}
    (h : n.children_node_ids.isEmpty = true) :
    leafAttachF tid n = { n with children_node_ids := n.children_node_ids ++ [tid] } := by
  unfold leafAttachF
  rw [if_pos h]

theorem leafAttachF_at_nonleaf {tid : String} {n : ActionNode}
    (h : ¬(n.children_node_ids.isEmpty = true)) : leafAttachF tid n = n := by
  unfold leafAttachF
  rw [if_neg h]

theorem leafAttachF_mono {tid : String} {n : ActionNode} {x : String}
    (h : x ∈ n.children_node_ids) : x ∈ (leafAttachF tid n).children_node_ids := by
  unfold leafAttachF
  by_cases he : n.children_node_ids.isEmpty = true
  · rw [if_pos he]
    exact List.mem_append_left _ h
  · rw [if_neg he]
    exact h

theorem consistentN_pasteParent (g : SessionActionsGraph) (hwf : WF g)
    {tid pid f0 : String} {T L : ActionNode} {c0 : ActionNode}
    {crest : List ActionNode} {frest : List String}
    (hT : getNode g.nodes tid = some T)
    (hTpar : T.parent_node_id = some pid)
    (hnd : ((c0 :: crest).map (fun n => n.node_id)).Nodup)
    (hP : ClipParents (c0 :: crest))
    (hC : ClipChildren (c0 :: crest))
    (hfr : ∀ f ∈ f0 :: frest, f ∉ g.nodes.map (fun n => n.node_id))
    (hhead : ∀ p, c0.parent_node_id = some p → p ∉ (c0 :: crest).map (fun n => n.node_id))
    (hleaf : (({ node_id := f0, action_label_to_execute := c0.action_label_to_execute, parent_node_id := some pid, children_node_ids := c0.children_node_ids.filterMap (clipMap ((c0 :: crest).zip (f0 :: frest))), instance_label := c0.instance_label, custom_field_values := c0.custom_field_values } : ActionNode) :: (crest.zip frest).map (fun p => { node_id := p.2, action_label_to_execute := p.1.action_label_to_execute, parent_node_id := p.1.parent_node_id.bind (clipMap ((c0 :: crest).zip (f0 :: frest))), children_node_ids := p.1.children_node_ids.filterMap (clipMap ((c0 :: crest).zip (f0 :: frest))), instance_label := p.1.instance_label, custom_field_values := p.1.custom_field_values })).filter (fun n => n.children_node_ids.isEmpty) = [L]) :
    ConsistentN (g.nodes.map (pasteParentF tid pid f0 (some L.node_id))
      ++ (({ node_id := f0, action_label_to_execute := c0.action_label_to_execute, parent_node_id := some pid, children_node_ids := c0.children_node_ids.filterMap (clipMap ((c0 :: crest).zip (f0 :: frest))), instance_label := c0.instance_label, custom_field_values := c0.custom_field_values } : ActionNode) :: (crest.zip frest).map (fun p => { node_id := p.2, action_label_to_execute := p.1.action_label_to_execute, parent_node_id := p.1.parent_node_id.bind (clipMap ((c0 :: crest).zip (f0 :: frest))), children_node_ids := p.1.children_node_ids.filterMap (clipMap ((c0 :: crest).zip (f0 :: frest))), instance_label := p.1.instance_label, custom_field_values := p.1.custom_field_values })).map (leafAttachF tid)) := by
  obtain ⟨hTmem, hTid⟩ := getNode_isSome_mem hT
  have hndg : (g.nodes.map (fun x => x.node_id)).Nodup := wf_nodupIds hwf
  have hcons := wf_consistent hwf
  have htp : tid ≠ pid := by
    intro he
    exact wf_no_self_parent hwf hTmem (by rw [hTpar, ← he, hTid])
  obtain ⟨P, hPmem, hPid, hPchT⟩ := parent_spec hcons hTmem hTpar
  have hPch : tid ∈ P.children_node_ids := by
    rw [← hTid]
    exact hPchT
  have hLfilter : L ∈ (({ node_id := f0, action_label_to_execute := c0.action_label_to_execute, parent_node_id := some pid, children_node_ids := c0.children_node_ids.filterMap (clipMap ((c0 :: crest).zip (f0 :: frest))), instance_label := c0.instance_label, custom_field_values := c0.custom_field_values } : ActionNode) :: (crest.zip frest).map (fun p => { node_id := p.2, action_label_to_execute := p.1.action_label_to_execute, parent_node_id := p.1.parent_node_id.bind (clipMap ((c0 :: crest).zip (f0 :: frest))), children_node_ids := p.1.children_node_ids.filterMap (clipMap ((c0 :: crest).zip (f0 :: frest))), instance_label := p.1.instance_label, custom_field_values := p.1.custom_field_values })).filter (fun n => n.children_node_ids.isEmpty) := by
    rw [hleaf]
    exact List.mem_singleton.mpr rfl
  have hLmem2 : L ∈ ({ node_id := f0, action_label_to_execute := c0.action_label_to_execute, parent_node_id := some pid, children_node_ids := c0.children_node_ids.filterMap (clipMap ((c0 :: crest).zip (f0 :: frest))), instance_label := c0.instance_label, custom_field_values := c0.custom_field_values } : ActionNode) :: (crest.zip frest).map (fun p => { node_id := p.2, action_label_to_execute := p.1.action_label_to_execute, parent_node_id := p.1.parent_node_id.bind (clipMap ((c0 :: crest).zip (f0 :: frest))), children_node_ids := p.1.children_node_ids.filterMap (clipMap ((c0 :: crest).zip (f0 :: frest))), instance_label := p.1.instance_label, custom_field_values := p.1.custom_field_values }) := (List.mem_filter.mp hLfilter).1
  have hLempty : L.children_node_ids.isEmpty = true := (List.mem_filter.mp hLfilter).2
  have hLch : L.children_node_ids = [] := by
    cases hcL : L.children_node_ids with
    | nil => rfl
    | cons a t =>
      rw [hcL] at hLempty
      simp at hLempty
  have huniq : ∀ w ∈ ({ node_id := f0, action_label_to_execute := c0.action_label_to_execute, parent_node_id := some pid, children_node_ids := c0.children_node_ids.filterMap (clipMap ((c0 :: crest).zip (f0 :: frest))), instance_label := c0.instance_label, custom_field_values := c0.custom_field_values } : ActionNode) :: (crest.zip frest).map (fun p => { node_id := p.2, action_label_to_execute := p.1.action_label_to_execute, parent_node_id := p.1.parent_node_id.bind (clipMap ((c0 :: crest).zip (f0 :: frest))), children_node_ids := p.1.children_node_ids.filterMap (clipMap ((c0 :: crest).zip (f0 :: frest))), instance_label := p.1.instance_label, custom_field_values := p.1.custom_field_values }), w.children_node_ids.isEmpty = true → w = L := by
    intro w hw hwE
    have hwf2 : w ∈ ({ node_id := f0, action_label_to_execute := c0.action_label_to_execute, parent_node_id := some pid, children_node_ids := c0.children_node_ids.filterMap (clipMap ((c0 :: crest).zip (f0 :: frest))), instance_label := c0.instance_label, custom_field_values := c0.custom_field_values } :: (crest.zip frest).map (fun p => { node_id := p.2, action_label_to_execute := p.1.action_label_to_execute, parent_node_id := p.1.parent_node_id.bind (clipMap ((c0 :: crest).zip (f0 :: frest))), children_node_ids := p.1.children_node_ids.filterMap (clipMap ((c0 :: crest).zip (f0 :: frest))), instance_label := p.1.instance_label, custom_field_values := p.1.custom_field_values })).filter (fun n => n.children_node_ids.isEmpty) :=
      List.mem_filter.mpr ⟨hw, hwE⟩
    rw [hleaf] at hwf2
    exact List.mem_singleton.mp hwf2
  have hshape : ∀ w ∈ ({ node_id := f0, action_label_to_execute := c0.action_label_to_execute, parent_node_id := some pid, children_node_ids := c0.children_node_ids.filterMap (clipMap ((c0 :: crest).zip (f0 :: frest))), instance_label := c0.instance_label, custom_field_values := c0.custom_field_values } : ActionNode) :: (crest.zip frest).map (fun p => { node_id := p.2, action_label_to_execute := p.1.action_label_to_execute, parent_node_id := p.1.parent_node_id.bind (clipMap ((c0 :: crest).zip (f0 :: frest))), children_node_ids := p.1.children_node_ids.filterMap (clipMap ((c0 :: crest).zip (f0 :: frest))), instance_label := p.1.instance_label, custom_field_values := p.1.custom_field_values }), ∃ pr ∈ (c0 :: crest).zip (f0 :: frest),
      pr.2 = w.node_id ∧ w.children_node_ids = pr.1.children_node_ids.filterMap (clipMap ((c0 :: crest).zip (f0 :: frest))) := by
    intro w hw
    rcases List.mem_cons.mp hw with hwH | hwT
    · refine ⟨(c0, f0), by rw [List.zip_cons_cons]; exact List.mem_cons_self _ _, ?_, ?_⟩
      · rw [hwH]
      · rw [hwH]
    · obtain ⟨p2, hp2m, hp2e⟩ := List.mem_map.mp hwT
      refine ⟨p2, by rw [List.zip_cons_cons]; exact List.mem_cons_of_mem _ hp2m, ?_, ?_⟩
      · rw [← hp2e]
      · rw [← hp2e]
  constructor
  · intro n2 hn2 p hp
    rcases List.mem_append.mp hn2 with hgs | hns
    · obtain ⟨y, hy, hFy⟩ := List.mem_map.mp hgs
      have hn2id : n2.node_id = y.node_id := by rw [← hFy, pasteParentF_node_id]
      by_cases hy1 : y.node_id = tid
      · rw [← hFy, pasteParentF_at_tid hy1] at hp
        have hp2 : (some L.node_id : Option String) = some p := hp
        have hpL : p = L.node_id := (Option.some.inj hp2).symm
        refine ⟨leafAttachF tid L, List.mem_append_right _ (List.mem_map_of_mem _ hLmem2), ?_, ?_⟩
        · rw [leafAttachF_node_id, hpL]
        · rw [leafAttachF_at_leaf hLempty]
          show n2.node_id ∈ L.children_node_ids ++ [tid]
          rw [hn2id, hy1]
          exact List.mem_append_right _ (List.mem_singleton.mpr rfl)
      · rw [← hFy, pasteParentF_par hy1] at hp
        obtain ⟨m, hm, hmid, hmch⟩ := hcons.1 y hy p hp
        refine ⟨pasteParentF tid pid f0 (some L.node_id) m,
          List.mem_append_left _ (List.mem_map_of_mem _ hm), ?_, ?_⟩
        · rw [pasteParentF_node_id, hmid]
        · by_cases hmp : m.node_id = pid
          · have hmt : m.node_id ≠ tid := by
              rw [hmp]
              exact fun he => htp he.symm
            rw [pasteParentF_at_pid hmt hmp]
            show n2.node_id ∈ replaceInList tid f0 m.children_node_ids
            rw [hn2id]
            exact mem_replaceInList_of_ne hmch hy1
          · rw [pasteParentF_ch hmp]
            rw [hn2id]
            exact hmch
    · obtain ⟨w, hw, hFw⟩ := List.mem_map.mp hns
      have hn2par : n2.parent_node_id = w.parent_node_id := by rw [← hFw, leafAttachF_par]
      have hn2id : n2.node_id = w.node_id := by rw [← hFw, leafAttachF_node_id]
      rw [hn2par] at hp
      rcases List.mem_cons.mp hw with hwH | hwT
      · rw [hwH] at hp
        have hp2 : (some pid : Option String) = some p := hp
        have hpp : p = pid := (Option.some.inj hp2).symm
        have hPt : P.node_id ≠ tid := by
          rw [hPid]
          exact fun he => htp he.symm
        refine ⟨pasteParentF tid pid f0 (some L.node_id) P,
          List.mem_append_left _ (List.mem_map_of_mem _ hPmem), ?_, ?_⟩
        · rw [pasteParentF_node_id, hPid, hpp]
        · rw [pasteParentF_at_pid hPt hPid]
          show n2.node_id ∈ replaceInList tid f0 P.children_node_ids
          rw [hn2id, hwH]
          show f0 ∈ replaceInList tid f0 P.children_node_ids
          exact mem_replaceInList_of_mem hPch
      · obtain ⟨p2, hp2m, hp2e⟩ := List.mem_map.mp hwT
        have hbind : p2.1.parent_node_id.bind (clipMap ((c0 :: crest).zip (f0 :: frest))) = some p := by
          rw [← hp2e] at hp
          exact hp
        have hp2pairs : p2 ∈ (c0 :: crest).zip (f0 :: frest) := by
          rw [List.zip_cons_cons]
          exact List.mem_cons_of_mem _ hp2m
        obtain ⟨cm, fm, hcmfm, hfmq, hmem⟩ := parent_build_parents hnd hP p2 hp2pairs p hbind
        rw [List.zip_cons_cons] at hcmfm
        rcases List.mem_cons.mp hcmfm with hhd | htl
        · have hcmc0 : cm = c0 := congrArg Prod.fst hhd
          have hfmf0 : fm = f0 := congrArg Prod.snd hhd
          refine ⟨_, List.mem_append_right _ (List.mem_map_of_mem _ (List.mem_cons_self _ _)), ?_, ?_⟩
          · rw [leafAttachF_node_id]
            show f0 = p
            rw [← hfmf0]
            exact hfmq
          · apply leafAttachF_mono
            show n2.node_id ∈ c0.children_node_ids.filterMap (clipMap ((c0 :: crest).zip (f0 :: frest)))
            rw [hn2id, ← hp2e]
            rw [hcmc0] at hmem
            exact hmem
        · refine ⟨_, List.mem_append_right _ (List.mem_map_of_mem _ (List.mem_cons_of_mem _ (List.mem_map_of_mem _ htl))), ?_, ?_⟩
          · rw [leafAttachF_node_id]
            show fm = p
            exact hfmq
          · apply leafAttachF_mono
            show n2.node_id ∈ cm.children_node_ids.filterMap (clipMap ((c0 :: crest).zip (f0 :: frest)))
            rw [hn2id, ← hp2e]
            exact hmem
  · intro m2 hm2 c hc
    rcases List.mem_append.mp hm2 with hgs | hns
    · obtain ⟨y, hy, hFy⟩ := List.mem_map.mp hgs
      have hm2id : m2.node_id = y.node_id := by rw [← hFy, pasteParentF_node_id]
      by_cases hyt : y.node_id = tid
      · have hyT : y = T := nodup_id_inj hndg hy hTmem (by rw [hyt, hTid])
        rw [← hFy, pasteParentF_at_tid hyt] at hc
        have hc2 : c ∈ y.children_node_ids := hc
        obtain ⟨n, hn, hnid, hnpar⟩ := hcons.2 y hy c hc2
        have hct : c ≠ tid := by
          intro he
          have h3 := wf_not_self_child hwf hTmem
          rw [hTid] at h3
          rw [hyT, he] at hc2
          exact h3 hc2
        have hnt : n.node_id ≠ tid := by
          rw [hnid]
          exact hct
        refine ⟨pasteParentF tid pid f0 (some L.node_id) n,
          List.mem_append_left _ (List.mem_map_of_mem _ hn), ?_, ?_⟩
        · rw [pasteParentF_node_id, hnid]
        · rw [pasteParentF_par hnt, hnpar, hm2id]
      · by_cases hyp : y.node_id = pid
        · rw [← hFy, pasteParentF_at_pid hyt hyp] at hc
          have hc2 : c ∈ replaceInList tid f0 y.children_node_ids := hc
          rcases mem_replaceInList_elim hc2 with hcf | hcp
          · refine ⟨_, List.mem_append_right _ (List.mem_map_of_mem _ (List.mem_cons_self _ _)), ?_, ?_⟩
            · rw [leafAttachF_node_id]
              show f0 = c
              rw [hcf]
            · rw [leafAttachF_par]
              show some pid = some m2.node_id
              rw [hm2id, hyp]
          · obtain ⟨hcl, hcnt⟩ := hcp
            obtain ⟨n, hn, hnid, hnpar⟩ := hcons.2 y hy c hcl
            have hnt : n.node_id ≠ tid := by
              rw [hnid]
              exact hcnt
            refine ⟨pasteParentF tid pid f0 (some L.node_id) n,
              List.mem_append_left _ (List.mem_map_of_mem _ hn), ?_, ?_⟩
            · rw [pasteParentF_node_id, hnid]
            · rw [pasteParentF_par hnt, hnpar, hm2id]
        · rw [← hFy, pasteParentF_other hyt hyp] at hc
          obtain ⟨n, hn, hnid, hnpar⟩ := hcons.2 y hy c hc
          have hct : c ≠ tid := by
            intro he
            have hnT : n = T := nodup_id_inj hndg hn hTmem (by rw [hnid, he, hTid])
            rw [hnT, hTpar] at hnpar
            have hpy : pid = y.node_id := Option.some.inj hnpar
            exact hyp hpy.symm
          have hnt : n.node_id ≠ tid := by
            rw [hnid]
            exact hct
          refine ⟨pasteParentF tid pid f0 (some L.node_id) n,
            List.mem_append_left _ (List.mem_map_of_mem _ hn), ?_, ?_⟩
          · rw [pasteParentF_node_id, hnid]
          · rw [pasteParentF_par hnt, hnpar, hm2id]
    · obtain ⟨w, hw, hFw⟩ := List.mem_map.mp hns
      have hm2id : m2.node_id = w.node_id := by rw [← hFw, leafAttachF_node_id]
      by_cases hwE : w.children_node_ids.isEmpty = true
      · have hwL : w = L := huniq w hw hwE
        rw [← hFw, leafAttachF_at_leaf hwE] at hc
        have hc2 : c ∈ w.children_node_ids ++ [tid] := hc
        rcases List.mem_append.mp hc2 with hcw | hctid
        · exfalso
          rw [hwL, hLch] at hcw
          cases hcw
        · have hct : c = tid := List.mem_singleton.mp hctid
          refine ⟨pasteParentF tid pid f0 (some L.node_id) T,
            List.mem_append_left _ (List.mem_map_of_mem _ hTmem), ?_, ?_⟩
          · rw [pasteParentF_node_id, hTid, hct]
          · rw [pasteParentF_at_tid hTid]
            show some L.node_id = some m2.node_id
            rw [hm2id, hwL]
      · have hFww : leafAttachF tid w = w := leafAttachF_at_nonleaf hwE
        rw [← hFw, hFww] at hc
        obtain ⟨pr, hprm, hprsnd, hprch⟩ := hshape w hw
        rw [hprch] at hc
        obtain ⟨q2, hq2m, hq2snd, hq2bind⟩ := parent_build_children hnd hC pr hprm c hc
        rw [List.zip_cons_cons] at hq2m
        rcases List.mem_cons.mp hq2m with hq2h | hq2t
        · exfalso
          have hq1c0 : q2.1 = c0 := congrArg Prod.fst hq2h
          rw [hq1c0] at hq2bind
          cases hpp : c0.parent_node_id with
          | none =>
            rw [hpp] at hq2bind
            have hb : (none : Option String) = some pr.2 := hq2bind
            exact Option.noConfusion hb
          | some op =>
            rw [hpp] at hq2bind
            have hq3 : (clipMap ((c0 :: crest).zip (f0 :: frest))) op = some pr.2 := hq2bind
            obtain ⟨pw, hpwm, hpwid, hpwf⟩ := clipMap_mem hq3
            exact hhead op hpp (by rw [← hpwid]; exact List.mem_map_of_mem (fun n => n.node_id) (mem_zip_fst hpwm).1)
        · refine ⟨_, List.mem_append_right _ (List.mem_map_of_mem _ (List.mem_cons_of_mem _ (List.mem_map_of_mem _ hq2t))), ?_, ?_⟩
          · rw [leafAttachF_node_id]
            show q2.2 = c
            exact hq2snd
          · rw [leafAttachF_par]
            show q2.1.parent_node_id.bind (clipMap ((c0 :: crest).zip (f0 :: frest))) = some m2.node_id
            rw [hq2bind, hprsnd, hm2id]

theorem consistentN_pasteParent_root (g : SessionActionsGraph) (hwf : WF g)
    {tid f0 : String} {T L : ActionNode} {c0 : ActionNode}
    {crest : List ActionNode} {frest : List String}
    (hT : getNode g.nodes tid = some T)
    (hTpar : T.parent_node_id = none)
    (hnd : ((c0 :: crest).map (fun n => n.node_id)).Nodup)
    (hP : ClipParents (c0 :: crest))
    (hC : ClipChildren (c0 :: crest))
    (hfr : ∀ f ∈ f0 :: frest, f ∉ g.nodes.map (fun n => n.node_id))
    (hhead : ∀ p, c0.parent_node_id = some p → p ∉ (c0 :: crest).map (fun n => n.node_id))
    (hleaf : (({ node_id := f0, action_label_to_execute := c0.action_label_to_execute, parent_node_id := none, children_node_ids := c0.children_node_ids.filterMap (clipMap ((c0 :: crest).zip (f0 :: frest))), instance_label := c0.instance_label, custom_field_values := c0.custom_field_values } : ActionNode) :: (crest.zip frest).map (fun p => { node_id := p.2, action_label_to_execute := p.1.action_label_to_execute, parent_node_id := p.1.parent_node_id.bind (clipMap ((c0 :: crest).zip (f0 :: frest))), children_node_ids := p.1.children_node_ids.filterMap (clipMap ((c0 :: crest).zip (f0 :: frest))), instance_label := p.1.instance_label, custom_field_values := p.1.custom_field_values })).filter (fun n => n.children_node_ids.isEmpty) = [L]) :
    ConsistentN (g.nodes.map (pasteParentF tid ("") f0 (some L.node_id))
      ++ (({ node_id := f0, action_label_to_execute := c0.action_label_to_execute, parent_node_id := none, children_node_ids := c0.children_node_ids.filterMap (clipMap ((c0 :: crest).zip (f0 :: frest))), instance_label := c0.instance_label, custom_field_values := c0.custom_field_values } : ActionNode) :: (crest.zip frest).map (fun p => { node_id := p.2, action_label_to_execute := p.1.action_label_to_execute, parent_node_id := p.1.parent_node_id.bind (clipMap ((c0 :: crest).zip (f0 :: frest))), children_node_ids := p.1.children_node_ids.filterMap (clipMap ((c0 :: crest).zip (f0 :: frest))), instance_label := p.1.instance_label, custom_field_values := p.1.custom_field_values })).map (leafAttachF tid)) := by
  obtain ⟨hTmem, hTid⟩ := getNode_isSome_mem hT
  have hndg : (g.nodes.map (fun x => x.node_id)).Nodup := wf_nodupIds hwf
  have hcons := wf_consistent hwf
  have hLfilter : L ∈ (({ node_id := f0, action_label_to_execute := c0.action_label_to_execute, parent_node_id := none, children_node_ids := c0.children_node_ids.filterMap (clipMap ((c0 :: crest).zip (f0 :: frest))), instance_label := c0.instance_label, custom_field_values := c0.custom_field_values } : ActionNode) :: (crest.zip frest).map (fun p => { node_id := p.2, action_label_to_execute := p.1.action_label_to_execute, parent_node_id := p.1.parent_node_id.bind (clipMap ((c0 :: crest).zip (f0 :: frest))), children_node_ids := p.1.children_node_ids.filterMap (clipMap ((c0 :: crest).zip (f0 :: frest))), instance_label := p.1.instance_label, custom_field_values := p.1.custom_field_values })).filter (fun n => n.children_node_ids.isEmpty) := by
    rw [hleaf]
    exact List.mem_singleton.mpr rfl
  have hLmem2 : L ∈ ({ node_id := f0, action_label_to_execute := c0.action_label_to_execute, parent_node_id := none, children_node_ids := c0.children_node_ids.filterMap (clipMap ((c0 :: crest).zip (f0 :: frest))), instance_label := c0.instance_label, custom_field_values := c0.custom_field_values } : ActionNode) :: (crest.zip frest).map (fun p => { node_id := p.2, action_label_to_execute := p.1.action_label_to_execute, parent_node_id := p.1.parent_node_id.bind (clipMap ((c0 :: crest).zip (f0 :: frest))), children_node_ids := p.1.children_node_ids.filterMap (clipMap ((c0 :: crest).zip (f0 :: frest))), instance_label := p.1.instance_label, custom_field_values := p.1.custom_field_values }) := (List.mem_filter.mp hLfilter).1
  have hLempty : L.children_node_ids.isEmpty = true := (List.mem_filter.mp hLfilter).2
  have hLch : L.children_node_ids = [] := by
    cases hcL : L.children_node_ids with
    | nil => rfl
    | cons a t =>
      rw [hcL] at hLempty
      simp at hLempty
  have huniq : ∀ w ∈ ({ node_id := f0, action_label_to_execute := c0.action_label_to_execute, parent_node_id := none, children_node_ids := c0.children_node_ids.filterMap (clipMap ((c0 :: crest).zip (f0 :: frest))), instance_label := c0.instance_label, custom_field_values := c0.custom_field_values } : ActionNode) :: (crest.zip frest).map (fun p => { node_id := p.2, action_label_to_execute := p.1.action_label_to_execute, parent_node_id := p.1.parent_node_id.bind (clipMap ((c0 :: crest).zip (f0 :: frest))), children_node_ids := p.1.children_node_ids.filterMap (clipMap ((c0 :: crest).zip (f0 :: frest))), instance_label := p.1.instance_label, custom_field_values := p.1.custom_field_values }), w.children_node_ids.isEmpty = true → w = L := by
    intro w hw hwE
    have hwf2 : w ∈ ({ node_id := f0, action_label_to_execute := c0.action_label_to_execute, parent_node_id := none, children_node_ids := c0.children_node_ids.filterMap (clipMap ((c0 :: crest).zip (f0 :: frest))), instance_label := c0.instance_label, custom_field_values := c0.custom_field_values } :: (crest.zip frest).map (fun p => { node_id := p.2, action_label_to_execute := p.1.action_label_to_execute, parent_node_id := p.1.parent_node_id.bind (clipMap ((c0 :: crest).zip (f0 :: frest))), children_node_ids := p.1.children_node_ids.filterMap (clipMap ((c0 :: crest).zip (f0 :: frest))), instance_label := p.1.instance_label, custom_field_values := p.1.custom_field_values })).filter (fun n => n.children_node_ids.isEmpty) :=
      List.mem_filter.mpr ⟨hw, hwE⟩
    rw [hleaf] at hwf2
    exact List.mem_singleton.mp hwf2
  have hshape : ∀ w ∈ ({ node_id := f0, action_label_to_execute := c0.action_label_to_execute, parent_node_id := none, children_node_ids := c0.children_node_ids.filterMap (clipMap ((c0 :: crest).zip (f0 :: frest))), instance_label := c0.instance_label, custom_field_values := c0.custom_field_values } : ActionNode) :: (crest.zip frest).map (fun p => { node_id := p.2, action_label_to_execute := p.1.action_label_to_execute, parent_node_id := p.1.parent_node_id.bind (clipMap ((c0 :: crest).zip (f0 :: frest))), children_node_ids := p.1.children_node_ids.filterMap (clipMap ((c0 :: crest).zip (f0 :: frest))), instance_label := p.1.instance_label, custom_field_values := p.1.custom_field_values }), ∃ pr ∈ (c0 :: crest).zip (f0 :: frest),
      pr.2 = w.node_id ∧ w.children_node_ids = pr.1.children_node_ids.filterMap (clipMap ((c0 :: crest).zip (f0 :: frest))) := by
    intro w hw
    rcases List.mem_cons.mp hw with hwH | hwT
    · refine ⟨(c0, f0), by rw [List.zip_cons_cons]; exact List.mem_cons_self _ _, ?_, ?_⟩
      · rw [hwH]
      · rw [hwH]
    · obtain ⟨p2, hp2m, hp2e⟩ := List.mem_map.mp hwT
      refine ⟨p2, by rw [List.zip_cons_cons]; exact List.mem_cons_of_mem _ hp2m, ?_, ?_⟩
      · rw [← hp2e]
      · rw [← hp2e]
  constructor
  · intro n2 hn2 p hp
    rcases List.mem_append.mp hn2 with hgs | hns
    · obtain ⟨y, hy, hFy⟩ := List.mem_map.mp hgs
      have hn2id : n2.node_id = y.node_id := by rw [← hFy, pasteParentF_node_id]
      by_cases hy1 : y.node_id = tid
      · rw [← hFy, pasteParentF_at_tid hy1] at hp
        have hp2 : (some L.node_id : Option String) = some p := hp
        have hpL : p = L.node_id := (Option.some.inj hp2).symm
        refine ⟨leafAttachF tid L, List.mem_append_right _ (List.mem_map_of_mem _ hLmem2), ?_, ?_⟩
        · rw [leafAttachF_node_id, hpL]
        · rw [leafAttachF_at_leaf hLempty]
          show n2.node_id ∈ L.children_node_ids ++ [tid]
          rw [hn2id, hy1]
          exact List.mem_append_right _ (List.mem_singleton.mpr rfl)
      · rw [← hFy, pasteParentF_par hy1] at hp
        obtain ⟨m, hm, hmid, hmch⟩ := hcons.1 y hy p hp
        refine ⟨pasteParentF tid ("") f0 (some L.node_id) m,
          List.mem_append_left _ (List.mem_map_of_mem _ hm), ?_, ?_⟩
        · rw [pasteParentF_node_id, hmid]
        · rw [pasteParentF_ch (wf_noEmptyId hwf m hm)]
          rw [hn2id]
          exact hmch
    · obtain ⟨w, hw, hFw⟩ := List.mem_map.mp hns
      have hn2par : n2.parent_node_id = w.parent_node_id := by rw [← hFw, leafAttachF_par]
      have hn2id : n2.node_id = w.node_id := by rw [← hFw, leafAttachF_node_id]
      rw [hn2par] at hp
      rcases List.mem_cons.mp hw with hwH | hwT
      · rw [hwH] at hp
        have hp2 : (none : Option String) = some p := hp
        exact Option.noConfusion hp2
      · obtain ⟨p2, hp2m, hp2e⟩ := List.mem_map.mp hwT
        have hbind : p2.1.parent_node_id.bind (clipMap ((c0 :: crest).zip (f0 :: frest))) = some p := by
          rw [← hp2e] at hp
          exact hp
        have hp2pairs : p2 ∈ (c0 :: crest).zip (f0 :: frest) := by
          rw [List.zip_cons_cons]
          exact List.mem_cons_of_mem _ hp2m
        obtain ⟨cm, fm, hcmfm, hfmq, hmem⟩ := parent_build_parents hnd hP p2 hp2pairs p hbind
        rw [List.zip_cons_cons] at hcmfm
        rcases List.mem_cons.mp hcmfm with hhd | htl
        · have hcmc0 : cm = c0 := congrArg Prod.fst hhd
          have hfmf0 : fm = f0 := congrArg Prod.snd hhd
          refine ⟨_, List.mem_append_right _ (List.mem_map_of_mem _ (List.mem_cons_self _ _)), ?_, ?_⟩
          · rw [leafAttachF_node_id]
            show f0 = p
            rw [← hfmf0]
            exact hfmq
          · apply leafAttachF_mono
            show n2.node_id ∈ c0.children_node_ids.filterMap (clipMap ((c0 :: crest).zip (f0 :: frest)))
            rw [hn2id, ← hp2e]
            rw [hcmc0] at hmem
            exact hmem
        · refine ⟨_, List.mem_append_right _ (List.mem_map_of_mem _ (List.mem_cons_of_mem _ (List.mem_map_of_mem _ htl))), ?_, ?_⟩
          · rw [leafAttachF_node_id]
            show fm = p
            exact hfmq
          · apply leafAttachF_mono
            show n2.node_id ∈ cm.children_node_ids.filterMap (clipMap ((c0 :: crest).zip (f0 :: frest)))
            rw [hn2id, ← hp2e]
            exact hmem
  · intro m2 hm2 c hc
    rcases List.mem_append.mp hm2 with hgs | hns
    · obtain ⟨y, hy, hFy⟩ := List.mem_map.mp hgs
      have hm2id : m2.node_id = y.node_id := by rw [← hFy, pasteParentF_node_id]
      by_cases hyt : y.node_id = tid
      · have hyT : y = T := nodup_id_inj hndg hy hTmem (by rw [hyt, hTid])
        rw [← hFy, pasteParentF_at_tid hyt] at hc
        have hc2 : c ∈ y.children_node_ids := hc
        obtain ⟨n, hn, hnid, hnpar⟩ := hcons.2 y hy c hc2
        have hct : c ≠ tid := by
          intro he
          have h3 := wf_not_self_child hwf hTmem
          rw [hTid] at h3
          rw [hyT, he] at hc2
          exact h3 hc2
        have hnt : n.node_id ≠ tid := by
          rw [hnid]
          exact hct
        refine ⟨pasteParentF tid ("") f0 (some L.node_id) n,
          List.mem_append_left _ (List.mem_map_of_mem _ hn), ?_, ?_⟩
        · rw [pasteParentF_node_id, hnid]
        · rw [pasteParentF_par hnt, hnpar, hm2id]
      · rw [← hFy, pasteParentF_other hyt (wf_noEmptyId hwf y hy)] at hc
        obtain ⟨n, hn, hnid, hnpar⟩ := hcons.2 y hy c hc
        have hct : c ≠ tid := by
          intro he
          have hnT : n = T := nodup_id_inj hndg hn hTmem (by rw [hnid, he, hTid])
          rw [hnT, hTpar] at hnpar
          exact Option.noConfusion hnpar
        have hnt : n.node_id ≠ tid := by
          rw [hnid]
          exact hct
        refine ⟨pasteParentF tid ("") f0 (some L.node_id) n,
          List.mem_append_left _ (List.mem_map_of_mem _ hn), ?_, ?_⟩
        · rw [pasteParentF_node_id, hnid]
        · rw [pasteParentF_par hnt, hnpar, hm2id]
    · obtain ⟨w, hw, hFw⟩ := List.mem_map.mp hns
      have hm2id : m2.node_id = w.node_id := by rw [← hFw, leafAttachF_node_id]
      by_cases hwE : w.children_node_ids.isEmpty = true
      · have hwL : w = L := huniq w hw hwE
        rw [← hFw, leafAttachF_at_leaf hwE] at hc
        have hc2 : c ∈ w.children_node_ids ++ [tid] := hc
        rcases List.mem_append.mp hc2 with hcw | hctid
        · exfalso
          rw [hwL, hLch] at hcw
          cases hcw
        · have hct : c = tid := List.mem_singleton.mp hctid
          refine ⟨pasteParentF tid ("") f0 (some L.node_id) T,
            List.mem_append_left _ (List.mem_map_of_mem _ hTmem), ?_, ?_⟩
          · rw [pasteParentF_node_id, hTid, hct]
          · rw [pasteParentF_at_tid hTid]
            show some L.node_id = some m2.node_id
            rw [hm2id, hwL]
      · have hFww : leafAttachF tid w = w := leafAttachF_at_nonleaf hwE
        rw [← hFw, hFww] at hc
        obtain ⟨pr, hprm, hprsnd, hprch⟩ := hshape w hw
        rw [hprch] at hc
        obtain ⟨q2, hq2m, hq2snd, hq2bind⟩ := parent_build_children hnd hC pr hprm c hc
        rw [List.zip_cons_cons] at hq2m
        rcases List.mem_cons.mp hq2m with hq2h | hq2t
        · exfalso
          have hq1c0 : q2.1 = c0 := congrArg Prod.fst hq2h
          rw [hq1c0] at hq2bind
          cases hpp : c0.parent_node_id with
          | none =>
            rw [hpp] at hq2bind
            have hb : (none : Option String) = some pr.2 := hq2bind
            exact Option.noConfusion hb
          | some op =>
            rw [hpp] at hq2bind
            have hq3 : (clipMap ((c0 :: crest).zip (f0 :: frest))) op = some pr.2 := hq2bind
            obtain ⟨pw, hpwm, hpwid, hpwf⟩ := clipMap_mem hq3
            exact hhead op hpp (by rw [← hpwid]; exact List.mem_map_of_mem (fun n => n.node_id) (mem_zip_fst hpwm).1)
        · refine ⟨_, List.mem_append_right _ (List.mem_map_of_mem _ (List.mem_cons_of_mem _ (List.mem_map_of_mem _ hq2t))), ?_, ?_⟩
          · rw [leafAttachF_node_id]
            show q2.2 = c
            exact hq2snd
          · rw [leafAttachF_par]
            show q2.1.parent_node_id.bind (clipMap ((c0 :: crest).zip (f0 :: frest))) = some m2.node_id
            rw [hq2bind, hprsnd, hm2id]

theorem consistent_pasteBranchAsParent (g : SessionActionsGraph) (hwf : WF g)
    (tid f0 : String) (c0 : ActionNode) (crest : List ActionNode)
    (frest : List String) {T L : ActionNode}
    (hT : getNode g.nodes tid = some T)
    (hnd : ((c0 :: crest).map (fun n => n.node_id)).Nodup)
    (hP : ClipParents (c0 :: crest))
    (hC : ClipChildren (c0 :: crest))
    (hfr : ∀ f ∈ f0 :: frest, f ∉ g.nodes.map (fun n => n.node_id))
    (hhead : ∀ p, c0.parent_node_id = some p → p ∉ (c0 :: crest).map (fun n => n.node_id))
    (hleaf : (({ node_id := f0, action_label_to_execute := c0.action_label_to_execute, parent_node_id := T.parent_node_id, children_node_ids := c0.children_node_ids.filterMap (clipMap ((c0 :: crest).zip (f0 :: frest))), instance_label := c0.instance_label, custom_field_values := c0.custom_field_values } : ActionNode) :: (crest.zip frest).map (fun p => { node_id := p.2, action_label_to_execute := p.1.action_label_to_execute, parent_node_id := p.1.parent_node_id.bind (clipMap ((c0 :: crest).zip (f0 :: frest))), children_node_ids := p.1.children_node_ids.filterMap (clipMap ((c0 :: crest).zip (f0 :: frest))), instance_label := p.1.instance_label, custom_field_values := p.1.custom_field_values })).filter (fun n => n.children_node_ids.isEmpty) = [L]) :
    Consistent (pasteBranchAsParent g tid (c0 :: crest) (f0 :: frest)) := by
  obtain ⟨hTmem, hTid⟩ := getNode_isSome_mem hT
  cases hTpar : T.parent_node_id with
  | some pid =>
    have hpne : pid ≠ "" := wf_parent_nonempty hwf hTmem hTpar
    have htp : tid ≠ pid := by
      intro he
      exact wf_no_self_parent hwf hTmem (by rw [hTpar, ← he, hTid])
    rw [hTpar] at hleaf
    have hnodes : (pasteBranchAsParent g tid (c0 :: crest) (f0 :: frest)).nodes
        = upd (upd g.nodes pid (fun n => { n with children_node_ids := replaceInList tid f0 n.children_node_ids })) tid (fun n => { n with parent_node_id := some L.node_id })
          ++ (({ node_id := f0, action_label_to_execute := c0.action_label_to_execute, parent_node_id := some pid, children_node_ids := c0.children_node_ids.filterMap (clipMap ((c0 :: crest).zip (f0 :: frest))), instance_label := c0.instance_label, custom_field_values := c0.custom_field_values } : ActionNode) :: (crest.zip frest).map (fun p => { node_id := p.2, action_label_to_execute := p.1.action_label_to_execute, parent_node_id := p.1.parent_node_id.bind (clipMap ((c0 :: crest).zip (f0 :: frest))), children_node_ids := p.1.children_node_ids.filterMap (clipMap ((c0 :: crest).zip (f0 :: frest))), instance_label := p.1.instance_label, custom_field_values := p.1.custom_field_values })).map (leafAttachF tid) := by
      simp only [pasteBranchAsParent, List.isEmpty_cons, Bool.false_eq_true, if_false,
        hT, pasteParentBuild_cons, hTpar, ne_eq, hpne, not_false_eq_true, if_true,
        hleaf, List.map_cons, List.map_nil, List.head?_cons]
      rfl
    rw [consistent_iff_nodes, hnodes,
      pasteParent_pipeline g.nodes tid pid f0 (some L.node_id) htp]
    exact consistentN_pasteParent g hwf hT hTpar hnd hP hC hfr hhead hleaf
  | none =>
    rw [hTpar] at hleaf
    have hnodes : (pasteBranchAsParent g tid (c0 :: crest) (f0 :: frest)).nodes
        = upd g.nodes tid (fun n => { n with parent_node_id := some L.node_id })
          ++ (({ node_id := f0, action_label_to_execute := c0.action_label_to_execute, parent_node_id := none, children_node_ids := c0.children_node_ids.filterMap (clipMap ((c0 :: crest).zip (f0 :: frest))), instance_label := c0.instance_label, custom_field_values := c0.custom_field_values } : ActionNode) :: (crest.zip frest).map (fun p => { node_id := p.2, action_label_to_execute := p.1.action_label_to_execute, parent_node_id := p.1.parent_node_id.bind (clipMap ((c0 :: crest).zip (f0 :: frest))), children_node_ids := p.1.children_node_ids.filterMap (clipMap ((c0 :: crest).zip (f0 :: frest))), instance_label := p.1.instance_label, custom_field_values := p.1.custom_field_values })).map (leafAttachF tid) := by
      simp only [pasteBranchAsParent, List.isEmpty_cons, Bool.false_eq_true, if_false,
        hT, pasteParentBuild_cons, hTpar,
        hleaf, List.map_cons, List.map_nil, List.head?_cons]
      rfl
    rw [consistent_iff_nodes, hnodes,
      pasteParent_pipeline_root g.nodes tid f0 (some L.node_id)
        (fun n hn => wf_noEmptyId hwf n hn)]
    exact consistentN_pasteParent_root g hwf hT hTpar hnd hP hC hfr hhead hleaf

/-- C1 (amended): every structural operation of §4.3 preserves bidirectional
parent/child consistency on a well-formed graph — add root action to a step,
add child, add sibling, add parent, insert intermediate, move up, move down,
remove action only, remove branch, remove step, the three single-action
paste variants, paste branch as child, paste branch as brother and paste
step content, each under the handlers' freshness and clipboard-sanity
guarantees — and paste branch as parent preserves it when the pasted branch
produces exactly one leaf clone.  (The unrestricted original claim fails for
paste branch as parent: see the two-leaf counterexample theorem.) -/
theorem c1_structural_ops_preserve_consistency :
    (∀ (g : SessionActionsGraph) (hwf : WF g) (stepId label fresh : String),
      Consistent (addActionToStep g stepId label fresh))
    ∧ (∀ (g : SessionActionsGraph) (hwf : WF g) (pid label fresh : String)
        (hPex : ∃ P ∈ g.nodes, P.node_id = pid)
        (hfr : fresh ∉ g.nodes.map (fun n => n.node_id)),
      Consistent (addChildAction g pid label fresh))
    ∧ (∀ (g : SessionActionsGraph) (hwf : WF g) (tid label fresh : String)
        (hfr : fresh ∉ g.nodes.map (fun n => n.node_id)),
      Consistent (addSiblingAction g tid label fresh))
    ∧ (∀ (g : SessionActionsGraph) (hwf : WF g) (tid label fresh : String)
        (hfr : fresh ∉ g.nodes.map (fun n => n.node_id)),
      Consistent (addParentAction g tid label fresh))
    ∧ (∀ (g : SessionActionsGraph) (hwf : WF g) (tid label fresh : String)
        (hfr : fresh ∉ g.nodes.map (fun n => n.node_id)),
      Consistent (insertIntermediateAction g tid label fresh))
    ∧ (∀ (g : SessionActionsGraph) (hwf : WF g) (aid : String),
      Consistent (moveActionUp g aid))
    ∧ (∀ (g : SessionActionsGraph) (hwf : WF g) (tid : String),
      Consistent (moveActionDown g tid))
    ∧ (∀ (g : SessionActionsGraph) (hwf : WF g) (tid : String),
      Consistent (removeActionOnly g tid))
    ∧ (∀ (g : SessionActionsGraph) (hwf : WF g) (tid : String),
      Consistent (removeBranch g tid))
    ∧ (∀ (g : SessionActionsGraph) (hwf : WF g) (sid : String),
      Consistent (removeStep g sid))
    ∧ (∀ (g : SessionActionsGraph) (hwf : WF g) (tid : String)
        (clipN : ActionNode) (fresh : String)
        (hPex : ∃ P ∈ g.nodes, P.node_id = tid)
        (hfr : fresh ∉ g.nodes.map (fun n => n.node_id)),
      Consistent (pasteActionAsChild g tid clipN fresh))
    ∧ (∀ (g : SessionActionsGraph) (hwf : WF g) (tid : String)
        (clipN : ActionNode) (fresh : String)
        (hfr : fresh ∉ g.nodes.map (fun n => n.node_id)),
      Consistent (pasteActionAsBrother g tid clipN fresh))
    ∧ (∀ (g : SessionActionsGraph) (hwf : WF g) (tid : String)
        (clipN : ActionNode) (fresh : String)
        (hfr : fresh ∉ g.nodes.map (fun n => n.node_id)),
      Consistent (pasteActionAsParent g tid clipN fresh))
    ∧ (∀ (g : SessionActionsGraph) (hwf : WF g) (tid f0 : String)
        (c0 : ActionNode) (crest : List ActionNode) (frest : List String)
        {T : ActionNode} (hT : getNode g.nodes tid = some T)
        (hnd : ((c0 :: crest).map (fun n => n.node_id)).Nodup)
        (hP : ClipParents (c0 :: crest)) (hC : ClipChildren (c0 :: crest))
        (hfr : ∀ f ∈ f0 :: frest, f ∉ g.nodes.map (fun n => n.node_id))
        (hhead : ∀ p, c0.parent_node_id = some p →
          p ∉ (c0 :: crest).map (fun n => n.node_id)),
      Consistent (pasteBranchAsChild g tid (c0 :: crest) (f0 :: frest)))
    ∧ (∀ (g : SessionActionsGraph) (hwf : WF g) (tid f0 : String)
        (c0 : ActionNode) (crest : List ActionNode) (frest : List String)
        (hnd : ((c0 :: crest).map (fun n => n.node_id)).Nodup)
        (hP : ClipParents (c0 :: crest)) (hC : ClipChildren (c0 :: crest))
        (hfr : ∀ f ∈ f0 :: frest, f ∉ g.nodes.map (fun n => n.node_id))
        (hhead : ∀ p, c0.parent_node_id = some p →
          p ∉ (c0 :: crest).map (fun n => n.node_id)),
      Consistent (pasteBranchAsBrother g tid (c0 :: crest) (f0 :: frest)))
    ∧ (∀ (g : SessionActionsGraph) (hwf : WF g) (tid f0 : String)
        (c0 : ActionNode) (crest : List ActionNode) (frest : List String)
        {T L : ActionNode} (hT : getNode g.nodes tid = some T)
        (hnd : ((c0 :: crest).map (fun n => n.node_id)).Nodup)
        (hP : ClipParents (c0 :: crest)) (hC : ClipChildren (c0 :: crest))
        (hfr : ∀ f ∈ f0 :: frest, f ∉ g.nodes.map (fun n => n.node_id))
        (hhead : ∀ p, c0.parent_node_id = some p →
          p ∉ (c0 :: crest).map (fun n => n.node_id))
        (hleaf : (({ node_id := f0, action_label_to_execute := c0.action_label_to_execute, parent_node_id := T.parent_node_id, children_node_ids := c0.children_node_ids.filterMap (clipMap ((c0 :: crest).zip (f0 :: frest))), instance_label := c0.instance_label, custom_field_values := c0.custom_field_values } : ActionNode) :: (crest.zip frest).map (fun p => { node_id := p.2, action_label_to_execute := p.1.action_label_to_execute, parent_node_id := p.1.parent_node_id.bind (clipMap ((c0 :: crest).zip (f0 :: frest))), children_node_ids := p.1.children_node_ids.filterMap (clipMap ((c0 :: crest).zip (f0 :: frest))), instance_label := p.1.instance_label, custom_field_values := p.1.custom_field_values })).filter (fun n => n.children_node_ids.isEmpty) = [L]),
      Consistent (pasteBranchAsParent g tid (c0 :: crest) (f0 :: frest)))
    ∧ (∀ (g : SessionActionsGraph) (hwf : WF g) (sid f0 : String)
        (c0 : ActionNode) (crest : List ActionNode) (frest : List String)
        (hnd : ((c0 :: crest).map (fun n => n.node_id)).Nodup)
        (hne : ∀ n ∈ c0 :: crest, n.node_id ≠ "")
        (hP : ClipParents (c0 :: crest)) (hC : ClipChildren (c0 :: crest)),
      Consistent (pasteStepContent g sid (c0 :: crest) (f0 :: frest))) :=
  ⟨consistent_addActionToStep, consistent_addChildAction,
   consistent_addSiblingAction, consistent_addParentAction,
   consistent_insertIntermediateAction, consistent_moveActionUp,
   consistent_moveActionDown, consistent_removeActionOnly,
   consistent_removeBranch, consistent_removeStep,
   consistent_pasteActionAsChild, consistent_pasteActionAsBrother,
   consistent_pasteActionAsParent, consistent_pasteBranchAsChild,
   consistent_pasteBranchAsBrother, consistent_pasteBranchAsParent,
   consistent_pasteStepContent⟩

/-- C1, refuting the unrestricted claim for paste-branch-as-parent: the graph
`a > {b, c}` is well-formed, the clipboard `x > {y, z}` is a duplicate-free,
internally consistent branch copy whose root's parent stays outside it, and
the generated ids are fresh — yet pasting the branch as parent of `b` yields
a graph violating bidirectional consistency (`b` is re-parented to the first
leaf clone only, while both leaf clones list `b` as a child). -/
theorem c1_paste_parent_two_leaves_breaks_consistency :
    WF cxGraph ∧
    (([cxX, cxY, cxZ].map (fun n => n.node_id)).Nodup) ∧
    ClipParents [cxX, cxY, cxZ] ∧ ClipChildren [cxX, cxY, cxZ] ∧
    (∀ p, cxX.parent_node_id = some p →
      p ∉ [cxX, cxY, cxZ].map (fun n => n.node_id)) ∧
    (∀ f ∈ [("nx"), ("ny"), ("nz")], f ∉ cxGraph.nodes.map (fun n => n.node_id)) ∧
    ¬ Consistent (pasteBranchAsParent cxGraph ("b") [cxX, cxY, cxZ]
      [("nx"), ("ny"), ("nz")]) := by
  decide

theorem c1_structural_ops_preserve_consistency_witness :
    WF c2g ∧ WF cxGraph ∧
    Consistent (moveActionUp c2g ("n")) ∧
    Consistent (pasteBranchAsParent cxGraph ("b") [cwX, cwY] [("nx"), ("ny")]) := by
  refine ⟨by decide, by decide, ?_, ?_⟩
  · exact c1_structural_ops_preserve_consistency.2.2.2.2.2.1 c2g (by decide) ("n")
  · exact c1_structural_ops_preserve_consistency.2.2.2.2.2.2.2.2.2.2.2.2.2.2.2.1
      cxGraph (by decide) ("b") ("nx") cwX [cwY] [("ny")]
      (by decide : getNode cxGraph.nodes ("b") = some cxB)
      (by decide) (by decide) (by decide) (by decide) (by decide)
      (by decide : (({ node_id := ("nx"), action_label_to_execute := cwX.action_label_to_execute, parent_node_id := cxB.parent_node_id, children_node_ids := cwX.children_node_ids.filterMap (clipMap ((cwX :: [cwY]).zip (("nx") :: [("ny")]))), instance_label := cwX.instance_label, custom_field_values := cwX.custom_field_values } : ActionNode) :: ([cwY].zip [("ny")]).map (fun p => { node_id := p.2, action_label_to_execute := p.1.action_label_to_execute, parent_node_id := p.1.parent_node_id.bind (clipMap ((cwX :: [cwY]).zip (("nx") :: [("ny")]))), children_node_ids := p.1.children_node_ids.filterMap (clipMap ((cwX :: [cwY]).zip (("nx") :: [("ny")]))), instance_label := p.1.instance_label, custom_field_values := p.1.custom_field_values })).filter (fun n => n.children_node_ids.isEmpty) = [cwLeaf])

/-! ### Claim C2 — remove-action-only promotes the children in place -/

/-- C2: removing node `N` "only" behaves as claimed.  The surviving ids are
exactly the old ids minus `N`'s; each child of `N` survives with its parent
reference retargeted to `N`'s former parent; every node unrelated to `N`
survives unchanged.  When `N` has a parent `P`, the steps are untouched and
`P` survives with its children list equal to the old one with `N`'s entry
replaced in place by `N`'s children in their original order; when `N` is a
root, the first step listing it has its root list changed the same way, and
the steps before it do not list `N`. -/
theorem c2_remove_only (g : SessionActionsGraph) (nid : String) (N : ActionNode)
    (hwf : WF g) (hN : getNode g.nodes nid = some N) :
    ((removeActionOnly g nid).nodes.map (fun n => n.node_id)
        = (g.nodes.map (fun n => n.node_id)).filter (fun x => x ≠ nid))
    ∧ (∀ c ∈ N.children_node_ids, ∀ C ∈ g.nodes, C.node_id = c →
        { C with parent_node_id := N.parent_node_id } ∈ (removeActionOnly g nid).nodes)
    ∧ (∀ m ∈ g.nodes, m.node_id ≠ nid → m.node_id ∉ N.children_node_ids →
        N.parent_node_id ≠ some m.node_id → m ∈ (removeActionOnly g nid).nodes)
    ∧ (∀ pid, N.parent_node_id = some pid →
        (removeActionOnly g nid).steps = g.steps ∧
        ∀ P ∈ g.nodes, P.node_id = pid → ∀ pre post,
          P.children_node_ids = pre ++ nid :: post →
          { P with children_node_ids := pre ++ N.children_node_ids ++ post }
            ∈ (removeActionOnly g nid).nodes)
    ∧ (N.parent_node_id = none → ∀ s ∈ g.steps, nid ∈ s.root_node_ids →
        ∃ l1 s2 l2, g.steps = l1 ++ s2 :: l2 ∧ nid ∈ s2.root_node_ids ∧
          (∀ t ∈ l1, nid ∉ t.root_node_ids) ∧
          ∀ pre post, s2.root_node_ids = pre ++ nid :: post →
            (removeActionOnly g nid).steps
              = l1 ++ { s2 with root_node_ids := pre ++ N.children_node_ids ++ post } :: l2) := by
  obtain ⟨hNmem, hNid⟩ := getNode_isSome_mem hN
  have hnid_cp : nid ∉ N.children_node_ids := by
    have h2 := wf_not_self_child hwf hNmem
    rwa [hNid] at h2
  cases hpar : N.parent_node_id with
  | some pid =>
    have hpne : pid ≠ "" := wf_parent_nonempty hwf hNmem hpar
    have hpid_nid : pid ≠ nid := by
      intro he
      exact wf_no_self_parent hwf hNmem (by rw [hpar, he, hNid])
    have hpid_cp : pid ∉ N.children_node_ids := wf_parent_not_child hwf hNmem hpar
    have hnodes : (removeActionOnly g nid).nodes
        = (upd (updEach g.nodes N.children_node_ids
              (fun n => { n with parent_node_id := some pid }))
            pid (fun n => { n with children_node_ids := spliceInList nid N.children_node_ids n.children_node_ids })).filter
          (fun n => n.node_id ≠ nid) := by
      simp [removeActionOnly, hN, hpar, hpne]
    have hsteps : (removeActionOnly g nid).steps = g.steps := by
      simp [removeActionOnly, hN, hpar, hpne]
    have hUE : updEach g.nodes N.children_node_ids
        (fun n => { n with parent_node_id := some pid })
        = g.nodes.map (fun n => if n.node_id ∈ N.children_node_ids
            then { n with parent_node_id := some pid } else n) :=
      updEach_eq_map (fun n => rfl) (fun n => rfl)
    refine ⟨?_, ?_, ?_, ?_, ?_⟩
    · rw [hnodes, map_node_id_filter, upd_map_node_id, updEach_map_node_id]
      all_goals exact fun n => rfl
    · intro c hc C hC hCid
      have hc_nid : c ≠ nid := fun he => hnid_cp (by rw [← he]; exact hc)
      have hc_pid : c ≠ pid := fun he => hpid_cp (by rw [← he]; exact hc)
      have h1 : (if C.node_id ∈ N.children_node_ids
          then { C with parent_node_id := some pid } else C)
          ∈ g.nodes.map (fun n => if n.node_id ∈ N.children_node_ids
            then { n with parent_node_id := some pid } else n) :=
        List.mem_map_of_mem _ hC
      rw [if_pos (by rw [hCid]; exact hc), ← hUE] at h1
      have h2 := mem_upd_of_ne (i := pid)
        (f := fun n => { n with children_node_ids := spliceInList nid N.children_node_ids n.children_node_ids }) h1
        (by show C.node_id ≠ pid; rw [hCid]; exact hc_pid)
      rw [hnodes]
      exact List.mem_filter.mpr ⟨h2, by simp [hCid, hc_nid]⟩
    · intro m hm hm1 hm2 hm3
      have h1 : (if m.node_id ∈ N.children_node_ids
          then { m with parent_node_id := some pid } else m)
          ∈ g.nodes.map (fun n => if n.node_id ∈ N.children_node_ids
            then { n with parent_node_id := some pid } else n) :=
        List.mem_map_of_mem _ hm
      rw [if_neg hm2, ← hUE] at h1
      have hm_pid : m.node_id ≠ pid := fun he => hm3 (by rw [he])
      rw [hnodes]
      exact List.mem_filter.mpr ⟨mem_upd_of_ne h1 hm_pid, by simp [hm1]⟩
    · intro pid2 hpid2
      have hpe : pid = pid2 := Option.some.inj hpid2
      subst hpe
      refine ⟨hsteps, ?_⟩
      intro P hP hPid pre post hsplit
      have hndP : P.children_node_ids.Nodup := wf_nodupChildren hwf P hP
      rw [hsplit] at hndP
      obtain ⟨hnp1, hnp2⟩ := nodup_split_not_mem hndP
      have h1 : (if P.node_id ∈ N.children_node_ids
          then { P with parent_node_id := some pid } else P)
          ∈ g.nodes.map (fun n => if n.node_id ∈ N.children_node_ids
            then { n with parent_node_id := some pid } else n) :=
        List.mem_map_of_mem _ hP
      rw [if_neg (by rw [hPid]; exact hpid_cp), ← hUE] at h1
      have h2 := mem_upd_target (f := fun n => { n with children_node_ids := spliceInList nid N.children_node_ids n.children_node_ids }) h1 hPid
      simp only [] at h2
      rw [hsplit, spliceInList_split pre post hnp1 hnp2] at h2
      rw [hnodes]
      exact List.mem_filter.mpr ⟨h2, by simp [hPid, hpid_nid]⟩
    · intro h0
      simp at h0
  | none =>
    have hnodes : (removeActionOnly g nid).nodes
        = (updEach g.nodes N.children_node_ids
            (fun n => { n with parent_node_id := none })).filter
          (fun n => n.node_id ≠ nid) := by
      simp [removeActionOnly, hN, hpar]
    have hsteps : (removeActionOnly g nid).steps
        = updateFirstStep (fun s => s.root_node_ids.contains nid)
            (fun s => { s with root_node_ids := spliceInList nid N.children_node_ids s.root_node_ids }) g.steps := by
      simp [removeActionOnly, hN, hpar]
    have hUE : updEach g.nodes N.children_node_ids
        (fun n => { n with parent_node_id := none })
        = g.nodes.map (fun n => if n.node_id ∈ N.children_node_ids
            then { n with parent_node_id := none } else n) :=
      updEach_eq_map (fun n => rfl) (fun n => rfl)
    refine ⟨?_, ?_, ?_, ?_, ?_⟩
    · rw [hnodes, map_node_id_filter, updEach_map_node_id]
      all_goals exact fun n => rfl
    · intro c hc C hC hCid
      have hc_nid : c ≠ nid := fun he => hnid_cp (by rw [← he]; exact hc)
      have h1 : (if C.node_id ∈ N.children_node_ids
          then { C with parent_node_id := none } else C)
          ∈ g.nodes.map (fun n => if n.node_id ∈ N.children_node_ids
            then { n with parent_node_id := none } else n) :=
        List.mem_map_of_mem _ hC
      rw [if_pos (by rw [hCid]; exact hc), ← hUE] at h1
      rw [hnodes]
      exact List.mem_filter.mpr ⟨h1, by simp [hCid, hc_nid]⟩
    · intro m hm hm1 hm2 hm3
      have h1 : (if m.node_id ∈ N.children_node_ids
          then { m with parent_node_id := none } else m)
          ∈ g.nodes.map (fun n => if n.node_id ∈ N.children_node_ids
            then { n with parent_node_id := none } else n) :=
        List.mem_map_of_mem _ hm
      rw [if_neg hm2, ← hUE] at h1
      rw [hnodes]
      exact List.mem_filter.mpr ⟨h1, by simp [hm1]⟩
    · intro pid2 hpid2
      simp at hpid2
    · intro _ s hs hroot
      have hex : ∃ t ∈ g.steps, t.root_node_ids.contains nid = true :=
        ⟨s, hs, by simpa using hroot⟩
      obtain ⟨l1, s2, l2, hst, hp2, hl1, hupd⟩ :=
        updateFirstStep_split (fun u => u.root_node_ids.contains nid)
          (fun u => { u with root_node_ids := spliceInList nid N.children_node_ids u.root_node_ids }) g.steps hex
      have hs2mem : s2 ∈ g.steps := by rw [hst]; simp
      have hroot2 : nid ∈ s2.root_node_ids := by simpa using hp2
      refine ⟨l1, s2, l2, hst, hroot2, ?_, ?_⟩
      · intro t ht
        have h3 := hl1 t ht
        simp at h3
        exact h3
      · intro pre post hsplit2
        have hnd2 : s2.root_node_ids.Nodup :=
          roots_nodup_of_mem (wf_rootsNodup hwf) hs2mem
        rw [hsplit2] at hnd2
        obtain ⟨hq1, hq2⟩ := nodup_split_not_mem hnd2
        rw [hsteps, hupd]
        show l1 ++ { s2 with root_node_ids := spliceInList nid N.children_node_ids s2.root_node_ids } :: l2 = _
        rw [hsplit2, spliceInList_split pre post hq1 hq2]

/-- C2 witness: the theorem applied to a four-node fixture (root `a`, removed
node `n` with children `b`, `c`), instantiating the id equation. -/
theorem c2_remove_only_witness :
    WF c2g ∧ getNode c2g.nodes ("n") = some c2N ∧
      ((removeActionOnly c2g ("n")).nodes.map (fun n => n.node_id)
        = (c2g.nodes.map (fun n => n.node_id)).filter (fun x => x ≠ ("n"))) :=
  ⟨by decide, by decide, (c2_remove_only c2g ("n") c2N (by decide) (by decide)).1⟩

/-! ### Claim C3 — move-up then move-down restores the graph -/

/-- C3: for a node `A` satisfying the move-up precondition (a parent `B`
whose only child is `A`), moving `A` up and then moving it down again
restores the graph exactly: same nodes with the same parent and children
references, and the same steps with the same root lists. -/
theorem c3_move_up_down (g : SessionActionsGraph) (aid : String) (A : ActionNode)
    (hwf : WF g) (hA : getNode g.nodes aid = some A)
    (hcan : canMoveActionUp g A = true) :
    moveActionDown (moveActionUp g aid) aid = g := by
  obtain ⟨hAmem, hAid⟩ := getNode_isSome_mem hA
  have hndg : NodupIds g := wf_nodupIds hwf
  have hcons : Consistent g := wf_consistent hwf
  obtain ⟨bid, B, hpar, hbe, hB, hlen⟩ := canMoveActionUp_inv hcan
  obtain ⟨hBmem, hBid⟩ := getNode_isSome_mem hB
  have haidB : aid ∈ B.children_node_ids := by
    obtain ⟨P, hPmem, hPid, hPch⟩ := parent_spec hcons hAmem hpar
    have hPB : P = B := nodup_id_inj hndg hPmem hBmem (by rw [hPid, hBid])
    rw [hPB] at hPch
    rwa [hAid] at hPch
  have hBch : B.children_node_ids = [aid] := by
    cases hc : B.children_node_ids with
    | nil =>
      rw [hc] at haidB
      cases haidB
    | cons x t =>
      rw [hc] at hlen haidB
      have ht : t = [] := by
        rw [List.length_cons] at hlen
        exact List.length_eq_zero.mp (Nat.succ_injective hlen)
      subst ht
      have hax : aid = x := by simpa using haidB
      rw [hax]
  have haidbid : aid ≠ bid := by
    intro he
    exact wf_no_self_parent hwf hAmem (by rw [hpar, ← he, hAid])
  have hbidaid : bid ≠ aid := fun he => haidbid he.symm
  have hcs_aid : aid ∉ A.children_node_ids := by
    have h2 := wf_not_self_child hwf hAmem
    rwa [hAid] at h2
  have hcs_bid : bid ∉ A.children_node_ids := wf_parent_not_child hwf hAmem hpar
  have hAparB : A.parent_node_id = some B.node_id := by rw [hpar, hBid]
  have hchild : ∀ n ∈ g.nodes, n.node_id ∈ A.children_node_ids →
      n.parent_node_id = some aid := by
    intro n hn hmem
    obtain ⟨C, hCmem, hCid, hCpar⟩ := child_spec hcons hAmem hmem
    have hCn : C = n := nodup_id_inj hndg hCmem hn hCid
    rw [← hCn, hCpar, hAid]
  have haidroots : ∀ s ∈ g.steps, aid ∉ s.root_node_ids := by
    intro s hs hmem
    obtain ⟨m, hmmem, hmid, hmpar⟩ := wf_rootsOk hwf s hs aid hmem
    have hmA : m = A := nodup_id_inj hndg hmmem hAmem (by rw [hmid, hAid])
    rw [hmA, hpar] at hmpar
    cases hmpar
  cases hgp : B.parent_node_id with
  | some gpid =>
    have hgpne : gpid ≠ "" := wf_parent_nonempty hwf hBmem hgp
    have hgpaid : gpid ≠ aid := by
      intro he
      exact wf_no_two_cycle hwf hAmem hBmem hAparB (by rw [hgp, he, hAid])
    have haidgp : aid ≠ gpid := fun he => hgpaid he.symm
    have hgpbid : gpid ≠ bid := by
      intro he
      exact wf_no_self_parent hwf hBmem (by rw [hgp, he, hBid])
    have hbidgp : bid ≠ gpid := fun he => hgpbid he.symm
    have hgpcs : gpid ∉ A.children_node_ids := by
      intro hmem
      obtain ⟨C, hCmem, hCid, hCpar⟩ := child_spec hcons hAmem hmem
      exact wf_no_three_cycle hwf hBmem hCmem hAmem (by rw [hgp, hCid]) (by rw [hCpar, hAid]) (by rw [hAparB])
    obtain ⟨G, hGmem, hGid, hGchB⟩ := parent_spec hcons hBmem hgp
    have hGch : bid ∈ G.children_node_ids := by rw [← hBid]; exact hGchB
    have hGnd : G.children_node_ids.Nodup := wf_nodupChildren hwf G hGmem
    have haidG : aid ∉ G.children_node_ids := by
      intro hmem
      obtain ⟨C, hCmem, hCid, hCpar⟩ := child_spec hcons hGmem hmem
      have hCA : C = A := nodup_id_inj hndg hCmem hAmem (by rw [hCid, hAid])
      rw [hCA, hpar] at hCpar
      have hbg : bid = G.node_id := Option.some.inj hCpar
      exact hgpbid ((hbg.trans hGid).symm)
    obtain ⟨pre, post, hGsplit⟩ := List.append_of_mem hGch
    have hGnd2 : (pre ++ bid :: post).Nodup := by rw [← hGsplit]; exact hGnd
    obtain ⟨hbpre, hbpost⟩ := nodup_split_not_mem hGnd2
    have hapre : aid ∉ pre := fun hm => haidG (by rw [hGsplit]; exact List.mem_append_left _ hm)
    have hapost : aid ∉ post := fun hm => haidG (by rw [hGsplit]; exact List.mem_append_right _ (List.mem_cons_of_mem _ hm))
    have hrr : replaceInList aid bid (replaceInList bid aid G.children_node_ids) = G.children_node_ids := by
      rw [hGsplit, replaceInList_split pre post hbpre hbpost, replaceInList_split pre post hapre hapost]
    have hnodes1 : (moveActionUp g aid).nodes
        = upd (updEach (upd (upd g.nodes aid (fun n => { n with parent_node_id := some gpid, children_node_ids := [bid] })) bid (fun n => { n with parent_node_id := some aid, children_node_ids := A.children_node_ids })) A.children_node_ids (fun n => { n with parent_node_id := some bid })) gpid (fun n => { n with children_node_ids := replaceInList bid aid n.children_node_ids }) := by
      simp [moveActionUp, hA, hcan, hpar, hB, hgp, hgpne]
    have hsteps1 : (moveActionUp g aid).steps = g.steps := by
      simp [moveActionUp, hA, hcan, hpar, hB, hgp, hgpne]
    have hname1 : (moveActionUp g aid).session_name = g.session_name := by
      simp [moveActionUp, hA, hcan, hpar, hB, hgp, hgpne]
    have hids1 : (moveActionUp g aid).nodes.map (fun n => n.node_id) = g.nodes.map (fun n => n.node_id) := by
      rw [hnodes1, upd_map_node_id, updEach_map_node_id, upd_map_node_id, upd_map_node_id]
      all_goals exact fun n => rfl
    have hnd1 : ((moveActionUp g aid).nodes.map (fun n => n.node_id)).Nodup := by
      rw [hids1]
      exact hndg
    have hA'mem : ({ A with parent_node_id := some gpid, children_node_ids := [bid] } : ActionNode) ∈ (moveActionUp g aid).nodes := by
      rw [hnodes1]
      have s1 : ({ A with parent_node_id := some gpid, children_node_ids := [bid] } : ActionNode) ∈ upd g.nodes aid (fun n => { n with parent_node_id := some gpid, children_node_ids := [bid] }) :=
        mem_upd_target hAmem hAid
      have s2 := mem_upd_of_ne (i := bid) (f := fun n => { n with parent_node_id := some aid, children_node_ids := A.children_node_ids }) s1 (by show A.node_id ≠ bid; rw [hAid]; exact haidbid)
      have s3 := mem_updEach_of_not_mem (f := fun n => { n with parent_node_id := some bid }) (fun n => rfl) (fun n => rfl) s2 (by show A.node_id ∉ A.children_node_ids; rw [hAid]; exact hcs_aid)
      exact mem_upd_of_ne s3 (by show A.node_id ≠ gpid; rw [hAid]; exact haidgp)
    have hA1 : getNode (moveActionUp g aid).nodes aid = some { A with parent_node_id := some gpid, children_node_ids := [bid] } := by
      have h2 := getNode_eq_some_of_mem hnd1 hA'mem
      rw [hAid] at h2
      rw [hAid]
      exact h2
    have hB'mem : ({ B with parent_node_id := some aid, children_node_ids := A.children_node_ids } : ActionNode) ∈ (moveActionUp g aid).nodes := by
      rw [hnodes1]
      have s1 : B ∈ upd g.nodes aid (fun n => { n with parent_node_id := some gpid, children_node_ids := [bid] }) :=
        mem_upd_of_ne hBmem (by rw [hBid]; exact hbidaid)
      have s2 : ({ B with parent_node_id := some aid, children_node_ids := A.children_node_ids } : ActionNode) ∈ upd (upd g.nodes aid (fun n => { n with parent_node_id := some gpid, children_node_ids := [bid] })) bid (fun n => { n with parent_node_id := some aid, children_node_ids := A.children_node_ids }) :=
        mem_upd_target s1 hBid
      have s3 := mem_updEach_of_not_mem (f := fun n => { n with parent_node_id := some bid }) (fun n => rfl) (fun n => rfl) s2 (by show B.node_id ∉ A.children_node_ids; rw [hBid]; exact hcs_bid)
      exact mem_upd_of_ne s3 (by show B.node_id ≠ gpid; rw [hBid]; exact hbidgp)
    have hB1 : getNode (moveActionUp g aid).nodes bid = some { B with parent_node_id := some aid, children_node_ids := A.children_node_ids } := by
      have h2 := getNode_eq_some_of_mem hnd1 hB'mem
      rw [hBid] at h2
      rw [hBid]
      exact h2
    have hcd : canMoveActionDown { A with parent_node_id := some gpid, children_node_ids := [bid] } = true := by
      simp [canMoveActionDown]
    have hnodes2 : (moveActionDown (moveActionUp g aid) aid).nodes
        = upd (updEach (upd (upd (moveActionUp g aid).nodes bid (fun n => { n with parent_node_id := some gpid, children_node_ids := [aid] })) aid (fun n => { n with parent_node_id := some bid, children_node_ids := A.children_node_ids })) A.children_node_ids (fun n => { n with parent_node_id := some aid })) gpid (fun n => { n with children_node_ids := replaceInList aid bid n.children_node_ids }) := by
      simp [moveActionDown, hA1, hcd, hB1, hgpne]
    have hsteps2 : (moveActionDown (moveActionUp g aid) aid).steps = (moveActionUp g aid).steps := by
      simp [moveActionDown, hA1, hcd, hB1, hgpne]
    have hname2 : (moveActionDown (moveActionUp g aid) aid).session_name = (moveActionUp g aid).session_name := by
      simp [moveActionDown, hA1, hcd, hB1, hgpne]
    apply graph_fields_ext
    · rw [hname2, hname1]
    · rw [hsteps2, hsteps1]
    · rw [hnodes2, hnodes1]
      have hue1 : updEach (upd (upd g.nodes aid (fun n => { n with parent_node_id := some gpid, children_node_ids := [bid] })) bid (fun n => { n with parent_node_id := some aid, children_node_ids := A.children_node_ids })) A.children_node_ids (fun n => { n with parent_node_id := some bid }) = (upd (upd g.nodes aid (fun n => { n with parent_node_id := some gpid, children_node_ids := [bid] })) bid (fun n => { n with parent_node_id := some aid, children_node_ids := A.children_node_ids })).map (fun n => if n.node_id ∈ A.children_node_ids then { n with parent_node_id := some bid } else n) :=
        updEach_eq_map (fun n => rfl) (fun n => rfl)
      rw [hue1]
      have hue2 : ∀ s : List ActionNode, updEach s A.children_node_ids (fun n => { n with parent_node_id := some aid }) = s.map (fun n => if n.node_id ∈ A.children_node_ids then { n with parent_node_id := some aid } else n) :=
        fun s => updEach_eq_map (fun n => rfl) (fun n => rfl)
      rw [hue2]
      unfold upd
      simp only [List.map_map]
      apply map_self_of_mem
      intro n hn
      simp only [Function.comp_apply]
      by_cases h1 : n.node_id = aid
      · have hnA : n = A := nodup_id_inj hndg hn hAmem (by rw [h1, hAid])
        subst hnA
        simp [hAid, haidbid, hcs_aid, haidgp, ← hpar]
        rw [← hAid]
      · by_cases h2 : n.node_id = bid
        · have hnB : n = B := nodup_id_inj hndg hn hBmem (by rw [h2, hBid])
          subst hnB
          simp [hBid, hbidaid, hcs_bid, hbidgp, ← hgp, ← hBch]
          rw [← hBid]
        · by_cases h3 : n.node_id ∈ A.children_node_ids
          · have hnp : n.parent_node_id = some aid := hchild n hn h3
            have hn_gp : n.node_id ≠ gpid := fun he => hgpcs (by rw [← he]; exact h3)
            simp [h1, h2, h3, hn_gp, ← hnp]
          · by_cases h4 : n.node_id = gpid
            · have hnG : n = G := nodup_id_inj hndg hn hGmem (by rw [h4, hGid])
              subst hnG
              simp [hGid, hgpaid, hgpbid, hgpcs, hrr]
              rw [← hGid]
            · simp [h1, h2, h3, h4]
  | none =>
    have hnodes1 : (moveActionUp g aid).nodes
        = updEach (upd (upd g.nodes aid (fun n => { n with parent_node_id := none, children_node_ids := [bid] })) bid (fun n => { n with parent_node_id := some aid, children_node_ids := A.children_node_ids })) A.children_node_ids (fun n => { n with parent_node_id := some bid }) := by
      simp [moveActionUp, hA, hcan, hpar, hB, hgp]
    have hsteps1 : (moveActionUp g aid).steps = updateFirstStep (fun s => s.root_node_ids.contains bid) (fun s => { s with root_node_ids := replaceInList bid aid s.root_node_ids }) g.steps := by
      simp [moveActionUp, hA, hcan, hpar, hB, hgp]
    have hname1 : (moveActionUp g aid).session_name = g.session_name := by
      simp [moveActionUp, hA, hcan, hpar, hB, hgp]
    have hids1 : (moveActionUp g aid).nodes.map (fun n => n.node_id) = g.nodes.map (fun n => n.node_id) := by
      rw [hnodes1, updEach_map_node_id, upd_map_node_id, upd_map_node_id]
      all_goals exact fun n => rfl
    have hnd1 : ((moveActionUp g aid).nodes.map (fun n => n.node_id)).Nodup := by
      rw [hids1]
      exact hndg
    have hA'mem : ({ A with parent_node_id := none, children_node_ids := [bid] } : ActionNode) ∈ (moveActionUp g aid).nodes := by
      rw [hnodes1]
      have s1 : ({ A with parent_node_id := none, children_node_ids := [bid] } : ActionNode) ∈ upd g.nodes aid (fun n => { n with parent_node_id := none, children_node_ids := [bid] }) :=
        mem_upd_target hAmem hAid
      have s2 := mem_upd_of_ne (i := bid) (f := fun n => { n with parent_node_id := some aid, children_node_ids := A.children_node_ids }) s1 (by show A.node_id ≠ bid; rw [hAid]; exact haidbid)
      exact mem_updEach_of_not_mem (f := fun n => { n with parent_node_id := some bid }) (fun n => rfl) (fun n => rfl) s2 (by show A.node_id ∉ A.children_node_ids; rw [hAid]; exact hcs_aid)
    have hA1 : getNode (moveActionUp g aid).nodes aid = some { A with parent_node_id := none, children_node_ids := [bid] } := by
      have h2 := getNode_eq_some_of_mem hnd1 hA'mem
      rw [hAid] at h2
      rw [hAid]
      exact h2
    have hB'mem : ({ B with parent_node_id := some aid, children_node_ids := A.children_node_ids } : ActionNode) ∈ (moveActionUp g aid).nodes := by
      rw [hnodes1]
      have s1 : B ∈ upd g.nodes aid (fun n => { n with parent_node_id := none, children_node_ids := [bid] }) :=
        mem_upd_of_ne hBmem (by rw [hBid]; exact hbidaid)
      have s2 : ({ B with parent_node_id := some aid, children_node_ids := A.children_node_ids } : ActionNode) ∈ upd (upd g.nodes aid (fun n => { n with parent_node_id := none, children_node_ids := [bid] })) bid (fun n => { n with parent_node_id := some aid, children_node_ids := A.children_node_ids }) :=
        mem_upd_target s1 hBid
      exact mem_updEach_of_not_mem (f := fun n => { n with parent_node_id := some bid }) (fun n => rfl) (fun n => rfl) s2 (by show B.node_id ∉ A.children_node_ids; rw [hBid]; exact hcs_bid)
    have hB1 : getNode (moveActionUp g aid).nodes bid = some { B with parent_node_id := some aid, children_node_ids := A.children_node_ids } := by
      have h2 := getNode_eq_some_of_mem hnd1 hB'mem
      rw [hBid] at h2
      rw [hBid]
      exact h2
    have hcd : canMoveActionDown { A with parent_node_id := none, children_node_ids := [bid] } = true := by
      simp [canMoveActionDown]
    have hnodes2 : (moveActionDown (moveActionUp g aid) aid).nodes
        = updEach (upd (upd (moveActionUp g aid).nodes bid (fun n => { n with parent_node_id := none, children_node_ids := [aid] })) aid (fun n => { n with parent_node_id := some bid, children_node_ids := A.children_node_ids })) A.children_node_ids (fun n => { n with parent_node_id := some aid }) := by
      simp [moveActionDown, hA1, hcd, hB1]
    have hsteps2 : (moveActionDown (moveActionUp g aid) aid).steps = updateFirstStep (fun s => s.root_node_ids.contains aid) (fun s => { s with root_node_ids := replaceInList aid bid s.root_node_ids }) (moveActionUp g aid).steps := by
      simp [moveActionDown, hA1, hcd, hB1]
    have hname2 : (moveActionDown (moveActionUp g aid) aid).session_name = (moveActionUp g aid).session_name := by
      simp [moveActionDown, hA1, hcd, hB1]
    apply graph_fields_ext
    · rw [hname2, hname1]
    · rw [hsteps2, hsteps1]
      by_cases hex : ∃ t ∈ g.steps, bid ∈ t.root_node_ids
      · obtain ⟨t0, ht0, hbid0⟩ := hex
        have hex2 : ∃ t ∈ g.steps, (t.root_node_ids.contains bid) = true :=
          ⟨t0, ht0, by simpa using hbid0⟩
        obtain ⟨l1, s2, l2, hst, hp2, hl1, hupd⟩ :=
          updateFirstStep_split (fun s => s.root_node_ids.contains bid)
            (fun s => { s with root_node_ids := replaceInList bid aid s.root_node_ids }) g.steps hex2
        rw [hupd]
        have hbmem2 : bid ∈ s2.root_node_ids := by simpa using hp2
        have hs2mem : s2 ∈ g.steps := by rw [hst]; simp
        obtain ⟨pre, post, hsp⟩ := List.append_of_mem hbmem2
        have hndr : (pre ++ bid :: post).Nodup := by
          rw [← hsp]
          exact roots_nodup_of_mem (wf_rootsNodup hwf) hs2mem
        obtain ⟨hb1, hb2⟩ := nodup_split_not_mem hndr
        have hanr : aid ∉ s2.root_node_ids := haidroots s2 hs2mem
        have ha1 : aid ∉ pre := fun hm => hanr (by rw [hsp]; exact List.mem_append_left _ hm)
        have ha2 : aid ∉ post := fun hm => hanr (by rw [hsp]; exact List.mem_append_right _ (List.mem_cons_of_mem _ hm))
        have hfr : replaceInList bid aid s2.root_node_ids = pre ++ aid :: post := by
          rw [hsp, replaceInList_split pre post hb1 hb2]
        have hl1x : ∀ t ∈ l1, ((fun s => s.root_node_ids.contains aid) t) = false := by
          intro t ht
          have htg : t ∈ g.steps := by rw [hst]; exact List.mem_append_left _ ht
          simpa using haidroots t htg
        have hp2x : ((fun s => s.root_node_ids.contains aid) ({ s2 with root_node_ids := replaceInList bid aid s2.root_node_ids } : StepDefinition)) = true := by
          simp [hfr]
        rw [updateFirstStep_of_split (fun s => s.root_node_ids.contains aid) (fun s => { s with root_node_ids := replaceInList aid bid s.root_node_ids }) ({ s2 with root_node_ids := replaceInList bid aid s2.root_node_ids } : StepDefinition) l2 l1 hl1x hp2x]
        have hback : replaceInList aid bid (replaceInList bid aid s2.root_node_ids) = s2.root_node_ids := by
          rw [hfr, replaceInList_split pre post ha1 ha2, ← hsp]
        rw [hst]
        simp [hback]
      · have hall : ∀ t ∈ g.steps, ((fun s => s.root_node_ids.contains bid) t) = false := by
          intro t ht
          have hnm : bid ∉ t.root_node_ids := fun hm => hex ⟨t, ht, hm⟩
          simpa using hnm
        rw [updateFirstStep_id _ _ g.steps hall]
        have hall2 : ∀ t ∈ g.steps, ((fun s => s.root_node_ids.contains aid) t) = false := by
          intro t ht
          simpa using haidroots t ht
        rw [updateFirstStep_id _ _ g.steps hall2]
    · rw [hnodes2, hnodes1]
      have hue1 : updEach (upd (upd g.nodes aid (fun n => { n with parent_node_id := none, children_node_ids := [bid] })) bid (fun n => { n with parent_node_id := some aid, children_node_ids := A.children_node_ids })) A.children_node_ids (fun n => { n with parent_node_id := some bid }) = (upd (upd g.nodes aid (fun n => { n with parent_node_id := none, children_node_ids := [bid] })) bid (fun n => { n with parent_node_id := some aid, children_node_ids := A.children_node_ids })).map (fun n => if n.node_id ∈ A.children_node_ids then { n with parent_node_id := some bid } else n) :=
        updEach_eq_map (fun n => rfl) (fun n => rfl)
      rw [hue1]
      have hue2 : ∀ s : List ActionNode, updEach s A.children_node_ids (fun n => { n with parent_node_id := some aid }) = s.map (fun n => if n.node_id ∈ A.children_node_ids then { n with parent_node_id := some aid } else n) :=
        fun s => updEach_eq_map (fun n => rfl) (fun n => rfl)
      rw [hue2]
      unfold upd
      simp only [List.map_map]
      apply map_self_of_mem
      intro n hn
      simp only [Function.comp_apply]
      by_cases h1 : n.node_id = aid
      · have hnA : n = A := nodup_id_inj hndg hn hAmem (by rw [h1, hAid])
        subst hnA
        simp [hAid, haidbid, hcs_aid, ← hpar]
        rw [← hAid]
      · by_cases h2 : n.node_id = bid
        · have hnB : n = B := nodup_id_inj hndg hn hBmem (by rw [h2, hBid])
          subst hnB
          simp [hBid, hbidaid, hcs_bid, ← hgp, ← hBch]
          rw [← hBid]
        · by_cases h3 : n.node_id ∈ A.children_node_ids
          · have hnp : n.parent_node_id = some aid := hchild n hn h3
            simp [h1, h2, h3, ← hnp]
          · simp [h1, h2, h3]

/-- C3 witness: the theorem applied to the four-node fixture, moving node `n`
up under its single-child parent `a` and back down. -/
theorem c3_move_up_down_witness :
    WF c2g ∧ getNode c2g.nodes ("n") = some c2N ∧ canMoveActionUp c2g c2N = true ∧
      moveActionDown (moveActionUp c2g ("n")) ("n") = c2g :=
  ⟨by decide, by decide, by decide,
    c3_move_up_down c2g ("n") c2N (by decide) (by decide) (by decide)⟩

/-! ### Claim C4 — serialize then deserialize is the identity up to node order -/

theorem mkNodeOfDict_toDict (n : ActionNode) : mkNodeOfDict n.to_dict = n := by
  cases n
  rfl

theorem fromDict_ok_dict (d : ActionNodeDict) (h1 : d.nodeId ≠ "")
    (h2 : d.actionLabelToExecute ≠ "") :
    ActionNode.from_dict d = .ok (mkNodeOfDict d) := by
  simp [ActionNode.from_dict, mkNodeOfDict, h1, h2]

theorem mapM_fromDict :
    ∀ l : List ActionNodeDict,
      (∀ d ∈ l, d.nodeId ≠ "" ∧ d.actionLabelToExecute ≠ "") →
      l.mapM ActionNode.from_dict = .ok (l.map mkNodeOfDict) := by
  intro l
  induction l with
  | nil => intro _; rfl
  | cons d t ih =>
    intro h
    rw [List.mapM_cons, fromDict_ok_dict d (h d (by simp)).1 (h d (by simp)).2,
      ih (fun x hx => h x (by simp [hx]))]
    rfl

theorem steps_roundtrip :
    ∀ (steps : List StepDefinition) (u : Nat → String),
      (∀ s ∈ steps, s.step_id ≠ "") →
      (steps.map StepDefinition.to_dict).mapIdx
          (fun i sd => StepDefinition.from_dict (u i) sd)
        = steps.map (fun s => StepDefinition.mk s.step_id s.step_name s.root_node_ids none) := by
  intro steps
  induction steps with
  | nil => intro u _; rfl
  | cons s t ih =>
    intro u h
    rw [List.map_cons, List.mapIdx_cons, List.map_cons,
      ih (fun i => u (i + 1)) (fun x hx => h x (by simp [hx]))]
    congr 1
    have hsid := h s (by simp)
    simp [StepDefinition.from_dict, StepDefinition.to_dict, hsid]

/-- C4 (confirmed): for a graph that passes validation (with the non-empty
ids and labels every constructed `ActionNode` has, and a non-empty session
name as the constructor requires), deserializing its serialized form
succeeds and yields a graph with the same session name, the same list of
steps in order (same `step_id`, `step_name`, `root_node_ids`), and a node
list that is a permutation of the original (hence the identical set of
nodes, each with identical label, parent and children). -/
theorem c4_serialization_roundtrip (g : SessionActionsGraph) (uuidGen : Nat → String)
    (hval : validateGraph g = .ok ()) (hname : g.session_name ≠ "")
    (hnodes : ∀ n ∈ g.nodes, n.node_id ≠ "" ∧ n.action_label_to_execute ≠ "") :
    ∃ g', SessionActionsGraph.from_dict uuidGen g.to_dict = .ok g' ∧
      g'.session_name = g.session_name ∧
      g'.steps.map (fun s => (s.step_id, s.step_name, s.root_node_ids))
        = g.steps.map (fun s => (s.step_id, s.step_name, s.root_node_ids)) ∧
      List.Perm g'.nodes g.nodes := by
  obtain ⟨hnd, hsteps, hnodescond⟩ := (validateGraph_ok_iff g).mp hval
  have hsortperm : List.Perm
      (List.insertionSort (fun a b => strLeB a.nodeId b.nodeId = true)
        (g.nodes.map ActionNode.to_dict))
      (g.nodes.map ActionNode.to_dict) :=
    List.perm_insertionSort _ _
  have hcond : ∀ d ∈ List.insertionSort (fun a b => strLeB a.nodeId b.nodeId = true)
      (g.nodes.map ActionNode.to_dict), d.nodeId ≠ "" ∧ d.actionLabelToExecute ≠ "" := by
    intro d hd
    have hd2 : d ∈ g.nodes.map ActionNode.to_dict := hsortperm.mem_iff.mp hd
    obtain ⟨n, hn, rfl⟩ := List.mem_map.mp hd2
    exact ⟨(hnodes n hn).1, (hnodes n hn).2⟩
  have hmapM := mapM_fromDict _ hcond
  have hperm2 : List.Perm
      ((List.insertionSort (fun a b => strLeB a.nodeId b.nodeId = true)
        (g.nodes.map ActionNode.to_dict)).map mkNodeOfDict) g.nodes := by
    have h1 := hsortperm.map mkNodeOfDict
    have h2 : (g.nodes.map ActionNode.to_dict).map mkNodeOfDict = g.nodes := by
      rw [List.map_map]
      have : mkNodeOfDict ∘ ActionNode.to_dict = id := by
        funext n
        exact mkNodeOfDict_toDict n
      rw [this, List.map_id]
    rw [h2] at h1
    exact h1
  have hstepsRT := steps_roundtrip g.steps uuidGen (fun s hs => (hsteps s hs).1)
  have hvalid2 : validateGraph
      (SessionActionsGraph.mk g.session_name
        (g.steps.map (fun s => StepDefinition.mk s.step_id s.step_name s.root_node_ids none))
        ((List.insertionSort (fun a b => strLeB a.nodeId b.nodeId = true)
          (g.nodes.map ActionNode.to_dict)).map mkNodeOfDict)) = .ok () := by
    rw [validateGraph_ok_iff]
    have hidsperm : List.Perm
        (((List.insertionSort (fun a b => strLeB a.nodeId b.nodeId = true)
          (g.nodes.map ActionNode.to_dict)).map mkNodeOfDict).map (fun n => n.node_id))
        (g.nodes.map (fun n => n.node_id)) := hperm2.map _
    refine ⟨hidsperm.nodup_iff.mpr hnd, ?_, ?_⟩
    · intro s2 hs2
      obtain ⟨s, hs, rfl⟩ := List.mem_map.mp hs2
      refine ⟨(hsteps s hs).1, ?_⟩
      intro r hr
      exact hidsperm.mem_iff.mpr ((hsteps s hs).2 r hr)
    · intro n hn
      have hnmem : n ∈ g.nodes := hperm2.mem_iff.mp hn
      constructor
      · intro p hp hemp
        exact hidsperm.mem_iff.mpr ((hnodescond n hnmem).1 p hp hemp)
      · intro c hc
        exact hidsperm.mem_iff.mpr ((hnodescond n hnmem).2 c hc)
  refine ⟨SessionActionsGraph.mk g.session_name
      (g.steps.map (fun s => StepDefinition.mk s.step_id s.step_name s.root_node_ids none))
      ((List.insertionSort (fun a b => strLeB a.nodeId b.nodeId = true)
        (g.nodes.map ActionNode.to_dict)).map mkNodeOfDict), ?_, rfl, ?_, hperm2⟩
  · have hdict : SessionActionsGraph.from_dict uuidGen g.to_dict
        = mkSessionActionsGraph g.session_name
            (g.steps.map (fun s => StepDefinition.mk s.step_id s.step_name s.root_node_ids none))
            ((List.insertionSort (fun a b => strLeB a.nodeId b.nodeId = true)
              (g.nodes.map ActionNode.to_dict)).map mkNodeOfDict) := by
      simp only [SessionActionsGraph.from_dict, SessionActionsGraph.to_dict]
      rw [if_neg hname]
      rw [hstepsRT, hmapM]
    rw [hdict]
    simp [mkSessionActionsGraph, hname, hvalid2]
  · rw [List.map_map]
    rfl

/-- C4 witness: the theorem applied to the concrete graph `rtGraph`. -/
theorem c4_serialization_roundtrip_witness :
    validateGraph rtGraph = .ok () ∧ rtGraph.session_name ≠ "" ∧
    (∀ n ∈ rtGraph.nodes, n.node_id ≠ "" ∧ n.action_label_to_execute ≠ "") ∧
    ∃ g', SessionActionsGraph.from_dict (fun _ => ("u")) rtGraph.to_dict = .ok g' ∧
      g'.session_name = rtGraph.session_name ∧
      g'.steps.map (fun s => (s.step_id, s.step_name, s.root_node_ids))
        = rtGraph.steps.map (fun s => (s.step_id, s.step_name, s.root_node_ids)) ∧
      List.Perm g'.nodes rtGraph.nodes :=
  ⟨by decide, by decide, by decide,
   c4_serialization_roundtrip rtGraph (fun _ => ("u")) (by decide) (by decide) (by decide)⟩

/-! ### Claim C6 — default-value resolution of `CustomFieldDefinition` -/

/-- C6 (corrected), counterexample to the claim as stated: for a `ColorRGBA`
field with no explicit default, `get_default_value_for_type` does not return
`{r:1,g:1,b:1,a:1}`; it raises `AttributeError`, because the comparison chain
references the nonexistent member `FieldType.RGBA`. -/
theorem c6_default_resolution_counterexample :
    (CustomFieldDefinition.mk ("c") .COLOR_RGBA none []).get_default_value_for_type
        = .error rgbaAttributeError ∧
      (CustomFieldDefinition.mk ("c") .COLOR_RGBA none []).get_default_value_for_type
        ≠ .ok (.dict [(("r"), .float 1), (("g"), .float 1), (("b"), .float 1),
          (("a"), .float 1)]) := by
  constructor
  · rfl
  · intro h
    exact absurd h (by decide)

/-- C6 (corrected), the amended claim: an explicit default is always returned;
with no explicit default, Boolean gives `false`, String `""`, Float `0.0`,
Integer `0`, Vector2 `{x:0,y:0}`, Vector3 `{x:0,y:0,z:0}`; for every other
field type (Quaternion, ColorRGBA, EnumString, AssetPathString,
ItemLabelReference) the method raises `AttributeError` instead of returning a
default, because the branch chain evaluates the nonexistent attribute
`FieldType.RGBA` before reaching those cases. -/
theorem c6_default_resolution :
    (∀ f : CustomFieldDefinition, ∀ v, f.default_value = some v →
      f.get_default_value_for_type = .ok v) ∧
    (∀ name ev,
      (CustomFieldDefinition.mk name .BOOLEAN none ev).get_default_value_for_type
          = .ok (.bool false) ∧
      (CustomFieldDefinition.mk name .STRING none ev).get_default_value_for_type
          = .ok (.str "") ∧
      (CustomFieldDefinition.mk name .FLOAT none ev).get_default_value_for_type
          = .ok (.float 0) ∧
      (CustomFieldDefinition.mk name .INTEGER none ev).get_default_value_for_type
          = .ok (.int 0) ∧
      (CustomFieldDefinition.mk name .VECTOR2 none ev).get_default_value_for_type
          = .ok (.dict [(("x"), .float 0), (("y"), .float 0)]) ∧
      (CustomFieldDefinition.mk name .VECTOR3 none ev).get_default_value_for_type
          = .ok (.dict [(("x"), .float 0), (("y"), .float 0), (("z"), .float 0)])) ∧
    (∀ name ev t, (t = .QUATERNION ∨ t = .COLOR_RGBA ∨ t = .ENUM_STRING ∨
        t = .ASSET_PATH_STRING ∨ t = .ITEM_LABEL_REFERENCE) →
      (CustomFieldDefinition.mk name t none ev).get_default_value_for_type
          = .error rgbaAttributeError) := by
  refine ⟨?_, ?_, ?_⟩
  · intro f v h
    unfold CustomFieldDefinition.get_default_value_for_type
    rw [h]
  · intro name ev
    exact ⟨rfl, rfl, rfl, rfl, rfl, rfl⟩
  · intro name ev t ht
    rcases ht with h | h | h | h | h <;> subst h <;> rfl

/-- C6 witness: the theorem applied at concrete inputs, discharging its
hypotheses there. -/
theorem c6_default_resolution_witness :
    ((CustomFieldDefinition.mk ("f") .FLOAT (some (.float 7)) []).default_value
        = some (.float 7)) ∧
    (CustomFieldDefinition.mk ("f") .FLOAT (some (.float 7)) []).get_default_value_for_type
        = .ok (.float 7) ∧
    ((FieldType.ENUM_STRING = .QUATERNION ∨ FieldType.ENUM_STRING = .COLOR_RGBA ∨
        FieldType.ENUM_STRING = .ENUM_STRING ∨ FieldType.ENUM_STRING = .ASSET_PATH_STRING ∨
        FieldType.ENUM_STRING = .ITEM_LABEL_REFERENCE)) ∧
    (CustomFieldDefinition.mk ("e") .ENUM_STRING none [("a")]).get_default_value_for_type
        = .error rgbaAttributeError :=
  ⟨by decide,
   c6_default_resolution.1 (CustomFieldDefinition.mk ("f") .FLOAT (some (.float 7)) [])
     (.float 7) (by decide),
   by decide,
   c6_default_resolution.2.2 ("e") [("a")] .ENUM_STRING (by decide)⟩

/-! ### Claim C7 — EnumString requires non-empty enum values -/

/-- C7 (corrected), counterexample to the claim as stated:
`CustomFieldDefinition` performs no check on `enum_values`, so an
`EnumString` field with an empty list is constructed successfully (and its
`enum_values` is empty). -/
theorem c7_enum_values_counterexample :
    mkCustomFieldDefinition ("e") .ENUM_STRING none (some [])
        = .ok (CustomFieldDefinition.mk ("e") .ENUM_STRING none []) ∧
      (CustomFieldDefinition.mk ("e") .ENUM_STRING none []).enum_values = [] := by
  exact ⟨rfl, rfl⟩

/-- C7 (corrected), the amended claim: the enforcement lives in
`SubActionFieldDefinition` only.  Constructing a `SubActionFieldDefinition`
with field type `EnumString` and an absent or empty `enum_values` list fails
with a construction error, and every successfully constructed
`SubActionFieldDefinition` with field type `EnumString` carries a non-empty
`enum_values` list; `CustomFieldDefinition` does not enforce the rule (the
counterexample constructs one with an empty list). -/
theorem c7_enum_values :
    (∀ name dv, name ≠ "" →
      mkSubActionFieldDefinition name .ENUM_STRING dv none
          = .error ("enum_values must be a non-empty list of strings for EnumString FieldType.") ∧
      mkSubActionFieldDefinition name .ENUM_STRING dv (some [])
          = .error ("enum_values must be a non-empty list of strings for EnumString FieldType.")) ∧
    (∀ name dv ev f, mkSubActionFieldDefinition name .ENUM_STRING dv ev = .ok f →
      ∃ l, f.enum_values = some l ∧ l ≠ []) := by
  constructor
  · intro name dv hname
    constructor
    · unfold mkSubActionFieldDefinition
      rw [if_neg hname]
      rfl
    · unfold mkSubActionFieldDefinition
      rw [if_neg hname]
      rfl
  · intro name dv ev f h
    unfold mkSubActionFieldDefinition at h
    split at h
    · exact absurd h (by simp)
    · split at h
      · split at h
        · exact absurd h (by simp)
        · rename_i l
          split at h
          · exact absurd h (by simp)
          · rename_i hl
            cases h
            exact ⟨dedupSort l, rfl, dedupSort_ne_nil hl⟩
      · rename_i hne
        exact absurd rfl hne

/-- C7 witness: the theorem applied at concrete inputs. -/
theorem c7_enum_values_witness :
    (("e" : String) ≠ "") ∧
    mkSubActionFieldDefinition ("e") .ENUM_STRING none (some [])
        = .error ("enum_values must be a non-empty list of strings for EnumString FieldType.") ∧
    mkSubActionFieldDefinition ("e") .ENUM_STRING none (some [("b"), ("a")])
        = .ok (SubActionFieldDefinition.mk ("e") .ENUM_STRING none (some [("a"), ("b")])) ∧
    ∃ l, (SubActionFieldDefinition.mk ("e") .ENUM_STRING none (some [("a"), ("b")])).enum_values
        = some l ∧ l ≠ [] :=
  ⟨by decide,
   ((c7_enum_values.1 ("e") none (by decide)).2),
   by decide,
   c7_enum_values.2 ("e") none (some [("b"), ("a")])
     (SubActionFieldDefinition.mk ("e") .ENUM_STRING none (some [("a"), ("b")]))
     (by decide)⟩

/-! ### Claim C8 — `StepDefinition` has no `enabled` field in the data model -/

/-- C8 (code_bug): the claim describes the spec's (and the GUI code's)
intent, but the data model defines no `enabled` attribute.  A newly
constructed `StepDefinition` has no `enabled` value (reading it, as
`_create_step_widget` does with `step_def.enabled`, raises
`AttributeError`), and serialization drops the dynamically assigned flag:
deserializing the serialized form of a step whose `enabled` was set to
`True` yields a step with no `enabled` attribute. -/
theorem c8_step_enabled_not_modeled :
    (mkStepDefinition ("u1") none ("s") none).enabled = none ∧
    readStepEnabled (mkStepDefinition ("u1") none ("s") none)
        = .error ("AttributeError: " ++ sq ++ "StepDefinition" ++ sq ++
            " object has no attribute " ++ sq ++ "enabled" ++ sq) ∧
    (stepEnabledChanged
        { session_name := ("G"), steps := [StepDefinition.mk ("s1") ("n") [] none],
          nodes := [] } ("s1") true).steps
      = [StepDefinition.mk ("s1") ("n") [] (some true)] ∧
    (StepDefinition.from_dict ("u2")
        (StepDefinition.to_dict (StepDefinition.mk ("s1") ("n") [] (some true)))).enabled
      = none := by
  exact ⟨rfl, rfl, by decide, rfl⟩

/-! ### Claim C9 — violated move preconditions are silent no-ops -/

/-- C9 (confirmed): when move-up is invoked on a node whose parent reference
is unset, or whose parent's children list does not have exactly one entry,
the graph is returned unchanged; likewise move-down on a node whose children
list does not have exactly one entry.  (The embedding is a total function, so
no exception can occur.) -/
theorem c9_move_preconditions_noop :
    ∀ (g : SessionActionsGraph) (nid : String) (n : ActionNode),
      g.get_node_by_id nid = some n →
      ((n.parent_node_id = none ∨
        (∀ p, n.parent_node_id = some p → ∀ pn, g.get_node_by_id p = some pn →
          pn.children_node_ids.length ≠ 1)) →
        moveActionUp g nid = g) ∧
      (n.children_node_ids.length ≠ 1 → moveActionDown g nid = g) := by
  intro g nid n hget
  have hget' : getNode g.nodes nid = some n := hget
  constructor
  · intro hpre
    have hcan : canMoveActionUp g n = false := by
      cases hp : n.parent_node_id with
      | none => simp [canMoveActionUp, hp]
      | some pid =>
        rcases hpre with hnone | hlen
        · rw [hp] at hnone
          cases hnone
        · by_cases hemp : pid = ""
          · simp [canMoveActionUp, hp, hemp]
          · cases hgp : getNode g.nodes pid with
            | none => simp [canMoveActionUp, hp, hemp, hgp]
            | some pn =>
              have hgp2 : g.get_node_by_id pid = some pn := hgp
              have hne := hlen pid hp pn hgp2
              simp [canMoveActionUp, hp, hemp, hgp, hne]
    simp [moveActionUp, hget', hcan]
  · intro hlen
    have hcan : canMoveActionDown n = false := by
      simp [canMoveActionDown, hlen]
    simp [moveActionDown, hget', hcan]

/-- C9 witness: move-up on a node whose parent has two children, and
move-down on a node with two children, leave a concrete graph unchanged. -/
theorem c9_move_preconditions_noop_witness :
    ({ session_name := ("W"),
       steps := [StepDefinition.mk ("s") ("") [("a")] none],
       nodes := [ActionNode.mk ("a") ("L") none [("b"), ("c")] ("") [],
                 ActionNode.mk ("b") ("L") (some ("a")) [] ("") [],
                 ActionNode.mk ("c") ("L") (some ("a")) [] ("") []] } :
      SessionActionsGraph).get_node_by_id ("a")
        = some (ActionNode.mk ("a") ("L") none [("b"), ("c")] ("") []) ∧
    moveActionUp
      { session_name := ("W"),
        steps := [StepDefinition.mk ("s") ("") [("a")] none],
        nodes := [ActionNode.mk ("a") ("L") none [("b"), ("c")] ("") [],
                  ActionNode.mk ("b") ("L") (some ("a")) [] ("") [],
                  ActionNode.mk ("c") ("L") (some ("a")) [] ("") []] } ("a")
      = { session_name := ("W"),
          steps := [StepDefinition.mk ("s") ("") [("a")] none],
          nodes := [ActionNode.mk ("a") ("L") none [("b"), ("c")] ("") [],
                    ActionNode.mk ("b") ("L") (some ("a")) [] ("") [],
                    ActionNode.mk ("c") ("L") (some ("a")) [] ("") []] } ∧
    moveActionDown
      { session_name := ("W"),
        steps := [StepDefinition.mk ("s") ("") [("a")] none],
        nodes := [ActionNode.mk ("a") ("L") none [("b"), ("c")] ("") [],
                  ActionNode.mk ("b") ("L") (some ("a")) [] ("") [],
                  ActionNode.mk ("c") ("L") (some ("a")) [] ("") []] } ("a")
      = { session_name := ("W"),
          steps := [StepDefinition.mk ("s") ("") [("a")] none],
          nodes := [ActionNode.mk ("a") ("L") none [("b"), ("c")] ("") [],
                    ActionNode.mk ("b") ("L") (some ("a")) [] ("") [],
                    ActionNode.mk ("c") ("L") (some ("a")) [] ("") []] } :=
  ⟨by decide,
   (c9_move_preconditions_noop _ ("a") (ActionNode.mk ("a") ("L") none [("b"), ("c")] ("") [])
       (by decide)).1 (Or.inl (by decide)),
   (c9_move_preconditions_noop _ ("a") (ActionNode.mk ("a") ("L") none [("b"), ("c")] ("") [])
       (by decide)).2 (by decide)⟩

end SAF
